import Mathlib

/-!
LOROptimisedOutput: frame encoder, command byte generator and layout planner.

A shallow embedding of `xLights/outputs/LOROptimisedOutput.cpp`.

* C `int` values (`unit_id`, `bank`, channel counts) are `Int`; bytes are `Nat`
  and every store into a `uint8_t` slot truncates modulo 256.
* The command buffer `uint8_t d[]` together with the running index `idx` is a
  `CmdBuf`: a total function from positions to bytes plus the index.
* Arrays of the class (`_lastSent`, `banks_changed`, `unit_id_in_use`) are total
  functions from indices to values.
* The intensity table `_data` of the base class is not part of this file and is
  a parameter `dataTbl` of every definition that reads it.
* Arrays carry no capacity: an index is a position of a total function, so the
  sizes of `d` (8192), of `banks_changed` and `color_mode` (`MAX_BANKS`) and of
  `unit_id_in_use` (255) do not appear in the definitions of the encoder itself.
  The size of `d` is added on top by `passBuffer`, `onePassBounded` and
  `SetManyChannelsBounded`, whose runs end in `Run.overrun` when a pass stores
  outside `d`; the assertions on the bank index are the conditions `passAsserts`.
* `while (controller_channels_to_process > 0)` may fail to terminate, so the pass
  loop runs on fuel and a call returns an `Option`.
-/

namespace LOROptimisedOutput

/-! ## Command buffer -/

/-- Conversion of a C `int` to a `uint8_t`. -/
def byteOfInt (x : Int) : Nat := (x % 256).toNat

/-- The buffer `uint8_t d[]` and the running index `idx`. -/
structure CmdBuf where
  d : Nat → Nat
  idx : Nat

/-- The statement `d[idx] = v;`. -/
def CmdBuf.store (b : CmdBuf) (v : Nat) : CmdBuf :=
  { b with d := fun j => if j = b.idx then v % 256 else b.d j }

/-- The statement `d[idx] |= m;`. -/
def CmdBuf.orIn (b : CmdBuf) (m : Nat) : CmdBuf :=
  b.store (b.d b.idx ||| m)

/-- The statement `idx++;`. -/
def CmdBuf.next (b : CmdBuf) : CmdBuf :=
  { b with idx := b.idx + 1 }

/-- The statement `d[idx++] = v;`. -/
def CmdBuf.push (b : CmdBuf) (v : Nat) : CmdBuf :=
  (b.store v).next

/-- Appending a list of bytes with `d[idx++] = v;` one after the other. -/
def CmdBuf.pushAll (b : CmdBuf) (bs : List Nat) : CmdBuf :=
  bs.foldl CmdBuf.push b

/-- The bytes `d[i], ..., d[j-1]`. -/
def slice (d : Nat → Nat) (i j : Nat) : List Nat :=
  (List.range (j - i)).map (fun k => d (i + k))

/-- The bytes handed to the transport by `Write((char *)d, idx)`. -/
def CmdBuf.bytes (b : CmdBuf) : List Nat :=
  slice b.d 0 b.idx

/-- A fresh local buffer with `idx = 0`. -/
def CmdBuf.empty : CmdBuf := { d := fun _ => 0, idx := 0 }

/-! ## GenerateCommand -/

/-- `LOROptimisedOutput::GenerateCommand`. -/
def GenerateCommand (b : CmdBuf) (unit_id bank : Int) (value_byte : Bool)
    (dbyte lsb msb : Nat) : CmdBuf :=
  let b := b.push 0
  let b := b.push (byteOfInt unit_id)
  let b :=
    if bank > 0 then
      let b := b.store 0x51
      let b := if value_byte then ((b.orIn 0x02).next).store dbyte else b
      let b := b.next
      let b := b.store (byteOfInt bank)
      let b := if msb = 0 then b.orIn 0x40 else if lsb = 0 then b.orIn 0x80 else b
      b.next
    else
      let b := if msb = 0 then b.store 0x31 else if lsb = 0 then b.store 0x21 else b.store 0x11
      let b := if value_byte then ((b.orIn 0x02).next).store dbyte else b
      b.next
  let b := if lsb ≠ 0 then b.push lsb else b
  let b := if msb ≠ 0 then b.push msb else b
  b

/-- The bytes one call of `GenerateCommand` appends, as a list. -/
def commandBytes (unit_id bank : Int) (value_byte : Bool) (dbyte lsb msb : Nat) : List Nat :=
  [0, byteOfInt unit_id]
    ++ (if bank > 0 then
          [0x51 ||| (if value_byte then 0x02 else 0)]
            ++ (if value_byte then [dbyte % 256] else [])
            ++ [byteOfInt bank ||| (if msb = 0 then 0x40 else if lsb = 0 then 0x80 else 0)]
        else
          [(if msb = 0 then 0x31 else if lsb = 0 then 0x21 else 0x11)
              ||| (if value_byte then 0x02 else 0)]
            ++ (if value_byte then [dbyte % 256] else []))
    ++ (if lsb ≠ 0 then [lsb % 256] else [])
    ++ (if msb ≠ 0 then [msb % 256] else [])

/-! ## Reference decoder for banked commands -/

/-- The fields a banked command (bank > 0) carries. -/
structure Decoded where
  unit_id : Nat
  bank : Nat
  value : Option Nat
  lsb : Nat
  msb : Nat
  deriving DecidableEq

/-- Decoding from the bank byte on: the two top bits of the bank byte say which
bitmask bytes follow. -/
def decodeTail (u : Nat) (value : Option Nat) : List Nat → Option Decoded
  | bb :: rest =>
    if bb / 64 = 0 then
      match rest with
      | [l, m] => some ⟨u, bb % 64, value, l, m⟩
      | _ => none
    else if bb / 64 = 1 then
      match rest with
      | [l] => some ⟨u, bb % 64, value, l, 0⟩
      | _ => none
    else if bb / 64 = 2 then
      match rest with
      | [m] => some ⟨u, bb % 64, value, 0, m⟩
      | _ => none
    else none
  | [] => none

/-- A decoder for the byte sequence of one banked command. -/
def decodeBanked : List Nat → Option Decoded
  | z :: u :: op :: rest =>
    if z = 0 ∧ op = 0x51 then decodeTail u none rest
    else if z = 0 ∧ op = 0x53 then
      match rest with
      | v :: rest2 => decodeTail u (some v) rest2
      | [] => none
    else none
  | _ => none

/-! ## Controllers and the layout planner -/

/-- `LorController::AddressMode`. -/
inductive AddressMode where
  | LOR_ADDR_MODE_NORMAL
  | LOR_ADDR_MODE_LEGACY
  | LOR_ADDR_MODE_SPLIT
  deriving DecidableEq

/-- What the output reads of a `LorController`: `GetType()`, `GetUnitId()`,
`GetNumChannels()` and `GetAddressMode()`. -/
structure LorController where
  type : String
  unit_id : Int
  num_channels : Int
  address_mode : AddressMode

/-- The value of `wxAtoi(type.substr(found + 5, type.length() - found - 5))` for the
three type names that reach it: the digits after "Pixie". -/
def outputs_per_card (type : String) : Int :=
  if type = "Pixie4" then 4 else if type = "Pixie8" then 8 else 16

/-- The loop `for (int i = 0; i < n; i++) unit_id_in_use[unit_id + i] = true;`. -/
def markIds (unit_id_in_use : Int → Bool) (unit_id : Int) : Nat → (Int → Bool)
  | 0 => unit_id_in_use
  | n + 1 => Function.update (markIds unit_id_in_use unit_id n) (unit_id + n) true

/-- The reference parameters of `CalcChannels` after the call, and the occupancy map. -/
structure Layout where
  channel_count : Int
  channels_per_pass : Int
  controller_channels_to_process : Int
  unit_id_in_use : Int → Bool

/-- `LOROptimisedOutput::CalcChannels`. Division of `int`s truncates towards zero. -/
def CalcChannels (channel_count : Int) (cntrl : LorController)
    (unit_id_in_use : Int → Bool) : Layout :=
  let addr_mode := cntrl.address_mode
  let type := cntrl.type
  let unit_id := cntrl.unit_id
  if type = "Pixie4" ∨ type = "Pixie8" ∨ type = "Pixie16" then
    -- `type.find("Pixie")` is position 0 for each of the three names
    let channels_per_pass := channel_count
    let channel_count := outputs_per_card type * channels_per_pass
    { channel_count := channel_count
      channels_per_pass := channels_per_pass
      controller_channels_to_process := channel_count
      unit_id_in_use := markIds unit_id_in_use unit_id (outputs_per_card type).toNat }
  else if addr_mode = AddressMode.LOR_ADDR_MODE_LEGACY then
    let channels_per_pass : Int := 16
    let num_ids := Int.tdiv channel_count channels_per_pass
    let num_ids := if num_ids * channels_per_pass < channel_count then num_ids + 1 else num_ids
    { channel_count := channel_count
      channels_per_pass := channels_per_pass
      controller_channels_to_process := channel_count
      unit_id_in_use := markIds unit_id_in_use unit_id num_ids.toNat }
  else if addr_mode = AddressMode.LOR_ADDR_MODE_SPLIT then
    { channel_count := channel_count
      channels_per_pass := Int.tdiv channel_count 2
      controller_channels_to_process := channel_count
      unit_id_in_use :=
        Function.update (Function.update unit_id_in_use unit_id true) (unit_id + 1) true }
  else
    { channel_count := channel_count
      channels_per_pass := channel_count
      controller_channels_to_process := channel_count
      unit_id_in_use := unit_id_in_use }

/-- The controller loop of `CalcTotalChannels`: the running total and the map. -/
def CalcTotalLoop : List LorController → Int × (Int → Bool) → Int × (Int → Bool)
  | [], acc => acc
  | it :: rest, acc =>
    let lay := CalcChannels it.num_channels it (Function.update acc.2 it.unit_id true)
    CalcTotalLoop rest (acc.1 + lay.channel_count, lay.unit_id_in_use)

/-- `LOROptimisedOutput::CalcTotalChannels`: the value stored in `_channels` and the
rebuilt occupancy map. The clearing loop covers the indices 0..254. -/
def CalcTotalChannels (controllers : List LorController) (unit_id_in_use : Int → Bool) :
    Int × (Int → Bool) :=
  let cleared : Int → Bool := fun i => if 0 ≤ i ∧ i < 255 then false else unit_id_in_use i
  CalcTotalLoop controllers (0, Function.update cleared 0 true)

/-! ## The frame encoder -/

/-- `LORDataPair`: a value and the bitmask of the channels of a bank that hold it. -/
structure LORDataPair where
  value : Nat
  bits : Nat
  deriving DecidableEq

/-- The search loop over `lorBankData[shift_offset]` with its `break`, followed by the
`push_back` when no record matched. -/
def addToBank (recs : List LORDataPair) (v chan_offset : Nat) : List LORDataPair :=
  match recs with
  | [] => [⟨v, 1 <<< chan_offset⟩]
  | r :: rest =>
    if r.value = v then ⟨r.value, r.bits ||| (1 <<< chan_offset)⟩ :: rest
    else r :: addToBank rest v chan_offset

/-- The variables of the gathering loop of one pass. -/
structure GroupState where
  lorBankData : Nat → List LORDataPair
  color_mode : Nat → Bool
  banks_changed : Nat → Bool
  _lastSent : Nat → Nat
  bank_changed : Bool
  frame_changed : Bool
  chan_offset : Nat
  shift_offset : Nat
  cur_channel : Nat

/-- One iteration of `while (channels_to_process > 0)`. -/
def groupStep (data : Nat → Nat) (channels_to_process : Nat) (s : GroupState) : GroupState :=
  let v := data s.cur_channel
  let color_mode :=
    if 0 < v ∧ v < 0xFF then Function.update s.color_mode s.shift_offset true
    else s.color_mode
  let lorBankData := Function.update s.lorBankData s.shift_offset
    (addToBank (s.lorBankData s.shift_offset) v s.chan_offset)
  let bank_changed := if v ≠ s._lastSent s.cur_channel then true else s.bank_changed
  let frame_changed := if v ≠ s._lastSent s.cur_channel then true else s.frame_changed
  let lastSent := Function.update s._lastSent s.cur_channel v
  let chan_offset := s.chan_offset + 1
  if chan_offset = 16 ∨ channels_to_process = 1 then
    { lorBankData := lorBankData
      color_mode := Function.update color_mode (s.shift_offset + 1) false
      banks_changed := Function.update s.banks_changed s.shift_offset bank_changed
      _lastSent := lastSent
      bank_changed := false
      frame_changed := frame_changed
      chan_offset := 0
      shift_offset := s.shift_offset + 1
      cur_channel := s.cur_channel + 1 }
  else
    { lorBankData := lorBankData
      color_mode := color_mode
      banks_changed := s.banks_changed
      _lastSent := lastSent
      bank_changed := bank_changed
      frame_changed := frame_changed
      chan_offset := chan_offset
      shift_offset := s.shift_offset
      cur_channel := s.cur_channel + 1 }

/-- The loop `while (channels_to_process > 0)` of one pass. -/
def groupLoop (data : Nat → Nat) : Nat → GroupState → GroupState
  | 0, s => s
  | n + 1, s => groupLoop data n (groupStep data (n + 1) s)

/-- The body of the first record loop of a bank (`value == 0`). -/
def zeroRecord (dataTbl : Nat → Nat) (unit_id : Int) (bank : Nat) (color : Bool)
    (num_bank_records : Nat) (b : CmdBuf) (r : LORDataPair) : CmdBuf :=
  if r.value = 0 then
    if num_bank_records = 1 then
      let b := b.push 0
      let b := b.push (byteOfInt unit_id)
      if bank > 0 then (b.push 0x51).push (0xC0 ||| bank) else b.push 0x41
    else if color then
      let lsb := r.bits &&& 0xFF
      let msb := (r.bits >>> 8) % 256
      let b := b.push 0
      let b := b.push (byteOfInt unit_id)
      let b := b.push 0x53
      let b := b.push (dataTbl 0)
      let b := b.store bank
      let b := if msb = 0 then b.orIn 0x40 else if lsb = 0 then b.orIn 0x80 else b
      let b := b.next
      let b := if lsb ≠ 0 then b.push lsb else b
      let b := if msb ≠ 0 then b.push msb else b
      b
    else b
  else b

/-- The body of the second record loop of a bank (`value == 0xFF`). -/
def fullOnRecord (dataTbl : Nat → Nat) (unit_id : Int) (bank : Nat) (b : CmdBuf)
    (r : LORDataPair) : CmdBuf :=
  if r.value = 0xFF then
    let lsb := r.bits &&& 0xFF
    let msb := (r.bits >>> 8) % 256
    let value_byte : Bool := decide (r.value ≠ 0xFF)
    GenerateCommand b unit_id bank value_byte (dataTbl r.value) lsb msb
  else b

/-- The body of the third record loop of a bank (values other than 0 and 0xFF). -/
def valueRecord (dataTbl : Nat → Nat) (unit_id : Int) (bank : Nat) (b : CmdBuf)
    (r : LORDataPair) : CmdBuf :=
  if r.value ≠ 0 ∧ r.value ≠ 0xFF then
    let lsb := r.bits &&& 0xFF
    let msb := (r.bits >>> 8) % 256
    let value_byte : Bool := decide (r.value ≠ 0xFF)
    GenerateCommand b unit_id bank value_byte (dataTbl r.value) lsb msb
  else b

/-- The body of `if (banks_changed[bank])`: the three record loops of one bank. -/
def emitBank (dataTbl : Nat → Nat) (unit_id : Int) (bank : Nat) (color : Bool)
    (recs : List LORDataPair) (b : CmdBuf) : CmdBuf :=
  let num_bank_records := recs.length
  let b := recs.foldl (zeroRecord dataTbl unit_id bank color num_bank_records) b
  let b := recs.foldl (fullOnRecord dataTbl unit_id bank) b
  let b := recs.foldl (valueRecord dataTbl unit_id bank) b
  b

/-- The loop `for (int bank = lorBankData.size() - 1; bank >= 0; --bank)`; the first
argument is the number of banks still to visit, so the bank visited is the one below. -/
def buildLoop (dataTbl : Nat → Nat) (unit_id : Int) (g : GroupState) : Nat → CmdBuf → CmdBuf
  | 0, b => b
  | bank + 1, b =>
    buildLoop dataTbl unit_id g bank
      (if g.banks_changed bank then
        emitBank dataTbl unit_id bank (g.color_mode bank) (g.lorBankData bank) b
      else b)

/-- The state the passes of one `SetManyChannels` call thread through: the history
arrays, the occupancy map (written by `CalcChannels`), the buffers handed to
`_serial->Write` so far, and the channel cursor. -/
structure EncState where
  _lastSent : Nat → Nat
  banks_changed : Nat → Bool
  unit_id_in_use : Int → Bool
  written : List (List Nat)
  cur_channel : Nat

/-- The state of the gathering loop at the start of a pass. -/
def groupInit (s : EncState) : GroupState :=
  { lorBankData := fun _ => []
    color_mode := fun _ => false
    banks_changed := s.banks_changed
    _lastSent := s._lastSent
    bank_changed := false
    frame_changed := false
    chan_offset := 0
    shift_offset := 0
    cur_channel := s.cur_channel }

/-- The body of `while (controller_channels_to_process > 0)`: one pass. The local
`color_mode` array is not initialised by the source; every entry the pass reads has
been written by the pass before. -/
def onePass (dataTbl data : Nat → Nat) (serial : Bool) (unit_id channels_per_pass : Int)
    (s : EncState) : EncState :=
  let size := (Int.tdiv channels_per_pass 16 + 1).toNat
  let g := groupLoop data channels_per_pass.toNat (groupInit s)
  let b := buildLoop dataTbl unit_id g size CmdBuf.empty
  let b := if g.frame_changed then (b.push 0x0).push 0x0 else b
  { _lastSent := g._lastSent
    banks_changed := g.banks_changed
    unit_id_in_use := s.unit_id_in_use
    written := if serial && g.frame_changed then s.written ++ [b.bytes] else s.written
    cur_channel := g.cur_channel }

/-- The loop `while (controller_channels_to_process > 0)`. It need not terminate (the
count does not decrease when `channels_per_pass` is 0), so it runs on fuel. -/
def passLoop (dataTbl data : Nat → Nat) (serial : Bool) (channels_per_pass : Int) :
    Nat → Int → Int → EncState → Option EncState
  | fuel, controller_channels_to_process, unit_id, s =>
    if controller_channels_to_process > 0 then
      match fuel with
      | 0 => none
      | fuel + 1 =>
        passLoop dataTbl data serial channels_per_pass fuel
          (controller_channels_to_process - channels_per_pass) (unit_id + 1)
          (onePass dataTbl data serial unit_id channels_per_pass s)
    else some s

/-- The loop over `_controllers.GetControllers()` of `SetManyChannels`. -/
def controllerLoop (dataTbl data : Nat → Nat) (serial : Bool) (fuel : Nat) :
    List LorController → EncState → Option EncState
  | [], s => some s
  | it :: rest, s =>
    let lay := CalcChannels it.num_channels it s.unit_id_in_use
    match passLoop dataTbl data serial lay.channels_per_pass fuel
        lay.controller_channels_to_process it.unit_id
        { s with unit_id_in_use := lay.unit_id_in_use } with
    | none => none
    | some s2 => controllerLoop dataTbl data serial fuel rest s2

/-- The members of the output that `SetManyChannels` reads or writes; `has_serial` is
`_serial != nullptr`, `tx_empty` the answer of `TxEmpty()`, `written` the buffers
handed to `_serial->Write`, oldest first. -/
structure Output where
  _enabled : Bool
  has_serial : Bool
  _ok : Bool
  tx_empty : Bool
  controllers : List LorController
  _lastSent : Nat → Nat
  banks_changed : Nat → Bool
  unit_id_in_use : Int → Bool
  _channels : Int
  written : List (List Nat)

/-- The part of `SetManyChannels` after the guards, with the final loop state. -/
def encodeFrame (dataTbl : Nat → Nat) (fuel : Nat) (o : Output) (channel : Nat)
    (data : Nat → Nat) : Option EncState :=
  controllerLoop dataTbl data o.has_serial fuel o.controllers
    { _lastSent := o._lastSent
      banks_changed := o.banks_changed
      unit_id_in_use := o.unit_id_in_use
      written := o.written
      cur_channel := channel }

/-- `LOROptimisedOutput::SetManyChannels`; `none` when the fuel of a pass loop runs
out. -/
def SetManyChannels (dataTbl : Nat → Nat) (fuel : Nat) (o : Output) (channel : Nat)
    (data : Nat → Nat) : Option Output :=
  if !o._enabled || !o.has_serial || !o._ok then some o
  else if !o.tx_empty then some o
  else
    match encodeFrame dataTbl fuel o channel data with
    | none => none
    | some s =>
      some { o with
        _lastSent := s._lastSent
        banks_changed := s.banks_changed
        unit_id_in_use := s.unit_id_in_use
        written := s.written }

/-! ## Byte lists of the bank commands and pure descriptions of a pass -/

/-- The low byte `bits & 0xFF` of a bitmask. -/
def lsbOf (bits : Nat) : Nat := bits &&& 0xFF

/-- The high byte `bits >> 8` of a bitmask, as a `uint8_t`. -/
def msbOf (bits : Nat) : Nat := (bits >>> 8) % 256

/-- The bytes of the all-off shortcut of a bank. -/
def allOffBytes (unit_id : Int) (bank : Nat) : List Nat :=
  [0, byteOfInt unit_id] ++ (if bank > 0 then [0x51, (0xC0 ||| bank) % 256] else [0x41])

/-- The bytes of the explicit zero-value command of a bank. -/
def zeroValueBytes (dataTbl : Nat → Nat) (unit_id : Int) (bank bits : Nat) : List Nat :=
  [0, byteOfInt unit_id, 0x53, dataTbl 0 % 256,
      bank % 256 ||| (if msbOf bits = 0 then 0x40 else if lsbOf bits = 0 then 0x80 else 0)]
    ++ (if lsbOf bits ≠ 0 then [lsbOf bits] else [])
    ++ (if msbOf bits ≠ 0 then [msbOf bits] else [])

/-- The bytes `zeroRecord` appends for one record. -/
def zeroBytes (dataTbl : Nat → Nat) (unit_id : Int) (bank : Nat) (color : Bool)
    (num_bank_records : Nat) (r : LORDataPair) : List Nat :=
  if r.value = 0 then
    if num_bank_records = 1 then allOffBytes unit_id bank
    else if color then zeroValueBytes dataTbl unit_id bank r.bits
    else []
  else []

/-- The bytes `fullOnRecord` appends for one record. -/
def fullOnBytes (dataTbl : Nat → Nat) (unit_id : Int) (bank : Nat) (r : LORDataPair) :
    List Nat :=
  if r.value = 0xFF then
    commandBytes unit_id bank false (dataTbl r.value) (lsbOf r.bits) (msbOf r.bits)
  else []

/-- The bytes `valueRecord` appends for one record. -/
def valueBytes (dataTbl : Nat → Nat) (unit_id : Int) (bank : Nat) (r : LORDataPair) :
    List Nat :=
  if r.value ≠ 0 ∧ r.value ≠ 0xFF then
    commandBytes unit_id bank true (dataTbl r.value) (lsbOf r.bits) (msbOf r.bits)
  else []

/-- The bytes `emitBank` appends for one bank. -/
def bankBytes (dataTbl : Nat → Nat) (unit_id : Int) (bank : Nat) (color : Bool)
    (recs : List LORDataPair) : List Nat :=
  recs.flatMap (zeroBytes dataTbl unit_id bank color recs.length)
    ++ recs.flatMap (fullOnBytes dataTbl unit_id bank)
    ++ recs.flatMap (valueBytes dataTbl unit_id bank)

/-- The bytes `buildLoop` appends when `n` banks are still to visit. -/
def buildBytes (dataTbl : Nat → Nat) (unit_id : Int) (g : GroupState) : Nat → List Nat
  | 0 => []
  | bank + 1 =>
    (if g.banks_changed bank then
        bankBytes dataTbl unit_id bank (g.color_mode bank) (g.lorBankData bank)
      else [])
      ++ buildBytes dataTbl unit_id g bank

/-- The number of channels of bank `b` in a pass of `n` channels. -/
def bankLen (n b : Nat) : Nat := min 16 (n - 16 * b)

/-- The number of banks that hold a channel in a pass of `n` channels. -/
def numBanks (n : Nat) : Nat := (n + 15) / 16

/-- The records of a bank after its first `k` channels, the bank starting at channel
`base`: the gathering loop restricted to one bank. -/
def groupUpTo (data : Nat → Nat) (base : Nat) : Nat → List LORDataPair
  | 0 => []
  | k + 1 => addToBank (groupUpTo data base k) (data (base + k)) k

/-- Some channel among `base, ..., base + k - 1` holds a value strictly between 0 and
0xFF. -/
def colorIn (data : Nat → Nat) (base k : Nat) : Bool :=
  (List.range k).any (fun i => decide (0 < data (base + i) ∧ data (base + i) < 0xFF))

/-- Some channel among `base, ..., base + k - 1` differs from its last sent value. -/
def changedIn (data lastSent : Nat → Nat) (base k : Nat) : Bool :=
  (List.range k).any (fun i => decide (data (base + i) ≠ lastSent (base + i)))

/-- The values of the channels `base, ..., base + k - 1`. -/
def channelValues (data : Nat → Nat) (base k : Nat) : List Nat :=
  (List.range k).map (fun i => data (base + i))

/-- The distinct values of a list, in order of first occurrence. -/
def firstOcc : List Nat → List Nat
  | [] => []
  | v :: vs => v :: (firstOcc vs).filter (fun w => decide (w ≠ v))

/-- The bitmask with bit `i` set for every `i < k` with channel `base + i` holding `v`. -/
def maskOf (data : Nat → Nat) (base v : Nat) : Nat → Nat
  | 0 => 0
  | k + 1 =>
    if data (base + k) = v then maskOf data base v k ||| (1 <<< k) else maskOf data base v k

/-- The command bytes of bank `b` of a pass of `n` channels that starts at channel
`start`, computed from the channel values alone. -/
def passBankBytes (dataTbl data : Nat → Nat) (unit_id : Int) (start n b : Nat) : List Nat :=
  bankBytes dataTbl unit_id b (colorIn data (start + 16 * b) (bankLen n b))
    (groupUpTo data (start + 16 * b) (bankLen n b))

/-- The command bytes of a whole pass: the banks with a changed channel, highest bank
first. -/
def passBytes (dataTbl data lastSent : Nat → Nat) (unit_id : Int) (start n : Nat) : List Nat :=
  (List.range (numBanks n)).reverse.flatMap (fun b =>
    if changedIn data lastSent (start + 16 * b) (bankLen n b) then
      passBankBytes dataTbl data unit_id start n b
    else [])

/-- The number of banks the gathering loop has closed after `j` of the `n` channels of
a pass. -/
def doneBanks (n j : Nat) : Nat := if j = n then numBanks j else j / 16

/-- The state of the gathering loop after `j` of the `n` channels of a pass that starts
at channel `start` with history `last0` and bank flags `bc0`. -/
structure GroupInv (data last0 : Nat → Nat) (bc0 : Nat → Bool) (start n j : Nat)
    (g : GroupState) : Prop where
  cur : g.cur_channel = start + j
  last : ∀ c, g._lastSent c = if start ≤ c ∧ c < start + j then data c else last0 c
  frame : g.frame_changed = changedIn data last0 start j
  shift : g.shift_offset = doneBanks n j
  chan : g.chan_offset = j - 16 * doneBanks n j
  recsDone : ∀ b, b < doneBanks n j →
    g.lorBankData b = groupUpTo data (start + 16 * b) (bankLen n b)
  colorDone : ∀ b, b < doneBanks n j →
    g.color_mode b = colorIn data (start + 16 * b) (bankLen n b)
  changedDone : ∀ b, b < doneBanks n j →
    g.banks_changed b = changedIn data last0 (start + 16 * b) (bankLen n b)
  recsCur : g.lorBankData (doneBanks n j)
    = groupUpTo data (start + 16 * doneBanks n j) (j - 16 * doneBanks n j)
  colorCur : g.color_mode (doneBanks n j)
    = colorIn data (start + 16 * doneBanks n j) (j - 16 * doneBanks n j)
  changedCur : g.bank_changed
    = changedIn data last0 (start + 16 * doneBanks n j) (j - 16 * doneBanks n j)
  recsRest : ∀ b, doneBanks n j < b → g.lorBankData b = []
  changedRest : ∀ b, doneBanks n j ≤ b → g.banks_changed b = bc0 b

/-- The value `CalcChannels` gives `channels_per_pass` for a controller. -/
def plannedPerPass (it : LorController) : Int :=
  (CalcChannels it.num_channels it (fun _ => false)).channels_per_pass

/-- The value `CalcChannels` gives `controller_channels_to_process` for a controller. -/
def plannedTotal (it : LorController) : Int :=
  (CalcChannels it.num_channels it (fun _ => false)).controller_channels_to_process

/-- How a later loop state `t` of a `SetManyChannels` call relates to an earlier one
`s`: the cursor has moved forward, the history holds the input on the channels passed
over and is untouched elsewhere, and nothing was written if none of those channels
differed from the history. -/
structure Extends (data : Nat → Nat) (s t : EncState) : Prop where
  cur : s.cur_channel ≤ t.cur_channel
  last : ∀ c, t._lastSent c
    = if s.cur_channel ≤ c ∧ c < t.cur_channel then data c else s._lastSent c
  quiet : (∀ c, s.cur_channel ≤ c → c < t.cur_channel → data c = s._lastSent c) →
    t.written = s.written

/-! ## Concrete states used to evaluate the definitions -/

/-- The loop state of a freshly initialised output: history all 0xFF, every bank flag
set, nothing written, cursor at channel 0. -/
def freshState : EncState :=
  { _lastSent := fun _ => 0xFF
    banks_changed := fun _ => true
    unit_id_in_use := fun _ => false
    written := []
    cur_channel := 0 }

/-- A ready output (enabled, transport present and idle) with freshly initialised
history and the given controllers. -/
def freshOutput (controllers : List LorController) : Output :=
  { _enabled := true
    has_serial := true
    _ok := true
    tx_empty := true
    controllers := controllers
    _lastSent := fun _ => 0xFF
    banks_changed := fun _ => true
    unit_id_in_use := fun _ => false
    _channels := 0
    written := [] }

/-- A non-Pixie controller with unit id 1. -/
def acController (num_channels : Int) (mode : AddressMode) : LorController :=
  { type := "AC Controller", unit_id := 1, num_channels := num_channels, address_mode := mode }

/-- A frame with 0 on channel 0, 0xFF on channel 1 and 7 everywhere else. -/
def mixedFrame : Nat → Nat := fun c => if c = 0 then 0 else if c = 1 then 0xFF else 7

/-! ## Passes of one controller and the unit ids it occupies -/

/-- The first `k` passes of a controller: pass `j` (counted from 0) is the loop body run
with unit id `unit_id + j`, one after the other. -/
def runPasses (dataTbl data : Nat → Nat) (serial : Bool) (channels_per_pass unit_id : Int)
    (k : Nat) (s : EncState) : EncState :=
  (List.range k).foldl
    (fun (t : EncState) (j : Nat) =>
      onePass dataTbl data serial (unit_id + (j : Int)) channels_per_pass t) s

/-- The number of consecutive unit ids, starting at its own, that `CalcChannels` marks
for a controller: the port count for a Pixie, the number of 16-channel units for Legacy
addressing, two for Split addressing, none otherwise. -/
def consumedIds (it : LorController) : Nat :=
  if it.type = "Pixie4" ∨ it.type = "Pixie8" ∨ it.type = "Pixie16" then
    (outputs_per_card it.type).toNat
  else if it.address_mode = AddressMode.LOR_ADDR_MODE_LEGACY then
    ((it.num_channels + 15) / 16).toNat
  else if it.address_mode = AddressMode.LOR_ADDR_MODE_SPLIT then 2
  else 0

/-- The effective channel count of a controller: channels per port times ports for a
Pixie, the channel count otherwise. -/
def effectiveCount (it : LorController) : Int :=
  if it.type = "Pixie4" ∨ it.type = "Pixie8" ∨ it.type = "Pixie16" then
    outputs_per_card it.type * it.num_channels
  else it.num_channels

/-- A Pixie controller of the given type with unit id 1. -/
def pixieController (type : String) (channels_per_port : Int) : LorController :=
  { type := type, unit_id := 1, num_channels := channels_per_port,
    address_mode := AddressMode.LOR_ADDR_MODE_NORMAL }

/-! ## AllOff -/

/-- The variables `AllOff` carries from pass to pass: the local `int bank`, which is
declared once before the controller loop, the occupancy map (written by `CalcChannels`)
and the buffers handed to `_serial->Write` so far. -/
structure AllOffState where
  bank : Nat
  unit_id_in_use : Int → Bool
  written : List (List Nat)

/-- The loop `while (channels_to_process > 0)` of `AllOff`. Every iteration takes 16
off `channels_to_process`, so the loop ends within `channels_to_process` iterations,
which is the fuel it is started with. -/
def allOffBankLoop (unit_id : Int) : Nat → Int → Nat → CmdBuf → CmdBuf × Nat
  | 0, _, bank, b => (b, bank)
  | fuel + 1, channels_to_process, bank, b =>
    if channels_to_process > 0 then
      let b := b.push 0
      let b := b.push (byteOfInt unit_id)
      let b := if bank > 0 then (b.push 0x51).push (0xC0 ||| bank) else b.push 0x41
      allOffBankLoop unit_id fuel (channels_to_process - 16) (bank + 1) b
    else (b, bank)

/-- The body of `while (controller_channels_to_process > 0)` of `AllOff`: one pass. -/
def allOffPass (serial : Bool) (unit_id channels_per_pass : Int) (st : AllOffState) :
    AllOffState :=
  let r := allOffBankLoop unit_id channels_per_pass.toNat channels_per_pass st.bank
    CmdBuf.empty
  let b := (r.1.push 0x0).push 0x0
  { bank := r.2
    unit_id_in_use := st.unit_id_in_use
    written := if serial then st.written ++ [b.bytes] else st.written }

/-- The loop `while (controller_channels_to_process > 0)` of `AllOff`, on fuel like the
one of `SetManyChannels`. -/
def allOffPassLoop (serial : Bool) (channels_per_pass : Int) :
    Nat → Int → Int → AllOffState → Option AllOffState
  | fuel, controller_channels_to_process, unit_id, st =>
    if controller_channels_to_process > 0 then
      match fuel with
      | 0 => none
      | fuel + 1 =>
        allOffPassLoop serial channels_per_pass fuel
          (controller_channels_to_process - channels_per_pass) (unit_id + 1)
          (allOffPass serial unit_id channels_per_pass st)
    else some st

/-- The loop over `_controllers.GetControllers()` of `AllOff`. -/
def allOffControllerLoop (serial : Bool) (fuel : Nat) :
    List LorController → AllOffState → Option AllOffState
  | [], st => some st
  | it :: rest, st =>
    let lay := CalcChannels it.num_channels it st.unit_id_in_use
    match allOffPassLoop serial lay.channels_per_pass fuel
        lay.controller_channels_to_process it.unit_id
        { st with unit_id_in_use := lay.unit_id_in_use } with
    | none => none
    | some st2 => allOffControllerLoop serial fuel rest st2

/-- `LOROptimisedOutput::AllOff`, up to the end of the controller loop; `none` when the
fuel of a pass loop runs out. The heartbeat and the settle delay that follow the loop
belong to the base class and are not modelled. -/
def AllOff (fuel : Nat) (o : Output) : Option Output :=
  match allOffControllerLoop o.has_serial fuel o.controllers
      { bank := 0, unit_id_in_use := o.unit_id_in_use, written := o.written } with
  | none => none
  | some st => some { o with unit_id_in_use := st.unit_id_in_use, written := st.written }

/-! ## History set-up, SetOneChannel and EndFrame -/

/-- `LOROptimisedOutput::SetupHistory`: the first `MAX_BANKS` bank flags are set. The
constant `MAX_BANKS` is declared outside this file and is a parameter. -/
def SetupHistory (MAX_BANKS : Nat) (banks_changed : Nat → Bool) : Nat → Bool :=
  fun i => if i < MAX_BANKS then true else banks_changed i

/-- The output together with the members only `SetOneChannel` and `EndFrame` use: the
frame under construction `_curData` and the flags `_changed` and `_suspend`. -/
structure FrameOutput where
  out : Output
  _curData : Nat → Nat
  _changed : Bool
  _suspend : Bool

/-- `LOROptimisedOutput::SetOneChannel`. The size of `_curData` is declared outside this
file and is the parameter `curDataSize`; both `memset`s cover that many bytes. -/
def SetOneChannel (MAX_BANKS curDataSize : Nat) (f : FrameOutput) (channel data : Nat) :
    FrameOutput :=
  if !f.out._enabled || !f.out.has_serial || !f.out._ok then f
  else
    let f :=
      if !f._changed then
        { f with
          out := { f.out with
            banks_changed := SetupHistory MAX_BANKS f.out.banks_changed
            _lastSent := fun i => if i < curDataSize then 0xFF else f.out._lastSent i }
          _curData := fun i => if i < curDataSize then 0x00 else f._curData i
          _changed := true }
      else f
    { f with _curData := Function.update f._curData channel data }

/-- `LOROptimisedOutput::EndFrame`, up to the call of the base class `EndFrame`. -/
def EndFrame (dataTbl : Nat → Nat) (fuel : Nat) (f : FrameOutput) : Option FrameOutput :=
  if !f.out._enabled || f._suspend then some f
  else if f._changed then
    match SetManyChannels dataTbl fuel f.out 0 f._curData with
    | none => none
    | some o => some { f with out := o, _changed := false }
  else some f

/-- A ready output with one single-channel controller in Normal addressing, an old
history (every channel last sent as 0, no bank flag set) and no frame under
construction. -/
def idleFrameOutput : FrameOutput :=
  { out := { freshOutput [acController 1 AddressMode.LOR_ADDR_MODE_NORMAL] with
      _lastSent := fun _ => 0
      banks_changed := fun _ => false }
    _curData := fun _ => 0
    _changed := false
    _suspend := false }

/-! ## Sizes -/

/-- The number of nonzero bitmask bytes of a bitmask. -/
def maskBytes (bits : Nat) : Nat :=
  (if lsbOf bits ≠ 0 then 1 else 0) + (if msbOf bits ≠ 0 then 1 else 0)

/-- An upper bound for the bytes one record adds to the buffer: five header bytes and
its nonzero bitmask bytes. -/
def recordWeight (r : LORDataPair) : Nat := 5 + maskBytes r.bits

/-- The number of passes of a controller with `total` channels to process and `per_pass`
channels per pass: the least `k` with `total ≤ k * per_pass`, none when there is nothing
to process. -/
def passCount (total per_pass : Int) : Nat :=
  if 0 < total ∧ 0 < per_pass then ((total - 1) / per_pass).toNat + 1 else 0

/-- What the rule "one write when a channel of the pass differs from the history, no
write otherwise" lets a pass of `n` channels starting at channel `start` hand to the
transport: the command bytes of the pass followed by the terminator, or nothing. -/
def passWrite (dataTbl data lastSent : Nat → Nat) (unit_id : Int) (start n : Nat) :
    List (List Nat) :=
  if changedIn data lastSent start n then
    [passBytes dataTbl data lastSent unit_id start n ++ [0, 0]]
  else []

/-- The writes of the passes of one controller whose first pass starts at channel
`start`: pass `j` has unit id `unit_id + j` and starts `j` passes further on. -/
def controllerWrites (dataTbl data lastSent : Nat → Nat) (it : LorController) (start : Nat) :
    List (List Nat) :=
  (List.range (passCount (plannedTotal it) (plannedPerPass it))).flatMap
    (fun (j : Nat) =>
      passWrite dataTbl data lastSent (it.unit_id + (j : Int))
        (start + j * (plannedPerPass it).toNat) (plannedPerPass it).toNat)

/-- The writes of a whole call that starts at channel `start`: those of the passes of
every controller, in order, each controller starting where the one before ended. -/
def callWrites (dataTbl data lastSent : Nat → Nat) : List LorController → Nat → List (List Nat)
  | [], _ => []
  | it :: rest, start =>
    controllerWrites dataTbl data lastSent it start
      ++ callWrites dataTbl data lastSent rest
          (start + passCount (plannedTotal it) (plannedPerPass it) * (plannedPerPass it).toNat)

/-! ## The per-pass buffer with its size, and the bank assertions -/

theorem byteOfInt_lt (x : Int) : byteOfInt x < 256 := by
  unfold byteOfInt; omega

theorem byteOfInt_natCast (u : Nat) (h : u < 256) : byteOfInt (u : Int) = u := by
  unfold byteOfInt; omega

theorem or_lt_256 {a b : Nat} (ha : a < 256) (hb : b < 256) : a ||| b < 256 :=
  @Nat.or_lt_two_pow a b 8 ha hb

@[ext]
theorem CmdBuf.ext {a b : CmdBuf} (hd : a.d = b.d) (hi : a.idx = b.idx) : a = b := by
  cases a; cases b; simp_all

@[simp]
theorem CmdBuf.pushAll_nil (b : CmdBuf) : b.pushAll [] = b := rfl

@[simp]
theorem CmdBuf.pushAll_cons (b : CmdBuf) (v : Nat) (bs : List Nat) :
    b.pushAll (v :: bs) = (b.push v).pushAll bs := rfl

theorem CmdBuf.pushAll_append (b : CmdBuf) (xs ys : List Nat) :
    b.pushAll (xs ++ ys) = (b.pushAll xs).pushAll ys := by
  simp [CmdBuf.pushAll, List.foldl_append]

theorem CmdBuf.store_store (b : CmdBuf) (v w : Nat) : (b.store v).store w = b.store w := by
  apply CmdBuf.ext
  · funext j
    simp only [CmdBuf.store]
    split_ifs <;> rfl
  · rfl

theorem CmdBuf.store_orIn (b : CmdBuf) (v m : Nat) :
    (b.store v).orIn m = b.store (v % 256 ||| m) := by
  simp [CmdBuf.orIn, CmdBuf.store_store]
  simp [CmdBuf.store]

theorem CmdBuf.store_next (b : CmdBuf) (v : Nat) : (b.store v).next = b.push v := rfl

theorem CmdBuf.push_mod (b : CmdBuf) (v : Nat) : b.push (v % 256) = b.push v := by
  simp [CmdBuf.push, CmdBuf.store]

theorem GenerateCommand_eq_pushAll (b : CmdBuf) (unit_id bank : Int) (value_byte : Bool)
    (dbyte lsb msb : Nat) :
    GenerateCommand b unit_id bank value_byte dbyte lsb msb
      = b.pushAll (commandBytes unit_id bank value_byte dbyte lsb msb) := by
  have hb2 : byteOfInt bank % 256 = byteOfInt bank := Nat.mod_eq_of_lt (byteOfInt_lt bank)
  cases value_byte <;> by_cases h1 : bank > 0 <;> by_cases h2 : msb = 0 <;>
    by_cases h3 : lsb = 0 <;>
    simp [GenerateCommand, commandBytes, CmdBuf.store_store, CmdBuf.store_orIn,
      CmdBuf.store_next, CmdBuf.push_mod, h1, h2, h3, hb2]

theorem CmdBuf.push_idx (b : CmdBuf) (v : Nat) : (b.push v).idx = b.idx + 1 := rfl

theorem CmdBuf.push_d_lt (b : CmdBuf) (v j : Nat) (h : j < b.idx) : (b.push v).d j = b.d j := by
  have : j ≠ b.idx := by omega
  simp [CmdBuf.push, CmdBuf.store, CmdBuf.next, this]

theorem CmdBuf.push_d_idx (b : CmdBuf) (v : Nat) : (b.push v).d b.idx = v % 256 := by
  simp [CmdBuf.push, CmdBuf.store, CmdBuf.next]

theorem CmdBuf.pushAll_idx (b : CmdBuf) (bs : List Nat) :
    (b.pushAll bs).idx = b.idx + bs.length := by
  induction bs generalizing b with
  | nil => rfl
  | cons v bs ih => simp [ih, CmdBuf.push_idx]; omega

theorem CmdBuf.pushAll_d_lt (b : CmdBuf) (bs : List Nat) (j : Nat) (h : j < b.idx) :
    (b.pushAll bs).d j = b.d j := by
  induction bs generalizing b with
  | nil => rfl
  | cons v bs ih =>
    rw [CmdBuf.pushAll_cons, ih (b.push v) (by rw [CmdBuf.push_idx]; omega),
      CmdBuf.push_d_lt b v j h]

theorem CmdBuf.pushAll_d_ge (b : CmdBuf) (bs : List Nat) (k : Nat) (h : k < bs.length) :
    (b.pushAll bs).d (b.idx + k) = bs.getD k 0 % 256 := by
  induction bs generalizing b k with
  | nil => simp at h
  | cons v bs ih =>
    rw [CmdBuf.pushAll_cons]
    cases k with
    | zero =>
      rw [CmdBuf.pushAll_d_lt _ _ _ (by rw [CmdBuf.push_idx]; omega)]
      simp [CmdBuf.push_d_idx]
    | succ k =>
      have h2 : k < bs.length := by simpa using h
      have := ih (b.push v) k h2
      rw [CmdBuf.push_idx] at this
      have e : b.idx + (k + 1) = b.idx + 1 + k := by omega
      rw [e, this]
      simp

theorem slice_append (d : Nat → Nat) (i j k : Nat) (h1 : i ≤ j) (h2 : j ≤ k) :
    slice d i k = slice d i j ++ slice d j k := by
  apply List.ext_getElem
  · simp [slice]; omega
  · intro n hn1 hn2
    simp only [slice, List.length_map, List.length_range] at hn1
    by_cases hlt : n < j - i
    · rw [List.getElem_append_left (by simpa [slice] using hlt)]
      simp [slice]
    · rw [List.getElem_append_right (by simpa [slice] using hlt)]
      simp [slice]
      congr 1
      omega

theorem slice_congr (d e : Nat → Nat) (i j : Nat) (h : ∀ k, i ≤ k → k < j → d k = e k) :
    slice d i j = slice e i j := by
  apply List.ext_getElem
  · simp [slice]
  · intro n hn1 _
    simp only [slice, List.length_map, List.length_range] at hn1
    simp only [slice, List.getElem_map, List.getElem_range]
    exact h _ (by omega) (by omega)

theorem CmdBuf.pushAll_slice (b : CmdBuf) (bs : List Nat) :
    slice (b.pushAll bs).d b.idx (b.pushAll bs).idx = bs.map (fun v => v % 256) := by
  apply List.ext_getElem
  · simp [slice, CmdBuf.pushAll_idx]
  · intro n hn1 hn2
    simp only [List.length_map] at hn2
    simp only [slice, List.getElem_map, List.getElem_range]
    rw [CmdBuf.pushAll_d_ge b bs n hn2]
    simp [List.getD_eq_getElem?_getD, List.getElem?_eq_getElem hn2]

theorem CmdBuf.pushAll_bytes (b : CmdBuf) (bs : List Nat) :
    (b.pushAll bs).bytes = b.bytes ++ bs.map (fun v => v % 256) := by
  unfold CmdBuf.bytes
  rw [slice_append _ 0 b.idx _ (Nat.zero_le _) (by rw [CmdBuf.pushAll_idx]; omega),
    CmdBuf.pushAll_slice]
  congr 1
  exact slice_congr _ _ _ _ (fun k _ hk => CmdBuf.pushAll_d_lt b bs k hk)

theorem map_mod_of_lt (bs : List Nat) (h : ∀ v ∈ bs, v < 256) :
    bs.map (fun v => v % 256) = bs := by
  induction bs with
  | nil => rfl
  | cons v bs ih =>
    simp only [List.map_cons]
    rw [ih (fun w hw => h w (List.mem_cons_of_mem _ hw)),
      Nat.mod_eq_of_lt (h v (List.mem_cons_self _ _))]

theorem commandBytes_lt (unit_id bank : Int) (value_byte : Bool) (dbyte lsb msb : Nat) :
    ∀ v ∈ commandBytes unit_id bank value_byte dbyte lsb msb, v < 256 := by
  have hu := byteOfInt_lt unit_id
  have hb := byteOfInt_lt bank
  have h40 : byteOfInt bank ||| 0x40 < 256 := or_lt_256 hb (by decide)
  have h80 : byteOfInt bank ||| 0x80 < 256 := or_lt_256 hb (by decide)
  have hd : dbyte % 256 < 256 := Nat.mod_lt _ (by decide)
  have hl : lsb % 256 < 256 := Nat.mod_lt _ (by decide)
  have hm : msb % 256 < 256 := Nat.mod_lt _ (by decide)
  intro v hv
  unfold commandBytes at hv
  cases value_byte <;> by_cases h1 : bank > 0 <;> by_cases h2 : msb = 0 <;>
    by_cases h3 : lsb = 0 <;> simp [h1, h2, h3] at hv <;> omega

/-- The bytes appended by `GenerateCommand` are exactly `commandBytes`, the index
advances by their number and the bytes below the old index are untouched. -/
theorem GenerateCommand_spec (b : CmdBuf) (unit_id bank : Int) (value_byte : Bool)
    (dbyte lsb msb : Nat) :
    slice (GenerateCommand b unit_id bank value_byte dbyte lsb msb).d b.idx
        (GenerateCommand b unit_id bank value_byte dbyte lsb msb).idx
      = commandBytes unit_id bank value_byte dbyte lsb msb
    ∧ (GenerateCommand b unit_id bank value_byte dbyte lsb msb).idx
      = b.idx + (commandBytes unit_id bank value_byte dbyte lsb msb).length
    ∧ ∀ j, j < b.idx →
        (GenerateCommand b unit_id bank value_byte dbyte lsb msb).d j = b.d j := by
  rw [GenerateCommand_eq_pushAll]
  refine ⟨?_, CmdBuf.pushAll_idx _ _, fun j hj => CmdBuf.pushAll_d_lt _ _ j hj⟩
  rw [CmdBuf.pushAll_slice, map_mod_of_lt _ (commandBytes_lt _ _ _ _ _ _)]

theorem bankFlag_facts : ∀ bank, bank < 64 →
    (bank ||| 0x40) / 64 = 1 ∧ (bank ||| 0x40) % 64 = bank
    ∧ (bank ||| 0x80) / 64 = 2 ∧ (bank ||| 0x80) % 64 = bank
    ∧ (bank ||| 0) / 64 = 0 ∧ (bank ||| 0) % 64 = bank
    ∧ (bank ||| 0x40).testBit 6 = true ∧ (bank ||| 0x40).testBit 7 = false
    ∧ (bank ||| 0x80).testBit 6 = false ∧ (bank ||| 0x80).testBit 7 = true
    ∧ (bank ||| 0).testBit 6 = false ∧ (bank ||| 0).testBit 7 = false := by
  decide

/-- The bytes `GenerateCommand` appends for a bank in 1..63, spelled out. -/
theorem GenerateCommand_banked_slice (b : CmdBuf) (u bank : Nat) (value_byte : Bool)
    (dbyte lsb msb : Nat) (hu : u < 256) (hb1 : 1 ≤ bank) (hb2 : bank ≤ 63)
    (hd : dbyte < 256) (hl : lsb < 256) (hm : msb < 256) :
    slice (GenerateCommand b u bank value_byte dbyte lsb msb).d b.idx
        (GenerateCommand b u bank value_byte dbyte lsb msb).idx
      = [0, u] ++ (if value_byte then [0x53, dbyte] else [0x51])
          ++ [bank ||| (if msb = 0 then 0x40 else if lsb = 0 then 0x80 else 0)]
          ++ (if lsb ≠ 0 then [lsb] else []) ++ (if msb ≠ 0 then [msb] else []) := by
  have hbank : ((bank : Nat) : Int) > 0 := by omega
  have hbb : byteOfInt (bank : Int) = bank := byteOfInt_natCast bank (by omega)
  have hub : byteOfInt (u : Int) = u := byteOfInt_natCast u hu
  rw [(GenerateCommand_spec b u bank value_byte dbyte lsb msb).1]
  cases value_byte <;> by_cases h2 : msb = 0 <;> by_cases h3 : lsb = 0 <;>
    simp [commandBytes, hbank, hbb, hub, h2, h3, Nat.mod_eq_of_lt, hd, hl, hm]

/-! ## Claims about the command byte generator -/

/-- C7: for a bank in 1..63 `GenerateCommand` appends 0x00, the unit id, the opcode
(0x51, or 0x53 followed by the value byte), the bank byte (the bank with bit 0x40 set iff
msb is zero, bit 0x80 set iff lsb is zero and msb is not, no flag bit iff both are
nonzero), then lsb if nonzero, then msb if nonzero; the index advances by the number of
appended bytes and the bytes below the old index are unchanged. -/
theorem GenerateCommand_banked (b : CmdBuf) (u bank : Nat) (value_byte : Bool)
    (dbyte lsb msb : Nat) (hu : u < 256) (hb1 : 1 ≤ bank) (hb2 : bank ≤ 63)
    (hd : dbyte < 256) (hl : lsb < 256) (hm : msb < 256) :
    slice (GenerateCommand b u bank value_byte dbyte lsb msb).d b.idx
        (GenerateCommand b u bank value_byte dbyte lsb msb).idx
      = [0, u] ++ (if value_byte then [0x53, dbyte] else [0x51])
          ++ [bank ||| (if msb = 0 then 0x40 else if lsb = 0 then 0x80 else 0)]
          ++ (if lsb ≠ 0 then [lsb] else []) ++ (if msb ≠ 0 then [msb] else [])
    ∧ (GenerateCommand b u bank value_byte dbyte lsb msb).idx
      = b.idx + 2 + (if value_byte then 2 else 1) + 1
          + (if lsb ≠ 0 then 1 else 0) + (if msb ≠ 0 then 1 else 0)
    ∧ (∀ j, j < b.idx → (GenerateCommand b u bank value_byte dbyte lsb msb).d j = b.d j)
    ∧ (bank ||| (if msb = 0 then 0x40 else if lsb = 0 then 0x80 else 0)) % 64 = bank
    ∧ ((bank ||| (if msb = 0 then 0x40 else if lsb = 0 then 0x80 else 0)).testBit 6 = true
        ↔ msb = 0)
    ∧ ((bank ||| (if msb = 0 then 0x40 else if lsb = 0 then 0x80 else 0)).testBit 7 = true
        ↔ (lsb = 0 ∧ msb ≠ 0)) := by
  obtain ⟨_, h2, h3⟩ := GenerateCommand_spec b u bank value_byte dbyte lsb msb
  have hbank : ((bank : Nat) : Int) > 0 := by omega
  obtain ⟨_, f2, _, f4, _, f6, f7, f8, f9, f10, f11, f12⟩ := bankFlag_facts bank (by omega)
  refine ⟨GenerateCommand_banked_slice b u bank value_byte dbyte lsb msb hu hb1 hb2 hd hl hm,
    ?_, h3, ?_, ?_, ?_⟩
  · rw [h2]
    cases value_byte <;> by_cases h2 : msb = 0 <;> by_cases h3 : lsb = 0 <;>
      simp [commandBytes, hbank, h2, h3]
  · by_cases h2 : msb = 0
    · rw [if_pos h2]; exact f2
    · by_cases h3 : lsb = 0
      · rw [if_neg h2, if_pos h3]; exact f4
      · rw [if_neg h2, if_neg h3]; exact f6
  · by_cases h2 : msb = 0
    · rw [if_pos h2]; exact iff_of_true f7 h2
    · by_cases h3 : lsb = 0
      · rw [if_neg h2, if_pos h3]; exact iff_of_false (by rw [f9]; simp) h2
      · rw [if_neg h2, if_neg h3]; exact iff_of_false (by rw [f11]; simp) h2
  · by_cases h2 : msb = 0
    · rw [if_pos h2]; exact iff_of_false (by rw [f8]; simp) (fun h => h.2 h2)
    · by_cases h3 : lsb = 0
      · rw [if_neg h2, if_pos h3]; exact iff_of_true f10 ⟨h3, h2⟩
      · rw [if_neg h2, if_neg h3]; exact iff_of_false (by rw [f12]; simp) (fun h => h3 h.1)


theorem GenerateCommand_banked_witness :
    ((5 : Nat) < 256 ∧ 1 ≤ (3 : Nat) ∧ (3 : Nat) ≤ 63 ∧ (7 : Nat) < 256 ∧ (1 : Nat) < 256
      ∧ (0 : Nat) < 256)
    ∧ slice (GenerateCommand CmdBuf.empty 5 3 true 7 1 0).d 0
        (GenerateCommand CmdBuf.empty 5 3 true 7 1 0).idx = [0, 5, 0x53, 7, 0x43, 1] :=
  ⟨by decide, (GenerateCommand_banked CmdBuf.empty 5 3 true 7 1 0 (by decide) (by decide)
    (by decide) (by decide) (by decide) (by decide)).1⟩

/-- C2: round trip. Decoding the bytes `GenerateCommand` appends for a bank in 1..63 and
a bitmask that is not all zero with `decodeBanked` gives back the unit id, the bank,
the value byte when one is present, and both bitmask bytes. -/
theorem GenerateCommand_roundtrip (b : CmdBuf) (u bank : Nat) (value_byte : Bool)
    (dbyte lsb msb : Nat) (hu : u < 256) (hb1 : 1 ≤ bank) (hb2 : bank ≤ 63)
    (hd : dbyte < 256) (hl : lsb < 256) (hm : msb < 256) (hnz : ¬ (lsb = 0 ∧ msb = 0)) :
    decodeBanked (slice (GenerateCommand b u bank value_byte dbyte lsb msb).d b.idx
        (GenerateCommand b u bank value_byte dbyte lsb msb).idx)
      = some ⟨u, bank, if value_byte then some dbyte else none, lsb, msb⟩ := by
  rw [GenerateCommand_banked_slice b u bank value_byte dbyte lsb msb hu hb1 hb2 hd hl hm]
  obtain ⟨f1, f2, f3, f4, f5, f6, _⟩ := bankFlag_facts bank (by omega)
  cases value_byte <;> by_cases h2 : msb = 0 <;> by_cases h3 : lsb = 0 <;>
    simp_all [decodeBanked, decodeTail]

theorem GenerateCommand_roundtrip_witness :
    ((5 : Nat) < 256 ∧ 1 ≤ (3 : Nat) ∧ (3 : Nat) ≤ 63 ∧ (7 : Nat) < 256 ∧ (0 : Nat) < 256
      ∧ (9 : Nat) < 256 ∧ ¬ ((0 : Nat) = 0 ∧ (9 : Nat) = 0))
    ∧ decodeBanked (slice (GenerateCommand CmdBuf.empty 5 3 true 7 0 9).d 0
        (GenerateCommand CmdBuf.empty 5 3 true 7 0 9).idx)
      = some ⟨5, 3, some 7, 0, 9⟩ :=
  ⟨by decide, GenerateCommand_roundtrip CmdBuf.empty 5 3 true 7 0 9 (by decide) (by decide)
    (by decide) (by decide) (by decide) (by decide) (by decide)⟩

/-- C6 as stated fails: with both bitmask bytes nonzero the bank-0 opcode is 0x11, not
0x31, and with msb zero (lsb only) it is 0x31, not 0x11. -/
theorem GenerateCommand_bank0_counterexample :
    (GenerateCommand CmdBuf.empty 1 0 false 0 1 1).bytes = [0, 1, 0x11, 1, 1]
    ∧ (GenerateCommand CmdBuf.empty 1 0 false 0 1 1).d 2 ≠ 0x31
    ∧ (GenerateCommand CmdBuf.empty 1 0 false 0 1 0).bytes = [0, 1, 0x31, 1]
    ∧ (GenerateCommand CmdBuf.empty 1 0 false 0 1 0).d 2 ≠ 0x11 := by
  decide

/-- C6, amended: for bank 0 `GenerateCommand` appends 0x00, the unit id, then the
opcode 0x31 when msb is zero, 0x21 when lsb is zero and msb is not, 0x11 when both are
nonzero, with bit 0x02 ORed in and the value byte right after it when a value byte is
required, then lsb if nonzero, then msb if nonzero. -/
theorem GenerateCommand_bank0 (b : CmdBuf) (u : Nat) (value_byte : Bool)
    (dbyte lsb msb : Nat) (hu : u < 256) (hd : dbyte < 256) (hl : lsb < 256)
    (hm : msb < 256) :
    slice (GenerateCommand b u 0 value_byte dbyte lsb msb).d b.idx
        (GenerateCommand b u 0 value_byte dbyte lsb msb).idx
      = [0, u]
          ++ [(if msb = 0 then 0x31 else if lsb = 0 then 0x21 else 0x11)
                ||| (if value_byte then 0x02 else 0)]
          ++ (if value_byte then [dbyte] else [])
          ++ (if lsb ≠ 0 then [lsb] else []) ++ (if msb ≠ 0 then [msb] else []) := by
  rw [(GenerateCommand_spec b u 0 value_byte dbyte lsb msb).1]
  have hub : byteOfInt (u : Int) = u := byteOfInt_natCast u hu
  cases value_byte <;> by_cases h2 : msb = 0 <;> by_cases h3 : lsb = 0 <;>
    simp [commandBytes, hub, h2, h3, Nat.mod_eq_of_lt, hd, hl, hm]

theorem GenerateCommand_bank0_witness :
    ((1 : Nat) < 256 ∧ (7 : Nat) < 256 ∧ (1 : Nat) < 256 ∧ (1 : Nat) < 256)
    ∧ slice (GenerateCommand CmdBuf.empty 1 0 true 7 1 1).d 0
        (GenerateCommand CmdBuf.empty 1 0 true 7 1 1).idx = [0, 1, 0x13, 7, 1, 1] :=
  ⟨by decide, GenerateCommand_bank0 CmdBuf.empty 1 true 7 1 1 (by decide) (by decide)
    (by decide) (by decide)⟩


/-! ## The command building loop appends byte lists -/

theorem zeroRecord_eq_pushAll (dataTbl : Nat → Nat) (unit_id : Int) (bank : Nat)
    (color : Bool) (n : Nat) (b : CmdBuf) (r : LORDataPair) :
    zeroRecord dataTbl unit_id bank color n b r
      = b.pushAll (zeroBytes dataTbl unit_id bank color n r) := by
  unfold zeroRecord zeroBytes
  by_cases hv : r.value = 0
  · by_cases hn : n = 1
    · by_cases hb : bank > 0 <;> simp [hv, hn, hb, allOffBytes, CmdBuf.push_mod]
    · cases color
      · simp [hv, hn]
      · by_cases h2 : (r.bits >>> 8) % 256 = 0 <;> by_cases h3 : r.bits &&& 0xFF = 0 <;>
          simp [hv, hn, zeroValueBytes, lsbOf, msbOf, h2, h3, CmdBuf.store_orIn,
            CmdBuf.store_next, CmdBuf.push_mod]
  · simp [hv]

theorem fullOnRecord_eq_pushAll (dataTbl : Nat → Nat) (unit_id : Int) (bank : Nat)
    (b : CmdBuf) (r : LORDataPair) :
    fullOnRecord dataTbl unit_id bank b r
      = b.pushAll (fullOnBytes dataTbl unit_id bank r) := by
  unfold fullOnRecord fullOnBytes
  by_cases hv : r.value = 0xFF
  · simp [hv, GenerateCommand_eq_pushAll, lsbOf, msbOf]
  · simp [hv]

theorem valueRecord_eq_pushAll (dataTbl : Nat → Nat) (unit_id : Int) (bank : Nat)
    (b : CmdBuf) (r : LORDataPair) :
    valueRecord dataTbl unit_id bank b r
      = b.pushAll (valueBytes dataTbl unit_id bank r) := by
  unfold valueRecord valueBytes
  by_cases hv : r.value ≠ 0 ∧ r.value ≠ 0xFF
  · simp [hv, GenerateCommand_eq_pushAll, lsbOf, msbOf]
  · simp [hv]

theorem foldl_pushAll {α : Type} (f : CmdBuf → α → CmdBuf) (g : α → List Nat)
    (h : ∀ b r, f b r = b.pushAll (g r)) (recs : List α) (b : CmdBuf) :
    recs.foldl f b = b.pushAll (recs.flatMap g) := by
  induction recs generalizing b with
  | nil => simp
  | cons r rest ih =>
    simp only [List.foldl_cons, List.flatMap_cons, CmdBuf.pushAll_append]
    rw [h, ih]

theorem emitBank_eq_pushAll (dataTbl : Nat → Nat) (unit_id : Int) (bank : Nat)
    (color : Bool) (recs : List LORDataPair) (b : CmdBuf) :
    emitBank dataTbl unit_id bank color recs b
      = b.pushAll (bankBytes dataTbl unit_id bank color recs) := by
  unfold emitBank bankBytes
  simp only [CmdBuf.pushAll_append]
  rw [foldl_pushAll _ _ (zeroRecord_eq_pushAll dataTbl unit_id bank color recs.length),
    foldl_pushAll _ _ (fullOnRecord_eq_pushAll dataTbl unit_id bank),
    foldl_pushAll _ _ (valueRecord_eq_pushAll dataTbl unit_id bank)]

theorem buildLoop_eq_pushAll (dataTbl : Nat → Nat) (unit_id : Int) (g : GroupState)
    (n : Nat) (b : CmdBuf) :
    buildLoop dataTbl unit_id g n b = b.pushAll (buildBytes dataTbl unit_id g n) := by
  induction n generalizing b with
  | zero => simp [buildLoop, buildBytes]
  | succ n ih =>
    simp only [buildLoop, buildBytes, CmdBuf.pushAll_append]
    rw [ih]
    by_cases hc : g.banks_changed n = true
    · simp [hc, emitBank_eq_pushAll]
    · simp [hc]


/-! ## The gathering loop -/

theorem changedIn_succ (data last : Nat → Nat) (base k : Nat) :
    changedIn data last base (k + 1)
      = (if data (base + k) ≠ last (base + k) then true else changedIn data last base k) := by
  unfold changedIn
  rw [List.range_succ, List.any_append]
  by_cases h : data (base + k) = last (base + k) <;> simp [h]

theorem colorIn_succ (data : Nat → Nat) (base k : Nat) :
    colorIn data base (k + 1)
      = (if 0 < data (base + k) ∧ data (base + k) < 0xFF then true
          else colorIn data base k) := by
  unfold colorIn
  rw [List.range_succ, List.any_append]
  by_cases h : 0 < data (base + k) ∧ data (base + k) < 0xFF <;> simp [h]

theorem changedIn_iff (data last : Nat → Nat) (base k : Nat) :
    changedIn data last base k = true ↔ ∃ i, i < k ∧ data (base + i) ≠ last (base + i) := by
  simp [changedIn]

theorem colorIn_iff (data : Nat → Nat) (base k : Nat) :
    colorIn data base k = true
      ↔ ∃ i, i < k ∧ 0 < data (base + i) ∧ data (base + i) < 0xFF := by
  simp [colorIn]

theorem groupInit_inv (data : Nat → Nat) (s : EncState) (n : Nat) :
    GroupInv data s._lastSent s.banks_changed s.cur_channel n 0 (groupInit s) := by
  have hD : doneBanks n 0 = 0 := by unfold doneBanks numBanks; split_ifs <;> omega
  have hlast : ∀ c, s._lastSent c
      = if s.cur_channel ≤ c ∧ c < s.cur_channel + 0 then data c else s._lastSent c := by
    intro c
    have : ¬ (s.cur_channel ≤ c ∧ c < s.cur_channel + 0) := by omega
    rw [if_neg this]
  constructor
  · rfl
  · exact hlast
  all_goals simp [groupInit, hD, changedIn, colorIn, groupUpTo]

theorem groupStep_inv (data last0 : Nat → Nat) (bc0 : Nat → Bool) (start n j : Nat)
    (g : GroupState) (h : GroupInv data last0 bc0 start n j g) (hj : j < n) :
    GroupInv data last0 bc0 start n (j + 1) (groupStep data (n - j) g) := by
  have hD : doneBanks n j = j / 16 := by unfold doneBanks; split_ifs <;> omega
  obtain ⟨hcur, hlast, hframe, hshift, hchan, hrd, hcd, hchd, hrc, hcc, hchc, hrr, hchr⟩ := h
  rw [hD] at hshift hchan hrd hcd hchd hrc hcc hchc hrr hchr
  have hr : j - 16 * (j / 16) = j % 16 := by omega
  rw [hr] at hchan hrc hcc hchc
  have hbase : start + 16 * (j / 16) + j % 16 = start + j := by omega
  have hl : g._lastSent (start + j) = last0 (start + j) := by
    rw [hlast]; simp
  have hframe2 : (if data (start + j) ≠ last0 (start + j) then true else g.frame_changed)
      = changedIn data last0 start (j + 1) := by
    rw [changedIn_succ, hframe]
  have hbank2 : (if data (start + j) ≠ last0 (start + j) then true else g.bank_changed)
      = changedIn data last0 (start + 16 * (j / 16)) (j % 16 + 1) := by
    rw [changedIn_succ, hchc, hbase]
  have hcolor2 : (if 0 < data (start + j) ∧ data (start + j) < 0xFF then true
        else g.color_mode (j / 16))
      = colorIn data (start + 16 * (j / 16)) (j % 16 + 1) := by
    rw [colorIn_succ, hcc, hbase]
  have hrecs2 : addToBank (g.lorBankData (j / 16)) (data (start + j)) (j % 16)
      = groupUpTo data (start + 16 * (j / 16)) (j % 16 + 1) := by
    rw [groupUpTo, hrc, hbase]
  have hlast2 : ∀ c, Function.update g._lastSent (start + j) (data (start + j)) c
      = if start ≤ c ∧ c < start + (j + 1) then data c else last0 c := by
    intro c
    rw [Function.update_apply, hlast]
    by_cases hc : c = start + j
    · subst hc; simp
    · have : (start ≤ c ∧ c < start + (j + 1)) ↔ (start ≤ c ∧ c < start + j) := by omega
      simp [hc, this]
  by_cases hend : j % 16 + 1 = 16 ∨ n - j = 1
  · have hD2 : doneBanks n (j + 1) = j / 16 + 1 := by
      unfold doneBanks numBanks; split_ifs <;> omega
    have hlen : bankLen n (j / 16) = j % 16 + 1 := by unfold bankLen; omega
    have hr2 : j + 1 - 16 * (j / 16 + 1) = 0 := by omega
    have hstep : groupStep data (n - j) g =
        { lorBankData := Function.update g.lorBankData (j / 16)
            (addToBank (g.lorBankData (j / 16)) (data (start + j)) (j % 16))
          color_mode := Function.update
            (if 0 < data (start + j) ∧ data (start + j) < 0xFF then
              Function.update g.color_mode (j / 16) true else g.color_mode) (j / 16 + 1) false
          banks_changed := Function.update g.banks_changed (j / 16)
            (if data (start + j) ≠ last0 (start + j) then true else g.bank_changed)
          _lastSent := Function.update g._lastSent (start + j) (data (start + j))
          bank_changed := false
          frame_changed := if data (start + j) ≠ last0 (start + j) then true
            else g.frame_changed
          chan_offset := 0
          shift_offset := j / 16 + 1
          cur_channel := start + j + 1 } := by
      unfold groupStep
      simp only [hcur, hl, hshift, hchan, hend, if_true]
    rw [hstep]
    refine ⟨rfl, hlast2, hframe2, ?_, ?_, ?_, ?_, ?_, ?_, ?_, ?_, ?_, ?_⟩
    · simp [hD2]
    · simp [hD2, hr2]
    · intro b hb
      rw [hD2] at hb
      simp only [Function.update_apply]
      by_cases hbe : b = j / 16
      · subst hbe; simp [hrecs2, hlen]
      · simp only [hbe, if_false]; exact hrd b (by omega)
    · intro b hb
      rw [hD2] at hb
      have hne : b ≠ j / 16 + 1 := by omega
      simp only [Function.update_apply, hne, if_false]
      by_cases hbe : b = j / 16
      · subst hbe
        rw [hlen, ← hcolor2]
        by_cases hc : 0 < data (start + j) ∧ data (start + j) < 0xFF <;> simp [hc]
      · rw [← hcd b (by omega)]
        by_cases hc : 0 < data (start + j) ∧ data (start + j) < 0xFF <;>
          simp [hc, Function.update_apply, hbe]
    · intro b hb
      rw [hD2] at hb
      simp only [Function.update_apply]
      by_cases hbe : b = j / 16
      · subst hbe; simp [hbank2, hlen]
      · simp only [hbe, if_false]; exact hchd b (by omega)
    · rw [hD2, hr2]
      simp [Function.update_apply, groupUpTo]
      exact hrr _ (by omega)
    · rw [hD2, hr2]
      simp [colorIn]
    · rw [hD2, hr2]
      simp [changedIn]
    · intro b hb
      rw [hD2] at hb
      have hne : b ≠ j / 16 := by omega
      simp only [Function.update_apply, hne, if_false]
      exact hrr b (by omega)
    · intro b hb
      rw [hD2] at hb
      have hne : b ≠ j / 16 := by omega
      simp only [Function.update_apply, hne, if_false]
      exact hchr b (by omega)
  · have hD2 : doneBanks n (j + 1) = j / 16 := by
      unfold doneBanks numBanks; split_ifs <;> omega
    have hr2 : j + 1 - 16 * (j / 16) = j % 16 + 1 := by omega
    have hstep : groupStep data (n - j) g =
        { lorBankData := Function.update g.lorBankData (j / 16)
            (addToBank (g.lorBankData (j / 16)) (data (start + j)) (j % 16))
          color_mode :=
            (if 0 < data (start + j) ∧ data (start + j) < 0xFF then
              Function.update g.color_mode (j / 16) true else g.color_mode)
          banks_changed := g.banks_changed
          _lastSent := Function.update g._lastSent (start + j) (data (start + j))
          bank_changed := if data (start + j) ≠ last0 (start + j) then true
            else g.bank_changed
          frame_changed := if data (start + j) ≠ last0 (start + j) then true
            else g.frame_changed
          chan_offset := j % 16 + 1
          shift_offset := j / 16
          cur_channel := start + j + 1 } := by
      unfold groupStep
      simp only [hcur, hl, hshift, hchan, hend, if_false]
    rw [hstep]
    refine ⟨rfl, hlast2, hframe2, ?_, ?_, ?_, ?_, ?_, ?_, ?_, ?_, ?_, ?_⟩
    · simp [hD2]
    · simp [hD2, hr2]
    · intro b hb
      rw [hD2] at hb
      have hne : b ≠ j / 16 := by omega
      simp only [Function.update_apply, hne, if_false]
      exact hrd b hb
    · intro b hb
      rw [hD2] at hb
      have hne : b ≠ j / 16 := by omega
      rw [← hcd b hb]
      by_cases hc : 0 < data (start + j) ∧ data (start + j) < 0xFF <;>
        simp [hc, Function.update_apply, hne]
    · intro b hb
      rw [hD2] at hb
      exact hchd b hb
    · rw [hD2, hr2]
      simp [hrecs2]
    · rw [hD2, hr2, ← hcolor2]
      by_cases hc : 0 < data (start + j) ∧ data (start + j) < 0xFF <;> simp [hc]
    · rw [hD2, hr2]
      exact hbank2
    · intro b hb
      rw [hD2] at hb
      have hne : b ≠ j / 16 := by omega
      simp only [Function.update_apply, hne, if_false]
      exact hrr b hb
    · intro b hb
      rw [hD2] at hb
      exact hchr b hb


theorem groupLoop_inv (data last0 : Nat → Nat) (bc0 : Nat → Bool) (start n : Nat) :
    ∀ (m j : Nat) (g : GroupState), j + m = n → GroupInv data last0 bc0 start n j g →
      GroupInv data last0 bc0 start n n (groupLoop data m g) := by
  intro m
  induction m with
  | zero =>
    intro j g hj h
    have : j = n := by omega
    subst this
    exact h
  | succ m ih =>
    intro j g hj h
    have hm : m + 1 = n - j := by omega
    rw [groupLoop, hm]
    exact ih (j + 1) _ (by omega) (groupStep_inv data last0 bc0 start n j g h (by omega))

/-- The state of the gathering loop at the end of a pass of `n` channels. -/
theorem groupLoop_final (data : Nat → Nat) (s : EncState) (n : Nat) :
    GroupInv data s._lastSent s.banks_changed s.cur_channel n n
      (groupLoop data n (groupInit s)) :=
  groupLoop_inv data s._lastSent s.banks_changed s.cur_channel n n 0 _ (by omega)
    (groupInit_inv data s n)

theorem doneBanks_self (n : Nat) : doneBanks n n = numBanks n := by
  simp [doneBanks]

theorem groupLoop_recs_empty (data : Nat → Nat) (s : EncState) (n b : Nat)
    (hb : numBanks n ≤ b) : (groupLoop data n (groupInit s)).lorBankData b = [] := by
  have h := groupLoop_final data s n
  rcases Nat.lt_or_ge (numBanks n) b with hlt | hge
  · exact h.recsRest b (by rw [doneBanks_self]; exact hlt)
  · have hbe : b = numBanks n := by omega
    have h2 := h.recsCur
    rw [doneBanks_self] at h2
    have h0 : n - 16 * numBanks n = 0 := by unfold numBanks; omega
    rw [h0] at h2
    rw [hbe, h2]
    rfl

theorem bankBytes_nil (dataTbl : Nat → Nat) (unit_id : Int) (bank : Nat) (color : Bool) :
    bankBytes dataTbl unit_id bank color [] = [] := by
  simp [bankBytes]

theorem buildBytes_eq_flatMap (dataTbl : Nat → Nat) (unit_id : Int) (g : GroupState)
    (m : Nat) :
    buildBytes dataTbl unit_id g m
      = (List.range m).reverse.flatMap (fun b =>
          if g.banks_changed b then
            bankBytes dataTbl unit_id b (g.color_mode b) (g.lorBankData b)
          else []) := by
  induction m with
  | zero => simp [buildBytes]
  | succ m ih =>
    rw [buildBytes, ih, List.range_succ, List.reverse_append]
    simp

theorem buildBytes_trailing (dataTbl : Nat → Nat) (unit_id : Int) (g : GroupState)
    (nb : Nat) (hempty : ∀ b, nb ≤ b → g.lorBankData b = []) :
    ∀ k, buildBytes dataTbl unit_id g (nb + k) = buildBytes dataTbl unit_id g nb := by
  intro k
  induction k with
  | zero => rfl
  | succ k ih =>
    have e : nb + (k + 1) = (nb + k) + 1 := by omega
    rw [e, buildBytes, ih, hempty (nb + k) (by omega), bankBytes_nil]
    simp

/-- The command bytes the building loop produces after the gathering loop of a pass
are those of the banks with a changed channel, highest bank first. -/
theorem buildBytes_pass (dataTbl data : Nat → Nat) (unit_id : Int) (s : EncState)
    (n size : Nat) (hsize : numBanks n ≤ size) :
    buildBytes dataTbl unit_id (groupLoop data n (groupInit s)) size
      = passBytes dataTbl data s._lastSent unit_id s.cur_channel n := by
  obtain ⟨k, rfl⟩ : ∃ k, size = numBanks n + k := ⟨size - numBanks n, by omega⟩
  rw [buildBytes_trailing _ _ _ _ (fun b hb => groupLoop_recs_empty data s n b hb),
    buildBytes_eq_flatMap]
  unfold passBytes passBankBytes
  have h := groupLoop_final data s n
  apply List.flatMap_congr
  intro b hb
  have hb2 : b < doneBanks n n := by
    rw [doneBanks_self]
    simpa using hb
  rw [h.changedDone b hb2, h.colorDone b hb2, h.recsDone b hb2]


/-! ## Every generated byte is a byte -/

theorem lsbOf_lt (bits : Nat) : lsbOf bits < 256 := by
  have : bits &&& 0xFF ≤ 0xFF := Nat.and_le_right
  unfold lsbOf; omega

theorem msbOf_lt (bits : Nat) : msbOf bits < 256 := by
  unfold msbOf; omega

theorem allOffBytes_lt (unit_id : Int) (bank : Nat) : ∀ v ∈ allOffBytes unit_id bank, v < 256 := by
  have hu := byteOfInt_lt unit_id
  intro v hv
  unfold allOffBytes at hv
  by_cases hb : bank > 0 <;> simp [hb] at hv <;> omega

theorem zeroValueBytes_lt (dataTbl : Nat → Nat) (unit_id : Int) (bank bits : Nat) :
    ∀ v ∈ zeroValueBytes dataTbl unit_id bank bits, v < 256 := by
  have hu := byteOfInt_lt unit_id
  have hl := lsbOf_lt bits
  have hm := msbOf_lt bits
  have hb : bank % 256 < 256 := Nat.mod_lt _ (by decide)
  have h40 : bank % 256 ||| 0x40 < 256 := or_lt_256 hb (by decide)
  have h80 : bank % 256 ||| 0x80 < 256 := or_lt_256 hb (by decide)
  have hd : dataTbl 0 % 256 < 256 := Nat.mod_lt _ (by decide)
  intro v hv
  unfold zeroValueBytes at hv
  by_cases h2 : msbOf bits = 0 <;> by_cases h3 : lsbOf bits = 0 <;>
    simp [h2, h3] at hv <;> omega

theorem bankBytes_lt (dataTbl : Nat → Nat) (unit_id : Int) (bank : Nat) (color : Bool)
    (recs : List LORDataPair) : ∀ v ∈ bankBytes dataTbl unit_id bank color recs, v < 256 := by
  intro v hv
  unfold bankBytes at hv
  simp only [List.mem_append, List.mem_flatMap] at hv
  rcases hv with (⟨r, _, hr⟩ | ⟨r, _, hr⟩) | ⟨r, _, hr⟩
  · unfold zeroBytes at hr
    split_ifs at hr
    · exact allOffBytes_lt _ _ v hr
    · exact zeroValueBytes_lt _ _ _ _ v hr
    · simp at hr
    · simp at hr
  · unfold fullOnBytes at hr
    split_ifs at hr
    · exact commandBytes_lt _ _ _ _ _ _ v hr
    · simp at hr
  · unfold valueBytes at hr
    split_ifs at hr
    · exact commandBytes_lt _ _ _ _ _ _ v hr
    · simp at hr

theorem passBytes_lt (dataTbl data lastSent : Nat → Nat) (unit_id : Int) (start n : Nat) :
    ∀ v ∈ passBytes dataTbl data lastSent unit_id start n, v < 256 := by
  intro v hv
  unfold passBytes at hv
  simp only [List.mem_flatMap] at hv
  obtain ⟨b, _, hb⟩ := hv
  split_ifs at hb
  · exact bankBytes_lt _ _ _ _ _ v hb
  · simp at hb

/-! ## One pass -/

theorem numBanks_le_size (channels_per_pass : Int) :
    numBanks channels_per_pass.toNat ≤ (Int.tdiv channels_per_pass 16 + 1).toNat := by
  rcases Int.lt_or_le channels_per_pass 0 with h | h
  · have : channels_per_pass.toNat = 0 := by omega
    rw [this]
    simp [numBanks]
  · rw [Int.tdiv_eq_ediv h (by decide)]
    unfold numBanks
    omega

theorem CmdBuf.empty_bytes : CmdBuf.empty.bytes = [] := rfl

theorem onePass_cur_channel (dataTbl data : Nat → Nat) (serial : Bool)
    (unit_id channels_per_pass : Int) (s : EncState) :
    (onePass dataTbl data serial unit_id channels_per_pass s).cur_channel
      = s.cur_channel + channels_per_pass.toNat :=
  (groupLoop_final data s channels_per_pass.toNat).cur

theorem onePass_lastSent (dataTbl data : Nat → Nat) (serial : Bool)
    (unit_id channels_per_pass : Int) (s : EncState) (c : Nat) :
    (onePass dataTbl data serial unit_id channels_per_pass s)._lastSent c
      = if s.cur_channel ≤ c ∧ c < s.cur_channel + channels_per_pass.toNat then data c
        else s._lastSent c :=
  (groupLoop_final data s channels_per_pass.toNat).last c

theorem onePass_banks_changed (dataTbl data : Nat → Nat) (serial : Bool)
    (unit_id channels_per_pass : Int) (s : EncState) (b : Nat) :
    (onePass dataTbl data serial unit_id channels_per_pass s).banks_changed b
      = if b < numBanks channels_per_pass.toNat then
          changedIn data s._lastSent (s.cur_channel + 16 * b) (bankLen channels_per_pass.toNat b)
        else s.banks_changed b := by
  have h := groupLoop_final data s channels_per_pass.toNat
  by_cases hb : b < numBanks channels_per_pass.toNat
  · rw [if_pos hb]
    exact h.changedDone b (by rw [doneBanks_self]; exact hb)
  · rw [if_neg hb]
    exact h.changedRest b (by rw [doneBanks_self]; omega)

theorem onePass_unit_id_in_use (dataTbl data : Nat → Nat) (serial : Bool)
    (unit_id channels_per_pass : Int) (s : EncState) :
    (onePass dataTbl data serial unit_id channels_per_pass s).unit_id_in_use
      = s.unit_id_in_use := rfl

theorem onePass_written (dataTbl data : Nat → Nat) (serial : Bool)
    (unit_id channels_per_pass : Int) (s : EncState) :
    (onePass dataTbl data serial unit_id channels_per_pass s).written
      = if serial && changedIn data s._lastSent s.cur_channel channels_per_pass.toNat then
          s.written ++ [passBytes dataTbl data s._lastSent unit_id s.cur_channel
            channels_per_pass.toNat ++ [0, 0]]
        else s.written := by
  have hf := (groupLoop_final data s channels_per_pass.toNat).frame
  unfold onePass
  simp only [hf]
  by_cases hc : (serial && changedIn data s._lastSent s.cur_channel channels_per_pass.toNat) = true
  · rw [if_pos hc, if_pos hc]
    have hc2 : changedIn data s._lastSent s.cur_channel channels_per_pass.toNat = true := by
      simp at hc; exact hc.2
    rw [if_pos hc2, buildLoop_eq_pushAll,
      buildBytes_pass dataTbl data unit_id s _ _ (numBanks_le_size channels_per_pass)]
    have e : ((CmdBuf.empty.pushAll (passBytes dataTbl data s._lastSent unit_id s.cur_channel
          channels_per_pass.toNat)).push 0).push 0
        = CmdBuf.empty.pushAll (passBytes dataTbl data s._lastSent unit_id s.cur_channel
          channels_per_pass.toNat ++ [0, 0]) := by
      rw [CmdBuf.pushAll_append]; rfl
    rw [e, CmdBuf.pushAll_bytes, CmdBuf.empty_bytes, List.nil_append, map_mod_of_lt]
    intro v hv
    rcases List.mem_append.mp hv with h | h
    · exact passBytes_lt _ _ _ _ _ _ v h
    · simp at h; omega
  · rw [if_neg hc, if_neg hc]


/-! ## The pass loop and the controller loop -/

theorem Extends.refl (data : Nat → Nat) (s : EncState) : Extends data s s := by
  refine ⟨le_rfl, ?_, fun _ => rfl⟩
  intro c
  have : ¬ (s.cur_channel ≤ c ∧ c < s.cur_channel) := by omega
  rw [if_neg this]

theorem Extends.trans {data : Nat → Nat} {s t u : EncState} (h1 : Extends data s t)
    (h2 : Extends data t u) : Extends data s u := by
  have hc1 := h1.cur
  have hc2 := h2.cur
  refine ⟨le_trans hc1 hc2, ?_, ?_⟩
  · intro c
    rw [h2.last c, h1.last c]
    by_cases ha : t.cur_channel ≤ c ∧ c < u.cur_channel
    · have hb : s.cur_channel ≤ c ∧ c < u.cur_channel := by omega
      rw [if_pos ha, if_pos hb]
    · rw [if_neg ha]
      by_cases hb : s.cur_channel ≤ c ∧ c < t.cur_channel
      · have hd : s.cur_channel ≤ c ∧ c < u.cur_channel := by omega
        rw [if_pos hb, if_pos hd]
      · have hd : ¬ (s.cur_channel ≤ c ∧ c < u.cur_channel) := by omega
        rw [if_neg hb, if_neg hd]
  · intro hq
    have q1 : t.written = s.written := h1.quiet (fun c hc hct => hq c hc (by omega))
    rw [← q1]
    apply h2.quiet
    intro c hc hcu
    rw [h1.last c]
    have : ¬ (s.cur_channel ≤ c ∧ c < t.cur_channel) := by omega
    rw [if_neg this]
    exact hq c (by omega) hcu

theorem changedIn_false_of_eq (data last : Nat → Nat) (base k : Nat)
    (h : ∀ i, i < k → data (base + i) = last (base + i)) : changedIn data last base k = false := by
  cases hc : changedIn data last base k
  · rfl
  · obtain ⟨i, hi, hne⟩ := (changedIn_iff data last base k).mp hc
    exact absurd (h i hi) hne

theorem onePass_extends (dataTbl data : Nat → Nat) (serial : Bool)
    (unit_id channels_per_pass : Int) (s : EncState) :
    Extends data s (onePass dataTbl data serial unit_id channels_per_pass s) := by
  refine ⟨?_, ?_, ?_⟩
  · rw [onePass_cur_channel]; omega
  · intro c
    rw [onePass_lastSent, onePass_cur_channel]
  · intro hq
    rw [onePass_written, changedIn_false_of_eq]
    · simp
    · intro i hi
      exact hq _ (by omega) (by rw [onePass_cur_channel]; omega)

theorem passLoop_extends (dataTbl data : Nat → Nat) (serial : Bool) (channels_per_pass : Int) :
    ∀ (fuel : Nat) (remaining unit_id : Int) (s t : EncState),
      passLoop dataTbl data serial channels_per_pass fuel remaining unit_id s = some t →
      Extends data s t ∧ t.unit_id_in_use = s.unit_id_in_use := by
  intro fuel
  induction fuel with
  | zero =>
    intro remaining unit_id s t h
    unfold passLoop at h
    by_cases hr : remaining > 0
    · rw [if_pos hr] at h
      simp at h
    · rw [if_neg hr] at h
      simp only [Option.some.injEq] at h
      subst h
      exact ⟨Extends.refl data s, rfl⟩
  | succ fuel ih =>
    intro remaining unit_id s t h
    unfold passLoop at h
    by_cases hr : remaining > 0
    · rw [if_pos hr] at h
      obtain ⟨h1, h2⟩ := ih _ _ _ _ h
      exact ⟨(onePass_extends dataTbl data serial unit_id channels_per_pass s).trans h1,
        by rw [h2, onePass_unit_id_in_use]⟩
    · rw [if_neg hr] at h
      simp only [Option.some.injEq] at h
      subst h
      exact ⟨Extends.refl data s, rfl⟩

theorem controllerLoop_extends (dataTbl data : Nat → Nat) (serial : Bool) (fuel : Nat) :
    ∀ (controllers : List LorController) (s t : EncState),
      controllerLoop dataTbl data serial fuel controllers s = some t → Extends data s t := by
  intro controllers
  induction controllers with
  | nil =>
    intro s t h
    simp only [controllerLoop, Option.some.injEq] at h
    subst h
    exact Extends.refl data s
  | cons it rest ih =>
    intro s t h
    simp only [controllerLoop] at h
    split at h
    · simp at h
    · rename_i s2 hs2
      obtain ⟨h1, _⟩ := passLoop_extends _ _ _ _ _ _ _ _ _ hs2
      have h2 := ih s2 t h
      have h3 := h1.trans h2
      exact ⟨h3.cur, h3.last, h3.quiet⟩

theorem CalcChannels_plan (n : Int) (it : LorController) (m m2 : Int → Bool) :
    (CalcChannels n it m).channels_per_pass = (CalcChannels n it m2).channels_per_pass
    ∧ (CalcChannels n it m).controller_channels_to_process
      = (CalcChannels n it m2).controller_channels_to_process
    ∧ (CalcChannels n it m).channel_count = (CalcChannels n it m2).channel_count := by
  unfold CalcChannels
  simp only
  split_ifs <;> exact ⟨rfl, rfl, rfl⟩

theorem passLoop_terminates (dataTbl data : Nat → Nat) (serial : Bool) (channels_per_pass : Int)
    (hpos : 0 < channels_per_pass) :
    ∀ (fuel : Nat) (remaining unit_id : Int) (s : EncState), remaining ≤ fuel →
      ∃ t, passLoop dataTbl data serial channels_per_pass fuel remaining unit_id s = some t := by
  intro fuel
  induction fuel with
  | zero =>
    intro remaining unit_id s h
    unfold passLoop
    have : ¬ remaining > 0 := by simp at h; omega
    rw [if_neg this]
    exact ⟨s, rfl⟩
  | succ fuel ih =>
    intro remaining unit_id s h
    unfold passLoop
    by_cases hr : remaining > 0
    · rw [if_pos hr]
      exact ih _ _ _ (by push_cast at h; omega)
    · rw [if_neg hr]
      exact ⟨s, rfl⟩

theorem passLoop_done (dataTbl data : Nat → Nat) (serial : Bool) (channels_per_pass : Int)
    (fuel : Nat) (remaining unit_id : Int) (s : EncState) (h : ¬ remaining > 0) :
    passLoop dataTbl data serial channels_per_pass fuel remaining unit_id s = some s := by
  unfold passLoop
  rw [if_neg h]

/-- The fuel that suffices for every controller of a list. -/
theorem controllerLoop_terminates (dataTbl data : Nat → Nat) (serial : Bool) (fuel : Nat) :
    ∀ (controllers : List LorController) (s : EncState),
      (∀ it ∈ controllers, plannedTotal it > 0 → plannedPerPass it > 0) →
      (∀ it ∈ controllers, plannedTotal it ≤ fuel) →
      ∃ t, controllerLoop dataTbl data serial fuel controllers s = some t := by
  intro controllers
  induction controllers with
  | nil => intro s _ _; exact ⟨s, rfl⟩
  | cons it rest ih =>
    intro s hwf hfuel
    simp only [controllerLoop]
    obtain ⟨e1, e2, _⟩ := CalcChannels_plan it.num_channels it s.unit_id_in_use (fun _ => false)
    have hw := hwf it (List.mem_cons_self _ _)
    have hf := hfuel it (List.mem_cons_self _ _)
    unfold plannedTotal at hw hf
    unfold plannedPerPass at hw
    rw [← e1, ← e2] at hw
    rw [← e2] at hf
    have hpass : ∃ t, passLoop dataTbl data serial
        (CalcChannels it.num_channels it s.unit_id_in_use).channels_per_pass fuel
        (CalcChannels it.num_channels it s.unit_id_in_use).controller_channels_to_process
        it.unit_id
        { s with unit_id_in_use := (CalcChannels it.num_channels it s.unit_id_in_use).unit_id_in_use }
          = some t := by
      by_cases hr : (CalcChannels it.num_channels it s.unit_id_in_use).controller_channels_to_process > 0
      · exact passLoop_terminates _ _ _ _ (hw hr) _ _ _ _ hf
      · exact ⟨_, passLoop_done _ _ _ _ _ _ _ _ hr⟩
    obtain ⟨t, ht⟩ := hpass
    rw [ht]
    exact ih t (fun it2 h2 => hwf it2 (List.mem_cons_of_mem _ h2))
      (fun it2 h2 => hfuel it2 (List.mem_cons_of_mem _ h2))


/-! ## The records of one bank -/

theorem mem_firstOcc (l : List Nat) (v : Nat) : v ∈ firstOcc l ↔ v ∈ l := by
  induction l with
  | nil => simp [firstOcc]
  | cons a l ih =>
    simp only [firstOcc, List.mem_cons, List.mem_filter, ih, decide_eq_true_eq]
    by_cases h : v = a
    · simp [h]
    · simp [h]

theorem nodup_firstOcc (l : List Nat) : (firstOcc l).Nodup := by
  induction l with
  | nil => simp [firstOcc]
  | cons a l ih =>
    simp only [firstOcc, List.nodup_cons, List.mem_filter, decide_eq_true_eq]
    exact ⟨fun h => h.2 rfl, ih.filter _⟩

theorem firstOcc_append_singleton (l : List Nat) (v : Nat) :
    firstOcc (l ++ [v]) = if v ∈ l then firstOcc l else firstOcc l ++ [v] := by
  induction l with
  | nil => simp [firstOcc]
  | cons a l ih =>
    rw [List.cons_append, firstOcc, ih, firstOcc]
    by_cases hva : v = a
    · subst hva
      by_cases hvl : v ∈ l
      · simp [hvl]
      · simp [hvl, List.filter_append]
    · by_cases hvl : v ∈ l
      · simp [hvl, hva]
      · simp [hvl, hva, List.filter_append]

theorem channelValues_succ (data : Nat → Nat) (base k : Nat) :
    channelValues data base (k + 1) = channelValues data base k ++ [data (base + k)] := by
  simp [channelValues, List.range_succ]

theorem mem_channelValues (data : Nat → Nat) (base k v : Nat) :
    v ∈ channelValues data base k ↔ ∃ i, i < k ∧ data (base + i) = v := by
  simp [channelValues]

theorem maskOf_eq_zero (data : Nat → Nat) (base v k : Nat)
    (h : v ∉ channelValues data base k) : maskOf data base v k = 0 := by
  induction k with
  | zero => rfl
  | succ k ih =>
    rw [channelValues_succ] at h
    simp only [List.mem_append, List.mem_singleton, not_or] at h
    have hne : ¬ data (base + k) = v := fun e => h.2 e.symm
    rw [maskOf, if_neg hne]
    exact ih h.1

theorem addToBank_map (m : Nat → Nat) (v k : Nat) (l : List Nat) (hl : l.Nodup) :
    addToBank (l.map (fun w => (⟨w, m w⟩ : LORDataPair))) v k
      = if v ∈ l then
          l.map (fun w => (⟨w, if w = v then m w ||| (1 <<< k) else m w⟩ : LORDataPair))
        else l.map (fun w => (⟨w, m w⟩ : LORDataPair)) ++ [⟨v, 1 <<< k⟩] := by
  induction l with
  | nil => simp [addToBank]
  | cons a l ih =>
    have hnd := List.nodup_cons.mp hl
    simp only [List.map_cons, addToBank]
    by_cases hav : a = v
    · subst hav
      simp only [if_true, List.mem_cons, true_or]
      congr 1
      apply List.map_congr_left
      intro w hw
      have : w ≠ a := fun e => hnd.1 (e ▸ hw)
      simp [this]
    · have hva : ¬ v = a := fun e => hav e.symm
      rw [if_neg hav, ih hnd.2]
      by_cases hvl : v ∈ l
      · simp [hvl, hav]
      · simp [hvl, hva, hav]

/-- The records of a bank after `k` channels: one record per distinct value, in order
of first occurrence, each with the bitmask of the channels holding the value. -/
theorem groupUpTo_eq (data : Nat → Nat) (base k : Nat) :
    groupUpTo data base k
      = (firstOcc (channelValues data base k)).map
          (fun v => (⟨v, maskOf data base v k⟩ : LORDataPair)) := by
  induction k with
  | zero => simp [groupUpTo, channelValues, firstOcc]
  | succ k ih =>
    rw [groupUpTo, ih, addToBank_map _ _ _ _ (nodup_firstOcc _), channelValues_succ,
      firstOcc_append_singleton]
    by_cases hx : data (base + k) ∈ channelValues data base k
    · rw [if_pos ((mem_firstOcc _ _).mpr hx), if_pos hx]
      apply List.map_congr_left
      intro w _
      rw [maskOf]
      by_cases hw : w = data (base + k)
      · rw [if_pos hw, if_pos hw.symm]
      · rw [if_neg hw, if_neg (fun e => hw e.symm)]
    · rw [if_neg (fun h => hx ((mem_firstOcc _ _).mp h)), if_neg hx, List.map_append]
      congr 1
      · apply List.map_congr_left
        intro w hw
        have hwne : ¬ data (base + k) = w := by
          intro e
          rw [mem_firstOcc] at hw
          exact hx (e ▸ hw)
        rw [maskOf, if_neg hwne]
      · simp [maskOf, maskOf_eq_zero data base _ k hx]


theorem firstOcc_const (l : List Nat) (a : Nat) (hne : l ≠ []) (h : ∀ v ∈ l, v = a) :
    firstOcc l = [a] := by
  cases l with
  | nil => exact absurd rfl hne
  | cons x l =>
    have hx : x = a := h x (List.mem_cons_self _ _)
    subst hx
    rw [firstOcc]
    congr 1
    rw [List.filter_eq_nil_iff]
    intro w hw
    have : w = x := h w (List.mem_cons_of_mem _ ((mem_firstOcc _ _).mp hw))
    simp [this]

theorem flatMap_single {β : Type} (l : List Nat) (hl : l.Nodup) (a : Nat) (g : Nat → List β)
    (hg : ∀ w ∈ l, w ≠ a → g w = []) : l.flatMap g = if a ∈ l then g a else [] := by
  induction l with
  | nil => simp
  | cons x l ih =>
    have hnd := List.nodup_cons.mp hl
    have ih2 := ih hnd.2 (fun w hw hne => hg w (List.mem_cons_of_mem _ hw) hne)
    rw [List.flatMap_cons, ih2]
    by_cases hxa : x = a
    · subst hxa
      simp [hnd.1]
    · have hax : ¬ a = x := fun e => hxa e.symm
      rw [hg x (List.mem_cons_self _ _) hxa]
      simp [hax]

theorem flatMap_filter {β : Type} (l : List Nat) (p : Nat → Bool) (h : Nat → List β) :
    l.flatMap (fun w => if p w then h w else []) = (l.filter p).flatMap h := by
  induction l with
  | nil => simp
  | cons x l ih =>
    rw [List.flatMap_cons, ih]
    cases hp : p x <;> simp [hp]

theorem two_le_length_of_ne (l : List Nat) (a b : Nat) (ha : a ∈ l) (hb : b ∈ l) (hab : a ≠ b) :
    2 ≤ l.length := by
  match l, ha, hb with
  | [x], ha, hb =>
    simp only [List.mem_singleton] at ha hb
    exact absurd (ha.trans hb.symm) hab
  | _ :: _ :: _, _, _ => simp

theorem emitBank_slice (dataTbl : Nat → Nat) (unit_id : Int) (bank : Nat) (color : Bool)
    (recs : List LORDataPair) (b : CmdBuf) :
    slice (emitBank dataTbl unit_id bank color recs b).d b.idx
        (emitBank dataTbl unit_id bank color recs b).idx
      = bankBytes dataTbl unit_id bank color recs := by
  rw [emitBank_eq_pushAll, CmdBuf.pushAll_slice, map_mod_of_lt _ (bankBytes_lt _ _ _ _ _)]

theorem GenerateCommand_empty_bytes (unit_id bank : Int) (value_byte : Bool)
    (dbyte lsb msb : Nat) :
    (GenerateCommand CmdBuf.empty unit_id bank value_byte dbyte lsb msb).bytes
      = commandBytes unit_id bank value_byte dbyte lsb msb := by
  rw [GenerateCommand_eq_pushAll, CmdBuf.pushAll_bytes, CmdBuf.empty_bytes, List.nil_append,
    map_mod_of_lt _ (commandBytes_lt _ _ _ _ _ _)]

/-- What the gathering loop leaves for a bank that holds channels: its records and its
color flag. -/
theorem groupLoop_bank (data : Nat → Nat) (s : EncState) (n b : Nat) (hb : b < numBanks n) :
    (groupLoop data n (groupInit s)).lorBankData b
        = groupUpTo data (s.cur_channel + 16 * b) (bankLen n b)
    ∧ (groupLoop data n (groupInit s)).color_mode b
        = colorIn data (s.cur_channel + 16 * b) (bankLen n b) := by
  have h := groupLoop_final data s n
  have hb2 : b < doneBanks n n := by rw [doneBanks_self]; exact hb
  exact ⟨h.recsDone b hb2, h.colorDone b hb2⟩

theorem bankLen_pos (n b : Nat) (hb : b < numBanks n) : 0 < bankLen n b := by
  unfold numBanks at hb
  unfold bankLen
  omega

/-! ## Claims about the commands of one bank -/

/-- C5: for a bank of a pass all of whose channels hold 0, the bytes the building loop
emits for the bank are exactly the all-off shortcut: 0x00, unit id, 0x41 for bank 0 and
0x00, unit id, 0x51, 0xC0 | bank for a higher bank, whatever the number of channels of the
bank. -/
theorem allZero_bank_bytes (dataTbl data : Nat → Nat) (s : EncState) (n : Nat) (unit_id : Int)
    (b : Nat) (buf : CmdBuf) (hb : b < numBanks n)
    (hzero : ∀ i, i < bankLen n b → data (s.cur_channel + 16 * b + i) = 0) :
    slice (emitBank dataTbl unit_id b ((groupLoop data n (groupInit s)).color_mode b)
          ((groupLoop data n (groupInit s)).lorBankData b) buf).d buf.idx
        (emitBank dataTbl unit_id b ((groupLoop data n (groupInit s)).color_mode b)
          ((groupLoop data n (groupInit s)).lorBankData b) buf).idx
      = (if b = 0 then [0x00, byteOfInt unit_id, 0x41]
          else [0x00, byteOfInt unit_id, 0x51, (0xC0 ||| b) % 256])
    ∧ (b < 256 → (0xC0 ||| b) % 256 = 0xC0 ||| b) := by
  refine ⟨?_, fun hlt => Nat.mod_eq_of_lt (or_lt_256 (by decide) hlt)⟩
  obtain ⟨hrecs, _⟩ := groupLoop_bank data s n b hb
  have hpos := bankLen_pos n b hb
  have hvals : firstOcc (channelValues data (s.cur_channel + 16 * b) (bankLen n b)) = [0] := by
    apply firstOcc_const
    · intro he
      have := congrArg List.length he
      simp [channelValues] at this
      omega
    · intro v hv
      obtain ⟨i, hi, hiv⟩ := (mem_channelValues _ _ _ _).mp hv
      rw [← hiv]
      exact hzero i hi
  rw [emitBank_slice, hrecs, groupUpTo_eq, hvals]
  by_cases hb0 : b = 0
  · simp [bankBytes, zeroBytes, fullOnBytes, valueBytes, allOffBytes, hb0]
  · have : b > 0 := by omega
    simp [bankBytes, zeroBytes, fullOnBytes, valueBytes, allOffBytes, hb0, this]


/-- C4: for a bank of a pass with more than one distinct value, the bytes the building
loop emits for the bank are, in this order: the explicit zero-value command when the bank is
in color mode and holds a zero; the full-on command (`GenerateCommand` without value
byte) when the bank holds 0xFF; one value command (`GenerateCommand` with value byte
`_data[v]`) for each other value `v` in 1..254, in order of first occurrence. Each command
carries the bitmask of the channels holding its value, and the color flag is set iff a
channel of the bank holds a value in 1..254. -/
theorem multiValue_bank_bytes (dataTbl data : Nat → Nat) (s : EncState) (n : Nat)
    (unit_id : Int) (b : Nat) (buf : CmdBuf) (hb : b < numBanks n)
    (hbyte : ∀ i, i < bankLen n b → data (s.cur_channel + 16 * b + i) < 256)
    (hmulti : ∃ i j, i < bankLen n b ∧ j < bankLen n b
      ∧ data (s.cur_channel + 16 * b + i) ≠ data (s.cur_channel + 16 * b + j)) :
    slice (emitBank dataTbl unit_id b ((groupLoop data n (groupInit s)).color_mode b)
          ((groupLoop data n (groupInit s)).lorBankData b) buf).d buf.idx
        (emitBank dataTbl unit_id b ((groupLoop data n (groupInit s)).color_mode b)
          ((groupLoop data n (groupInit s)).lorBankData b) buf).idx
      = (if (groupLoop data n (groupInit s)).color_mode b = true
              ∧ 0 ∈ channelValues data (s.cur_channel + 16 * b) (bankLen n b) then
            zeroValueBytes dataTbl unit_id b
              (maskOf data (s.cur_channel + 16 * b) 0 (bankLen n b))
          else [])
        ++ (if 0xFF ∈ channelValues data (s.cur_channel + 16 * b) (bankLen n b) then
            (GenerateCommand CmdBuf.empty unit_id b false (dataTbl 0xFF)
              (lsbOf (maskOf data (s.cur_channel + 16 * b) 0xFF (bankLen n b)))
              (msbOf (maskOf data (s.cur_channel + 16 * b) 0xFF (bankLen n b)))).bytes
          else [])
        ++ ((firstOcc (channelValues data (s.cur_channel + 16 * b) (bankLen n b))).filter
              (fun v => decide (1 ≤ v ∧ v ≤ 254))).flatMap
            (fun v => (GenerateCommand CmdBuf.empty unit_id b true (dataTbl v)
              (lsbOf (maskOf data (s.cur_channel + 16 * b) v (bankLen n b)))
              (msbOf (maskOf data (s.cur_channel + 16 * b) v (bankLen n b)))).bytes)
    ∧ ((groupLoop data n (groupInit s)).color_mode b = true
        ↔ ∃ i, i < bankLen n b ∧ 1 ≤ data (s.cur_channel + 16 * b + i)
            ∧ data (s.cur_channel + 16 * b + i) ≤ 254) := by
  obtain ⟨hrecs, hcolor⟩ := groupLoop_bank data s n b hb
  constructor
  · rw [emitBank_slice, hrecs, groupUpTo_eq]
    have hnd := nodup_firstOcc (channelValues data (s.cur_channel + 16 * b) (bankLen n b))
    have hlen : (firstOcc (channelValues data (s.cur_channel + 16 * b) (bankLen n b))).length
        ≠ 1 := by
      obtain ⟨i, j, hi, hj, hne⟩ := hmulti
      have h2 := two_le_length_of_ne
        (firstOcc (channelValues data (s.cur_channel + 16 * b) (bankLen n b))) _ _
        ((mem_firstOcc _ _).mpr ((mem_channelValues _ _ _ _).mpr ⟨i, hi, rfl⟩))
        ((mem_firstOcc _ _).mpr ((mem_channelValues _ _ _ _).mpr ⟨j, hj, rfl⟩)) hne
      omega
    unfold bankBytes
    rw [List.length_map, List.flatMap_map, List.flatMap_map, List.flatMap_map]
    congr 1
    · congr 1
      · rw [flatMap_single _ hnd 0]
        · by_cases h0 : 0 ∈ channelValues data (s.cur_channel + 16 * b) (bankLen n b)
          · rw [if_pos ((mem_firstOcc _ _).mpr h0)]
            by_cases hc : (groupLoop data n (groupInit s)).color_mode b = true
            · simp [zeroBytes, hlen, hc, h0]
            · simp [zeroBytes, hlen, hc]
          · rw [if_neg (fun h => h0 ((mem_firstOcc _ _).mp h)), if_neg (fun h => h0 h.2)]
        · intro w _ hw
          simp [zeroBytes, hw]
      · rw [flatMap_single _ hnd 0xFF]
        · by_cases h0 : 0xFF ∈ channelValues data (s.cur_channel + 16 * b) (bankLen n b)
          · rw [if_pos ((mem_firstOcc _ _).mpr h0), if_pos h0, GenerateCommand_empty_bytes]
            simp [fullOnBytes]
          · rw [if_neg (fun h => h0 ((mem_firstOcc _ _).mp h)), if_neg h0]
        · intro w _ hw
          simp [fullOnBytes, hw]
    · rw [← flatMap_filter]
      apply List.flatMap_congr
      intro w hw
      obtain ⟨i, hi, hiw⟩ := (mem_channelValues _ _ _ _).mp ((mem_firstOcc _ _).mp hw)
      have hw256 : w < 256 := by rw [← hiw]; exact hbyte i hi
      rw [GenerateCommand_empty_bytes]
      by_cases hv : w ≠ 0 ∧ w ≠ 0xFF
      · have : 1 ≤ w ∧ w ≤ 254 := by omega
        simp [valueBytes, hv, this]
      · have : ¬ (1 ≤ w ∧ w ≤ 254) := by omega
        simp only [valueBytes, if_neg hv]
        simp [this]
  · rw [hcolor, colorIn_iff]
    constructor
    · rintro ⟨i, hi, h1, h2⟩
      exact ⟨i, hi, by omega, by omega⟩
    · rintro ⟨i, hi, h1, h2⟩
      exact ⟨i, hi, by omega, by omega⟩


theorem emitBank_empty_bytes (dataTbl : Nat → Nat) (unit_id : Int) (bank : Nat) (color : Bool)
    (recs : List LORDataPair) :
    (emitBank dataTbl unit_id bank color recs CmdBuf.empty).bytes
      = bankBytes dataTbl unit_id bank color recs := by
  rw [emitBank_eq_pushAll, CmdBuf.pushAll_bytes, CmdBuf.empty_bytes, List.nil_append,
    map_mod_of_lt _ (bankBytes_lt _ _ _ _ _)]

theorem allZero_bank_bytes_witness :
    ((0 : Nat) < numBanks 16
      ∧ ∀ i, i < bankLen 16 0 → (fun _ => 0 : Nat → Nat) (freshState.cur_channel + 16 * 0 + i) = 0)
    ∧ slice (emitBank (fun v => v) 1 0
          ((groupLoop (fun _ => 0) 16 (groupInit freshState)).color_mode 0)
          ((groupLoop (fun _ => 0) 16 (groupInit freshState)).lorBankData 0) CmdBuf.empty).d 0
        (emitBank (fun v => v) 1 0
          ((groupLoop (fun _ => 0) 16 (groupInit freshState)).color_mode 0)
          ((groupLoop (fun _ => 0) 16 (groupInit freshState)).lorBankData 0) CmdBuf.empty).idx
      = [0x00, 1, 0x41] :=
  ⟨⟨by decide, fun _ _ => rfl⟩,
    (allZero_bank_bytes (fun v => v) (fun _ => 0) freshState 16 1 0 CmdBuf.empty (by decide)
      (fun _ _ => rfl)).1⟩


theorem multiValue_bank_bytes_witness :
    ((0 : Nat) < numBanks 16
      ∧ (∀ i, i < bankLen 16 0 → mixedFrame (freshState.cur_channel + 16 * 0 + i) < 256)
      ∧ ∃ i j, i < bankLen 16 0 ∧ j < bankLen 16 0
          ∧ mixedFrame (freshState.cur_channel + 16 * 0 + i)
            ≠ mixedFrame (freshState.cur_channel + 16 * 0 + j))
    ∧ slice (emitBank (fun v => v) 1 0
          ((groupLoop mixedFrame 16 (groupInit freshState)).color_mode 0)
          ((groupLoop mixedFrame 16 (groupInit freshState)).lorBankData 0) CmdBuf.empty).d 0
        (emitBank (fun v => v) 1 0
          ((groupLoop mixedFrame 16 (groupInit freshState)).color_mode 0)
          ((groupLoop mixedFrame 16 (groupInit freshState)).lorBankData 0) CmdBuf.empty).idx
      = [0, 1, 0x53, 0, 0x40, 1, 0, 1, 0x31, 2, 0, 1, 0x13, 7, 0xFC, 0xFF] :=
  have hbyte : ∀ i, i < bankLen 16 0 → mixedFrame (freshState.cur_channel + 16 * 0 + i) < 256 := by
    intro i _
    unfold mixedFrame
    split_ifs <;> decide
  have hmulti : ∃ i j, i < bankLen 16 0 ∧ j < bankLen 16 0
      ∧ mixedFrame (freshState.cur_channel + 16 * 0 + i)
        ≠ mixedFrame (freshState.cur_channel + 16 * 0 + j) :=
    ⟨0, 1, by decide, by decide, by decide⟩
  ⟨⟨by decide, hbyte, hmulti⟩,
    (multiValue_bank_bytes (fun v => v) mixedFrame freshState 16 1 0 CmdBuf.empty (by decide)
      hbyte hmulti).1.trans (by decide)⟩


/-! ## Claims about one pass and about a whole call -/

/-- C3: when a channel of a pass differs from its last sent value, the pass hands the
transport exactly one buffer: the command bytes of the banks holding a changed channel,
from the highest bank down to bank 0, a bank without changed channel contributing
nothing, followed once by the terminator 0x00 0x00. -/
theorem pass_written_descending (dataTbl data : Nat → Nat) (unit_id channels_per_pass : Int)
    (s : EncState)
    (hchanged : ∃ i, i < channels_per_pass.toNat
      ∧ data (s.cur_channel + i) ≠ s._lastSent (s.cur_channel + i)) :
    (onePass dataTbl data true unit_id channels_per_pass s).written
      = s.written ++
        [(List.range (numBanks channels_per_pass.toNat)).reverse.flatMap (fun b =>
            if changedIn data s._lastSent (s.cur_channel + 16 * b)
                (bankLen channels_per_pass.toNat b) then
              (emitBank dataTbl unit_id b
                ((groupLoop data channels_per_pass.toNat (groupInit s)).color_mode b)
                ((groupLoop data channels_per_pass.toNat (groupInit s)).lorBankData b)
                CmdBuf.empty).bytes
            else [])
          ++ [0x00, 0x00]]
    ∧ ∀ b, changedIn data s._lastSent (s.cur_channel + 16 * b)
          (bankLen channels_per_pass.toNat b) = true
        ↔ ∃ i, i < bankLen channels_per_pass.toNat b
            ∧ data (s.cur_channel + 16 * b + i) ≠ s._lastSent (s.cur_channel + 16 * b + i) := by
  refine ⟨?_, fun b => changedIn_iff _ _ _ _⟩
  have hc : changedIn data s._lastSent s.cur_channel channels_per_pass.toNat = true :=
    (changedIn_iff _ _ _ _).mpr hchanged
  rw [onePass_written, hc]
  simp only [Bool.and_self, if_true]
  congr 2
  unfold passBytes
  congr 1
  apply List.flatMap_congr
  intro b hb
  have hb2 : b < numBanks channels_per_pass.toNat := by simpa using hb
  obtain ⟨hrecs, hcolor⟩ := groupLoop_bank data s channels_per_pass.toNat b hb2
  rw [emitBank_empty_bytes, hrecs, hcolor]
  rfl

theorem pass_written_descending_witness :
    (∃ i, i < (17 : Int).toNat
      ∧ mixedFrame (freshState.cur_channel + i) ≠ freshState._lastSent (freshState.cur_channel + i))
    ∧ (onePass (fun v => v) mixedFrame true 1 17 freshState).written
      = [[0, 1, 0x53, 7, 0x41, 1,
          0, 1, 0x53, 0, 0x40, 1, 0, 1, 0x31, 2, 0, 1, 0x13, 7, 0xFC, 0xFF, 0, 0]] :=
  have hchanged : ∃ i, i < (17 : Int).toNat
      ∧ mixedFrame (freshState.cur_channel + i)
        ≠ freshState._lastSent (freshState.cur_channel + i) :=
    ⟨0, by decide, by decide⟩
  ⟨hchanged,
    (pass_written_descending (fun v => v) mixedFrame 1 17 freshState hchanged).1.trans
      (by decide)⟩


theorem SetManyChannels_of_encodeFrame (dataTbl data : Nat → Nat) (o : Output) (channel : Nat)
    (fuel : Nat) (s : EncState) (hen : o._enabled = true) (hser : o.has_serial = true)
    (hok : o._ok = true) (htx : o.tx_empty = true)
    (h : encodeFrame dataTbl fuel o channel data = some s) :
    SetManyChannels dataTbl fuel o channel data
      = some { o with
          _lastSent := s._lastSent
          banks_changed := s.banks_changed
          unit_id_in_use := s.unit_id_in_use
          written := s.written } := by
  unfold SetManyChannels
  simp [hen, hser, hok, htx, h]

theorem encodeFrame_extends (dataTbl data : Nat → Nat) (o : Output) (channel : Nat)
    (fuel : Nat) (s : EncState) (h : encodeFrame dataTbl fuel o channel data = some s) :
    channel ≤ s.cur_channel
    ∧ (∀ c, s._lastSent c = if channel ≤ c ∧ c < s.cur_channel then data c else o._lastSent c)
    ∧ ((∀ c, channel ≤ c → c < s.cur_channel → data c = o._lastSent c) →
        s.written = o.written) := by
  have he := controllerLoop_extends _ _ _ _ _ _ _ h
  exact ⟨he.cur, he.last, he.quiet⟩

theorem encodeFrame_terminates (dataTbl data : Nat → Nat) (o : Output) (channel : Nat)
    (fuel : Nat) (hwf : ∀ it ∈ o.controllers, plannedTotal it > 0 → plannedPerPass it > 0)
    (hfuel : ∀ it ∈ o.controllers, plannedTotal it ≤ fuel) :
    ∃ s, encodeFrame dataTbl fuel o channel data = some s :=
  controllerLoop_terminates _ _ _ _ _ _ hwf hfuel

theorem acController_planned (n : Int) :
    ∀ it ∈ [acController n AddressMode.LOR_ADDR_MODE_NORMAL],
      (plannedTotal it > 0 → plannedPerPass it > 0) ∧ plannedTotal it = n := by
  intro it hit
  simp only [List.mem_singleton] at hit
  subst hit
  have h1 : plannedTotal (acController n AddressMode.LOR_ADDR_MODE_NORMAL) = n := by
    simp [plannedTotal, CalcChannels, acController]
  have h2 : plannedPerPass (acController n AddressMode.LOR_ADDR_MODE_NORMAL) = n := by
    simp [plannedPerPass, CalcChannels, acController]
  rw [h1, h2]
  exact ⟨fun h => h, rfl⟩

/-- C8: when the output is disabled, the transport is absent, the output is not ok, or
the transmit buffer is not empty, `SetManyChannels` returns with the output exactly as it
was: nothing written, `_lastSent` and `banks_changed` untouched. -/
theorem SetManyChannels_skipped (dataTbl data : Nat → Nat) (fuel : Nat) (o : Output)
    (channel : Nat)
    (h : o._enabled = false ∨ o.has_serial = false ∨ o._ok = false ∨ o.tx_empty = false) :
    SetManyChannels dataTbl fuel o channel data = some o := by
  unfold SetManyChannels
  rcases h with h | h | h | h
  · simp [h]
  · simp [h]
  · simp [h]
  · simp [h]

theorem SetManyChannels_skipped_witness :
    (({ freshOutput [acController 16 AddressMode.LOR_ADDR_MODE_NORMAL] with
          tx_empty := false } : Output)._enabled = false
      ∨ ({ freshOutput [acController 16 AddressMode.LOR_ADDR_MODE_NORMAL] with
          tx_empty := false } : Output).has_serial = false
      ∨ ({ freshOutput [acController 16 AddressMode.LOR_ADDR_MODE_NORMAL] with
          tx_empty := false } : Output)._ok = false
      ∨ ({ freshOutput [acController 16 AddressMode.LOR_ADDR_MODE_NORMAL] with
          tx_empty := false } : Output).tx_empty = false)
    ∧ SetManyChannels (fun v => v) 0
        { freshOutput [acController 16 AddressMode.LOR_ADDR_MODE_NORMAL] with tx_empty := false }
        0 mixedFrame
      = some { freshOutput [acController 16 AddressMode.LOR_ADDR_MODE_NORMAL] with
          tx_empty := false } :=
  ⟨Or.inr (Or.inr (Or.inr rfl)),
    SetManyChannels_skipped (fun v => v) mixedFrame 0 _ 0 (Or.inr (Or.inr (Or.inr rfl)))⟩

/-- C9: after a call that passes the guards, `_lastSent` holds the input value on every
channel the call consumed (the channels from `channel` up to the final cursor) and is
unchanged everywhere else; the call returns whenever every controller with channels to
process has a positive number of channels per pass. -/
theorem SetManyChannels_lastSent (dataTbl data : Nat → Nat) (o : Output) (channel : Nat)
    (hen : o._enabled = true) (hser : o.has_serial = true) (hok : o._ok = true)
    (htx : o.tx_empty = true) :
    (∀ fuel s, encodeFrame dataTbl fuel o channel data = some s →
        ∃ o2, SetManyChannels dataTbl fuel o channel data = some o2
          ∧ ∀ c, o2._lastSent c
              = if channel ≤ c ∧ c < s.cur_channel then data c else o._lastSent c)
    ∧ (∀ fuel : Nat, (∀ it ∈ o.controllers, plannedTotal it > 0 → plannedPerPass it > 0) →
        (∀ it ∈ o.controllers, plannedTotal it ≤ (fuel : Int)) →
        ∃ s o2, encodeFrame dataTbl fuel o channel data = some s
          ∧ SetManyChannels dataTbl fuel o channel data = some o2
          ∧ ∀ c, o2._lastSent c
              = if channel ≤ c ∧ c < s.cur_channel then data c else o._lastSent c) := by
  have key : ∀ fuel s, encodeFrame dataTbl fuel o channel data = some s →
      ∃ o2, SetManyChannels dataTbl fuel o channel data = some o2
        ∧ ∀ c, o2._lastSent c
            = if channel ≤ c ∧ c < s.cur_channel then data c else o._lastSent c := by
    intro fuel s hs
    exact ⟨_, SetManyChannels_of_encodeFrame dataTbl data o channel fuel s hen hser hok htx hs,
      (encodeFrame_extends dataTbl data o channel fuel s hs).2.1⟩
  refine ⟨key, ?_⟩
  intro fuel hwf hfuel
  obtain ⟨s, hs⟩ := encodeFrame_terminates dataTbl data o channel fuel hwf hfuel
  obtain ⟨o2, h1, h2⟩ := key fuel s hs
  exact ⟨s, o2, hs, h1, h2⟩

theorem SetManyChannels_lastSent_witness :
    ((freshOutput [acController 16 AddressMode.LOR_ADDR_MODE_NORMAL])._enabled = true
      ∧ (freshOutput [acController 16 AddressMode.LOR_ADDR_MODE_NORMAL]).has_serial = true
      ∧ (freshOutput [acController 16 AddressMode.LOR_ADDR_MODE_NORMAL])._ok = true
      ∧ (freshOutput [acController 16 AddressMode.LOR_ADDR_MODE_NORMAL]).tx_empty = true)
    ∧ ∃ s o2, encodeFrame (fun v => v) 16
          (freshOutput [acController 16 AddressMode.LOR_ADDR_MODE_NORMAL]) 0 mixedFrame = some s
        ∧ SetManyChannels (fun v => v) 16
          (freshOutput [acController 16 AddressMode.LOR_ADDR_MODE_NORMAL]) 0 mixedFrame = some o2
        ∧ ∀ c, o2._lastSent c
            = if 0 ≤ c ∧ c < s.cur_channel then mixedFrame c
              else (freshOutput [acController 16 AddressMode.LOR_ADDR_MODE_NORMAL])._lastSent c :=
  ⟨⟨rfl, rfl, rfl, rfl⟩,
    (SetManyChannels_lastSent (fun v => v) mixedFrame
      (freshOutput [acController 16 AddressMode.LOR_ADDR_MODE_NORMAL]) 0 rfl rfl rfl rfl).2 16
      (fun it hit => (acController_planned 16 it hit).1)
      (fun it hit => by rw [(acController_planned 16 it hit).2]; exact le_refl _)⟩


/-- C10 at a Legacy controller with 33 channels: `CalcTotalChannels` stores 33, while the
encoder runs three passes of 16 channels each, so that the cursor ends at 48 and the
channels 33..47 are read and recorded in `_lastSent`. -/
theorem legacy33_consumes_48 (dataTbl data : Nat → Nat) :
    (CalcTotalChannels [acController 33 AddressMode.LOR_ADDR_MODE_LEGACY] (fun _ => false)).1 = 33
    ∧ ∃ s, encodeFrame dataTbl 3 (freshOutput [acController 33 AddressMode.LOR_ADDR_MODE_LEGACY])
          0 data = some s
        ∧ s.cur_channel = 48
        ∧ (s.cur_channel : Int)
          ≠ (CalcTotalChannels [acController 33 AddressMode.LOR_ADDR_MODE_LEGACY]
              (fun _ => false)).1
        ∧ ∀ c, c < 48 → s._lastSent c = data c := by
  refine ⟨by decide, ?_⟩
  have h : encodeFrame dataTbl 3 (freshOutput [acController 33 AddressMode.LOR_ADDR_MODE_LEGACY])
      0 data
      = some (onePass dataTbl data true 3 16 (onePass dataTbl data true 2 16
          (onePass dataTbl data true 1 16
            { freshState with
              unit_id_in_use := (CalcChannels 33
                (acController 33 AddressMode.LOR_ADDR_MODE_LEGACY) (fun _ => false)).unit_id_in_use }))) := by
    rfl
  have htot : (CalcTotalChannels [acController 33 AddressMode.LOR_ADDR_MODE_LEGACY]
      (fun _ => false)).1 = 33 := by decide
  refine ⟨_, h, ?_, ?_, ?_⟩
  · simp only [onePass_cur_channel]
    rfl
  · rw [htot]
    simp only [onePass_cur_channel]
    decide
  · intro c hc
    have he := (encodeFrame_extends dataTbl data _ 0 3 _ h).2.1 c
    rw [he]
    have hcur : (onePass dataTbl data true 3 16 (onePass dataTbl data true 2 16
          (onePass dataTbl data true 1 16
            { freshState with
              unit_id_in_use := (CalcChannels 33
                (acController 33 AddressMode.LOR_ADDR_MODE_LEGACY) (fun _ => false)).unit_id_in_use }))).cur_channel
        = 48 := by
      simp only [onePass_cur_channel]
      rfl
    rw [hcur, if_pos ⟨Nat.zero_le _, hc⟩]

/-! ## The passes of a controller -/

theorem runPasses_zero (dataTbl data : Nat → Nat) (serial : Bool)
    (channels_per_pass unit_id : Int) (s : EncState) :
    runPasses dataTbl data serial channels_per_pass unit_id 0 s = s := rfl

theorem runPasses_succ_left (dataTbl data : Nat → Nat) (serial : Bool)
    (channels_per_pass unit_id : Int) (k : Nat) (s : EncState) :
    runPasses dataTbl data serial channels_per_pass unit_id (k + 1) s
      = runPasses dataTbl data serial channels_per_pass (unit_id + 1) k
          (onePass dataTbl data serial unit_id channels_per_pass s) := by
  unfold runPasses
  rw [List.range_succ_eq_map, List.foldl_cons, List.foldl_map]
  simp only [Nat.cast_zero, add_zero, Nat.succ_eq_add_one, Nat.cast_add, Nat.cast_one]
  congr 1
  funext t j
  congr 1
  omega

theorem runPasses_succ (dataTbl data : Nat → Nat) (serial : Bool)
    (channels_per_pass unit_id : Int) (k : Nat) (s : EncState) :
    runPasses dataTbl data serial channels_per_pass unit_id (k + 1) s
      = onePass dataTbl data serial (unit_id + (k : Int)) channels_per_pass
          (runPasses dataTbl data serial channels_per_pass unit_id k s) := by
  unfold runPasses
  rw [List.range_succ, List.foldl_append]
  rfl

/-- With `channels_per_pass > 0` the pass loop runs exactly `k` passes, where `k` is the
least number with `controller_channels_to_process ≤ k * channels_per_pass`, and hands
pass `j` the unit id `unit_id + j`. -/
theorem passLoop_runs (dataTbl data : Nat → Nat) (serial : Bool) (channels_per_pass : Int)
    (hpos : 0 < channels_per_pass) :
    ∀ (k fuel : Nat) (remaining unit_id : Int) (s : EncState), k ≤ fuel →
      remaining ≤ (k : Int) * channels_per_pass →
      (k = 0 ∨ (k : Int) * channels_per_pass < remaining + channels_per_pass) →
      passLoop dataTbl data serial channels_per_pass fuel remaining unit_id s
        = some (runPasses dataTbl data serial channels_per_pass unit_id k s) := by
  intro k
  induction k with
  | zero =>
    intro fuel remaining unit_id s _ hle _
    have : ¬ remaining > 0 := by simp at hle; omega
    rw [passLoop_done _ _ _ _ _ _ _ _ this]
    rfl
  | succ k ih =>
    intro fuel remaining unit_id s hfuel hle hlow
    have e : ((k + 1 : Nat) : Int) * channels_per_pass
        = (k : Int) * channels_per_pass + channels_per_pass := by push_cast; ring
    have hk : 0 ≤ (k : Int) * channels_per_pass :=
      Int.mul_nonneg (Int.ofNat_nonneg k) (le_of_lt hpos)
    rw [e] at hle hlow
    have hlow2 : (k : Int) * channels_per_pass < remaining := by
      rcases hlow with h | h
      · omega
      · omega
    have hrem : remaining > 0 := by omega
    obtain ⟨f, rfl⟩ : ∃ f, fuel = f + 1 := ⟨fuel - 1, by omega⟩
    unfold passLoop
    rw [if_pos hrem]
    simp only
    rw [ih f (remaining - channels_per_pass) (unit_id + 1) _ (by omega) (by omega)
      (Or.inr (by omega)), runPasses_succ_left]


/-! ## What `CalcChannels` plans -/

theorem markIds_apply (m : Int → Bool) (unit_id : Int) (n : Nat) (i : Int) :
    markIds m unit_id n i = if unit_id ≤ i ∧ i < unit_id + (n : Int) then true else m i := by
  induction n with
  | zero =>
    have : ¬ (unit_id ≤ i ∧ i < unit_id + ((0 : Nat) : Int)) := by omega
    rw [if_neg this]
    rfl
  | succ n ih =>
    rw [markIds, Function.update_apply, ih]
    by_cases h1 : i = unit_id + (n : Int)
    · have h2 : unit_id ≤ i ∧ i < unit_id + ((n + 1 : Nat) : Int) := by omega
      rw [if_pos h1, if_pos h2]
    · rw [if_neg h1]
      by_cases h3 : unit_id ≤ i ∧ i < unit_id + (n : Int)
      · have h2 : unit_id ≤ i ∧ i < unit_id + ((n + 1 : Nat) : Int) := by omega
        rw [if_pos h3, if_pos h2]
      · have h2 : ¬ (unit_id ≤ i ∧ i < unit_id + ((n + 1 : Nat) : Int)) := by omega
        rw [if_neg h3, if_neg h2]

theorem legacy_num_ids (n : Int) :
    (if Int.tdiv n 16 * 16 < n then Int.tdiv n 16 + 1 else Int.tdiv n 16).toNat
      = ((n + 15) / 16).toNat := by
  rcases Int.lt_or_le n 0 with h | h
  · have e : Int.tdiv n 16 = -((-n) / 16) := by
      have h1 : Int.tdiv n 16 = -(Int.tdiv (-n) 16) := by
        rw [Int.neg_tdiv, neg_neg]
      rw [h1, Int.tdiv_eq_ediv (by omega) (by decide)]
    rw [e]
    split_ifs <;> omega
  · rw [Int.tdiv_eq_ediv h (by decide)]
    split_ifs <;> omega

theorem outputs_per_card_cases (type : String)
    (h : type = "Pixie4" ∨ type = "Pixie8" ∨ type = "Pixie16") :
    outputs_per_card type = 4 ∨ outputs_per_card type = 8 ∨ outputs_per_card type = 16 := by
  rcases h with h | h | h <;> subst h <;> simp [outputs_per_card]

/-- The plan of `CalcChannels` for a Pixie controller. -/
theorem CalcChannels_pixie (n : Int) (it : LorController) (m : Int → Bool)
    (hp : it.type = "Pixie4" ∨ it.type = "Pixie8" ∨ it.type = "Pixie16") :
    CalcChannels n it m
      = { channel_count := outputs_per_card it.type * n
          channels_per_pass := n
          controller_channels_to_process := outputs_per_card it.type * n
          unit_id_in_use := markIds m it.unit_id (outputs_per_card it.type).toNat } := by
  unfold CalcChannels
  simp only [if_pos hp]

/-- The plan of `CalcChannels` for a controller in Legacy addressing. -/
theorem CalcChannels_legacy (n : Int) (it : LorController) (m : Int → Bool)
    (hp : ¬ (it.type = "Pixie4" ∨ it.type = "Pixie8" ∨ it.type = "Pixie16"))
    (hmode : it.address_mode = AddressMode.LOR_ADDR_MODE_LEGACY) :
    CalcChannels n it m
      = { channel_count := n
          channels_per_pass := 16
          controller_channels_to_process := n
          unit_id_in_use := markIds m it.unit_id ((n + 15) / 16).toNat } := by
  unfold CalcChannels
  simp only [if_neg hp, if_pos hmode, legacy_num_ids]

/-- The plan of `CalcChannels` for a controller in Split addressing. -/
theorem CalcChannels_split (n : Int) (it : LorController) (m : Int → Bool)
    (hp : ¬ (it.type = "Pixie4" ∨ it.type = "Pixie8" ∨ it.type = "Pixie16"))
    (hmode : it.address_mode = AddressMode.LOR_ADDR_MODE_SPLIT) :
    CalcChannels n it m
      = { channel_count := n
          channels_per_pass := Int.tdiv n 2
          controller_channels_to_process := n
          unit_id_in_use :=
            Function.update (Function.update m it.unit_id true) (it.unit_id + 1) true } := by
  unfold CalcChannels
  have h2 : ¬ it.address_mode = AddressMode.LOR_ADDR_MODE_LEGACY := by rw [hmode]; decide
  simp only [if_neg hp, if_neg h2, if_pos hmode]

/-- The plan of `CalcChannels` for a controller in Normal addressing. -/
theorem CalcChannels_normal (n : Int) (it : LorController) (m : Int → Bool)
    (hp : ¬ (it.type = "Pixie4" ∨ it.type = "Pixie8" ∨ it.type = "Pixie16"))
    (hmode : it.address_mode = AddressMode.LOR_ADDR_MODE_NORMAL) :
    CalcChannels n it m
      = { channel_count := n
          channels_per_pass := n
          controller_channels_to_process := n
          unit_id_in_use := m } := by
  unfold CalcChannels
  have h2 : ¬ it.address_mode = AddressMode.LOR_ADDR_MODE_LEGACY := by rw [hmode]; decide
  have h3 : ¬ it.address_mode = AddressMode.LOR_ADDR_MODE_SPLIT := by rw [hmode]; decide
  simp only [if_neg hp, if_neg h2, if_neg h3]

/-! ## Claims about the layout of Legacy, Split and Pixie controllers -/

/-- C11: for a non-Pixie controller in Legacy addressing with `n ≥ 1` channels,
`CalcChannels` sets `channels_per_pass = 16`, the pass loop runs exactly `ceil(n/16)`
passes, pass `j` with unit id `unit_id + j`, and `CalcChannels` marks exactly the unit ids
`unit_id, ..., unit_id + ceil(n/16) - 1` and leaves every other entry as it was. -/
theorem legacy_layout (dataTbl data : Nat → Nat) (serial : Bool) (it : LorController)
    (m : Int → Bool) (s : EncState) (fuel : Nat)
    (hp : ¬ (it.type = "Pixie4" ∨ it.type = "Pixie8" ∨ it.type = "Pixie16"))
    (hmode : it.address_mode = AddressMode.LOR_ADDR_MODE_LEGACY)
    (hn : 1 ≤ it.num_channels) (hfuel : ((it.num_channels + 15) / 16).toNat ≤ fuel) :
    (CalcChannels it.num_channels it m).channels_per_pass = 16
    ∧ passLoop dataTbl data serial (CalcChannels it.num_channels it m).channels_per_pass fuel
        (CalcChannels it.num_channels it m).controller_channels_to_process it.unit_id s
      = some (runPasses dataTbl data serial 16 it.unit_id
          ((it.num_channels + 15) / 16).toNat s)
    ∧ ∀ i, (CalcChannels it.num_channels it m).unit_id_in_use i
        = if it.unit_id ≤ i ∧ i < it.unit_id + (((it.num_channels + 15) / 16).toNat : Int)
          then true else m i := by
  rw [CalcChannels_legacy it.num_channels it m hp hmode]
  refine ⟨rfl, ?_, fun i => markIds_apply _ _ _ _⟩
  simp only
  exact passLoop_runs dataTbl data serial 16 (by decide) _ fuel _ _ s hfuel (by omega)
    (Or.inr (by omega))

theorem legacy_layout_witness :
    (¬ ((acController 33 AddressMode.LOR_ADDR_MODE_LEGACY).type = "Pixie4"
        ∨ (acController 33 AddressMode.LOR_ADDR_MODE_LEGACY).type = "Pixie8"
        ∨ (acController 33 AddressMode.LOR_ADDR_MODE_LEGACY).type = "Pixie16")
      ∧ (acController 33 AddressMode.LOR_ADDR_MODE_LEGACY).address_mode
          = AddressMode.LOR_ADDR_MODE_LEGACY
      ∧ 1 ≤ (acController 33 AddressMode.LOR_ADDR_MODE_LEGACY).num_channels
      ∧ (((acController 33 AddressMode.LOR_ADDR_MODE_LEGACY).num_channels + 15) / 16).toNat ≤ 3)
    ∧ passLoop (fun v => v) mixedFrame true
        (CalcChannels 33 (acController 33 AddressMode.LOR_ADDR_MODE_LEGACY)
          (fun _ => false)).channels_per_pass 3
        (CalcChannels 33 (acController 33 AddressMode.LOR_ADDR_MODE_LEGACY)
          (fun _ => false)).controller_channels_to_process 1 freshState
      = some (runPasses (fun v => v) mixedFrame true 16 1 3 freshState)
    ∧ ∀ i, (CalcChannels 33 (acController 33 AddressMode.LOR_ADDR_MODE_LEGACY)
          (fun _ => false)).unit_id_in_use i
        = if (1 : Int) ≤ i ∧ i < 1 + ((3 : Nat) : Int) then true else false :=
  ⟨⟨by decide, rfl, by decide, by decide⟩,
    (legacy_layout (fun v => v) mixedFrame true
      (acController 33 AddressMode.LOR_ADDR_MODE_LEGACY) (fun _ => false) freshState 3
      (by decide) rfl (by decide) (by decide)).2⟩

/-- C13: for a Pixie controller with `P` ports and `n ≥ 1` channels per port, whatever
its address mode, `CalcChannels` gives `channels_per_pass = n` and the effective channel
count `P * n`, marks exactly the unit ids `unit_id, ..., unit_id + P - 1`, and the pass
loop runs exactly `P` passes of `n` channels, pass `j` with unit id `unit_id + j`. -/
theorem pixie_layout (dataTbl data : Nat → Nat) (serial : Bool) (it : LorController)
    (m : Int → Bool) (s : EncState) (fuel : Nat)
    (hp : it.type = "Pixie4" ∨ it.type = "Pixie8" ∨ it.type = "Pixie16")
    (hn : 1 ≤ it.num_channels) (hfuel : (outputs_per_card it.type).toNat ≤ fuel) :
    (outputs_per_card it.type
        = if it.type = "Pixie4" then 4 else if it.type = "Pixie8" then 8 else 16)
    ∧ (CalcChannels it.num_channels it m).channels_per_pass = it.num_channels
    ∧ (CalcChannels it.num_channels it m).channel_count
        = outputs_per_card it.type * it.num_channels
    ∧ passLoop dataTbl data serial (CalcChannels it.num_channels it m).channels_per_pass fuel
        (CalcChannels it.num_channels it m).controller_channels_to_process it.unit_id s
      = some (runPasses dataTbl data serial it.num_channels it.unit_id
          (outputs_per_card it.type).toNat s)
    ∧ ∀ i, (CalcChannels it.num_channels it m).unit_id_in_use i
        = if it.unit_id ≤ i ∧ i < it.unit_id + outputs_per_card it.type
          then true else m i := by
  rw [CalcChannels_pixie it.num_channels it m hp]
  have hP := outputs_per_card_cases it.type hp
  refine ⟨rfl, rfl, rfl, ?_, ?_⟩
  · simp only
    apply passLoop_runs dataTbl data serial it.num_channels (by omega) _ fuel _ _ s hfuel
    · rcases hP with h | h | h <;> rw [h] <;> simp
    · right
      rcases hP with h | h | h <;> rw [h] <;> simp <;> omega
  · intro i
    simp only
    rw [markIds_apply]
    have e : (((outputs_per_card it.type).toNat : Nat) : Int) = outputs_per_card it.type := by
      rcases hP with h | h | h <;> rw [h] <;> rfl
    rw [e]

theorem pixie_layout_witness :
    (((pixieController "Pixie8" 12).type = "Pixie4" ∨ (pixieController "Pixie8" 12).type = "Pixie8"
        ∨ (pixieController "Pixie8" 12).type = "Pixie16")
      ∧ 1 ≤ (pixieController "Pixie8" 12).num_channels
      ∧ (outputs_per_card (pixieController "Pixie8" 12).type).toNat ≤ 8)
    ∧ (CalcChannels 12 (pixieController "Pixie8" 12) (fun _ => false)).channels_per_pass = 12
    ∧ (CalcChannels 12 (pixieController "Pixie8" 12) (fun _ => false)).channel_count = 96
    ∧ passLoop (fun v => v) mixedFrame true
        (CalcChannels 12 (pixieController "Pixie8" 12) (fun _ => false)).channels_per_pass 8
        (CalcChannels 12 (pixieController "Pixie8" 12)
          (fun _ => false)).controller_channels_to_process 1 freshState
      = some (runPasses (fun v => v) mixedFrame true 12 1 8 freshState)
    ∧ ∀ i, (CalcChannels 12 (pixieController "Pixie8" 12) (fun _ => false)).unit_id_in_use i
        = if (1 : Int) ≤ i ∧ i < 1 + 8 then true else false :=
  ⟨⟨by decide, by decide, by decide⟩,
    (pixie_layout (fun v => v) mixedFrame true (pixieController "Pixie8" 12) (fun _ => false)
      freshState 8 (by decide) (by decide) (by decide)).2⟩

theorem runPasses_cur_channel (dataTbl data : Nat → Nat) (serial : Bool)
    (channels_per_pass unit_id : Int) (k : Nat) (s : EncState) :
    (runPasses dataTbl data serial channels_per_pass unit_id k s).cur_channel
      = s.cur_channel + k * channels_per_pass.toNat := by
  induction k with
  | zero => simp [runPasses_zero]
  | succ k ih =>
    rw [runPasses_succ, onePass_cur_channel, ih]
    ring

/-- With `channels_per_pass ≤ 0` and channels left to process the pass loop never ends:
no amount of fuel lets it return. -/
theorem passLoop_stuck (dataTbl data : Nat → Nat) (serial : Bool) (channels_per_pass : Int)
    (hcpp : channels_per_pass ≤ 0) :
    ∀ (fuel : Nat) (remaining unit_id : Int) (s : EncState), remaining > 0 →
      passLoop dataTbl data serial channels_per_pass fuel remaining unit_id s = none := by
  intro fuel
  induction fuel with
  | zero =>
    intro remaining unit_id s h
    unfold passLoop
    rw [if_pos h]
  | succ fuel ih =>
    intro remaining unit_id s h
    unfold passLoop
    rw [if_pos h]
    exact ih _ _ _ (by omega)

/-- C12 at a Split controller with 5 channels: `CalcChannels` gives `channels_per_pass = 2`
and marks the unit ids 1 and 2 only, while the pass loop runs three passes of 2 channels
with the unit ids 1, 2 and 3 and moves the cursor by 6 channels. -/
theorem split5_three_passes (dataTbl data : Nat → Nat) (f : Nat) (s : EncState) :
    (CalcChannels 5 (acController 5 AddressMode.LOR_ADDR_MODE_SPLIT)
        (fun _ => false)).channels_per_pass = 2
    ∧ passLoop dataTbl data true
        (CalcChannels 5 (acController 5 AddressMode.LOR_ADDR_MODE_SPLIT)
          (fun _ => false)).channels_per_pass (f + 3)
        (CalcChannels 5 (acController 5 AddressMode.LOR_ADDR_MODE_SPLIT)
          (fun _ => false)).controller_channels_to_process
        (acController 5 AddressMode.LOR_ADDR_MODE_SPLIT).unit_id s
      = some (onePass dataTbl data true 3 2 (onePass dataTbl data true 2 2
          (onePass dataTbl data true 1 2 s)))
    ∧ (onePass dataTbl data true 3 2 (onePass dataTbl data true 2 2
          (onePass dataTbl data true 1 2 s))).cur_channel = s.cur_channel + 6
    ∧ (CalcChannels 5 (acController 5 AddressMode.LOR_ADDR_MODE_SPLIT)
        (fun _ => false)).unit_id_in_use 1 = true
    ∧ (CalcChannels 5 (acController 5 AddressMode.LOR_ADDR_MODE_SPLIT)
        (fun _ => false)).unit_id_in_use 2 = true
    ∧ (CalcChannels 5 (acController 5 AddressMode.LOR_ADDR_MODE_SPLIT)
        (fun _ => false)).unit_id_in_use 3 = false := by
  have hplan := CalcChannels_split 5 (acController 5 AddressMode.LOR_ADDR_MODE_SPLIT)
    (fun _ => false) (by decide) rfl
  rw [hplan]
  refine ⟨by decide, ?_, ?_, by decide, by decide, by decide⟩
  · have h := passLoop_runs dataTbl data true 2 (by decide) 3 (f + 3) 5 1 s (by omega)
      (by decide) (Or.inr (by decide))
    exact h
  · simp only [onePass_cur_channel]
    rfl

/-! ## Claims about AllOff and about termination -/

/-- C15 at a Legacy controller with 48 channels (three passes of one bank each): `AllOff`
writes the all-off shortcut of bank 0 for the first pass only; the bank counter is not
reset between passes, so the second and third pass get the shortcuts of bank 1 and
bank 2. -/
theorem allOff_legacy48 :
    (AllOff 3 (freshOutput [acController 48 AddressMode.LOR_ADDR_MODE_LEGACY])).map
        (fun o => o.written)
      = some [[0, 1, 0x41, 0, 0], [0, 2, 0x51, 0xC1, 0, 0], [0, 3, 0x51, 0xC2, 0, 0]]
    ∧ (AllOff 3 (freshOutput [acController 48 AddressMode.LOR_ADDR_MODE_LEGACY])).map
        (fun o => o.written)
      ≠ some [[0, 1, 0x41, 0, 0], [0, 2, 0x41, 0, 0], [0, 3, 0x41, 0, 0]] := by
  decide

theorem allOffPassLoop_stuck (serial : Bool) (channels_per_pass : Int)
    (hcpp : channels_per_pass ≤ 0) :
    ∀ (fuel : Nat) (remaining unit_id : Int) (st : AllOffState), remaining > 0 →
      allOffPassLoop serial channels_per_pass fuel remaining unit_id st = none := by
  intro fuel
  induction fuel with
  | zero =>
    intro remaining unit_id st h
    unfold allOffPassLoop
    rw [if_pos h]
  | succ fuel ih =>
    intro remaining unit_id st h
    unfold allOffPassLoop
    rw [if_pos h]
    exact ih _ _ _ (by omega)

/-- C20 at a Split controller with one channel: `CalcChannels` gives
`channels_per_pass = 0` while one channel is left to process, so the pass loop never
ends: whatever the fuel and the frame, neither `SetManyChannels` nor `AllOff` returns. -/
theorem split1_never_returns (dataTbl data : Nat → Nat) (fuel : Nat) :
    (CalcChannels 1 (acController 1 AddressMode.LOR_ADDR_MODE_SPLIT)
        (fun _ => false)).channels_per_pass = 0
    ∧ (CalcChannels 1 (acController 1 AddressMode.LOR_ADDR_MODE_SPLIT)
        (fun _ => false)).controller_channels_to_process = 1
    ∧ SetManyChannels dataTbl fuel
        (freshOutput [acController 1 AddressMode.LOR_ADDR_MODE_SPLIT]) 0 data = none
    ∧ AllOff fuel (freshOutput [acController 1 AddressMode.LOR_ADDR_MODE_SPLIT]) = none := by
  have hplan : ∀ m, CalcChannels 1 (acController 1 AddressMode.LOR_ADDR_MODE_SPLIT) m
      = { channel_count := 1
          channels_per_pass := 0
          controller_channels_to_process := 1
          unit_id_in_use := Function.update (Function.update m 1 true) (1 + 1) true } :=
    fun m => CalcChannels_split 1 (acController 1 AddressMode.LOR_ADDR_MODE_SPLIT) m
      (by decide) rfl
  refine ⟨by rw [hplan], by rw [hplan], ?_, ?_⟩
  · have hn : (acController 1 AddressMode.LOR_ADDR_MODE_SPLIT).num_channels = 1 := rfl
    unfold SetManyChannels encodeFrame
    simp only [freshOutput, controllerLoop, hn, hplan]
    rw [passLoop_stuck dataTbl data true 0 (le_refl 0) fuel 1 _ _ (by decide)]
    rfl
  · have hn : (acController 1 AddressMode.LOR_ADDR_MODE_SPLIT).num_channels = 1 := rfl
    unfold AllOff
    simp only [freshOutput, allOffControllerLoop, hn, hplan]
    rw [allOffPassLoop_stuck true 0 (le_refl 0) fuel 1 _ _ (by decide)]

/-- The bank loop of `AllOff` appends the all-off shortcuts of `ceil(n/16)` consecutive
bank numbers, starting at the bank counter it is entered with, whatever fuel at or above
`n` it is given. -/
theorem allOffBankLoop_eq (unit_id : Int) :
    ∀ (fuel : Nat) (channels_to_process : Int) (bank : Nat) (b : CmdBuf),
      channels_to_process ≤ fuel →
      allOffBankLoop unit_id fuel channels_to_process bank b
        = (b.pushAll ((List.range ((channels_to_process + 15) / 16).toNat).flatMap
              (fun j => allOffBytes unit_id (bank + j))),
            bank + ((channels_to_process + 15) / 16).toNat) := by
  intro fuel
  induction fuel with
  | zero =>
    intro n bank b h
    have hk : ((n + 15) / 16).toNat = 0 := by simp at h; omega
    rw [hk]
    rfl
  | succ fuel ih =>
    intro n bank b h
    unfold allOffBankLoop
    by_cases hn : n > 0
    · rw [if_pos hn]
      simp only
      rw [ih (n - 16) (bank + 1) _ (by push_cast at h; omega)]
      have hk : ((n + 15) / 16).toNat = ((n - 16 + 15) / 16).toNat + 1 := by omega
      rw [hk, List.range_succ_eq_map, List.flatMap_cons, List.flatMap_map,
        CmdBuf.pushAll_append]
      have hfirst : (if bank > 0 then
            (((b.push 0).push (byteOfInt unit_id)).push 0x51).push (0xC0 ||| bank)
          else ((b.push 0).push (byteOfInt unit_id)).push 0x41)
          = b.pushAll (allOffBytes unit_id (bank + 0)) := by
        by_cases hb : bank > 0 <;> simp [allOffBytes, hb, CmdBuf.push_mod]
      rw [hfirst]
      have hfun : (fun j => allOffBytes unit_id (bank + 1 + j))
          = (fun a => allOffBytes unit_id (bank + Nat.succ a)) := by
        funext j
        congr 1
        omega
      rw [hfun]
      congr 1
      omega
    · rw [if_neg hn]
      have hk : ((n + 15) / 16).toNat = 0 := by omega
      rw [hk]
      rfl

/-! ## The occupancy map -/

theorem CalcChannels_count (it : LorController) (m : Int → Bool) :
    (CalcChannels it.num_channels it m).channel_count = effectiveCount it := by
  unfold CalcChannels effectiveCount
  simp only
  split_ifs <;> rfl

theorem ite_true_iff (c : Prop) [Decidable c] (b : Bool) :
    (if c then true else b) = true ↔ b = true ∨ c := by
  by_cases h : c <;> simp [h]

/-- The entries `CalcChannels` leaves set: those set before and the consumed range. -/
theorem CalcChannels_marks (it : LorController) (m : Int → Bool) (i : Int) :
    (CalcChannels it.num_channels it m).unit_id_in_use i = true
      ↔ m i = true ∨ (it.unit_id ≤ i ∧ i < it.unit_id + (consumedIds it : Int)) := by
  by_cases hp : it.type = "Pixie4" ∨ it.type = "Pixie8" ∨ it.type = "Pixie16"
  · have hc : consumedIds it = (outputs_per_card it.type).toNat := by
      simp only [consumedIds, if_pos hp]
    rw [CalcChannels_pixie _ _ _ hp, hc]
    show markIds m it.unit_id (outputs_per_card it.type).toNat i = true ↔ _
    rw [markIds_apply, ite_true_iff]
  · by_cases hl : it.address_mode = AddressMode.LOR_ADDR_MODE_LEGACY
    · have hc : consumedIds it = ((it.num_channels + 15) / 16).toNat := by
        simp only [consumedIds, if_neg hp, if_pos hl]
      rw [CalcChannels_legacy _ _ _ hp hl, hc]
      show markIds m it.unit_id ((it.num_channels + 15) / 16).toNat i = true ↔ _
      rw [markIds_apply, ite_true_iff]
    · by_cases hs : it.address_mode = AddressMode.LOR_ADDR_MODE_SPLIT
      · have hc : consumedIds it = 2 := by
          simp only [consumedIds, if_neg hp, if_neg hl, if_pos hs]
        rw [CalcChannels_split _ _ _ hp hs, hc]
        show Function.update (Function.update m it.unit_id true) (it.unit_id + 1) true i = true
          ↔ _
        rw [Function.update_apply, Function.update_apply, ite_true_iff, ite_true_iff]
        constructor
        · rintro ((h | h) | h)
          · exact Or.inl h
          · exact Or.inr (by omega)
          · exact Or.inr (by omega)
        · rintro (h | h)
          · exact Or.inl (Or.inl h)
          · by_cases hi : i = it.unit_id
            · exact Or.inl (Or.inr hi)
            · exact Or.inr (by omega)
      · have hn : it.address_mode = AddressMode.LOR_ADDR_MODE_NORMAL := by
          cases hm : it.address_mode <;> simp_all
        have hc : consumedIds it = 0 := by
          simp only [consumedIds, if_neg hp, if_neg hl, if_neg hs]
        rw [CalcChannels_normal _ _ _ hp hn, hc]
        have : ¬ (it.unit_id ≤ i ∧ i < it.unit_id + ((0 : Nat) : Int)) := by omega
        exact (or_iff_left this).symm

theorem CalcTotalLoop_spec (controllers : List LorController) :
    ∀ (t : Int) (m : Int → Bool),
      (CalcTotalLoop controllers (t, m)).1 = t + (controllers.map effectiveCount).sum
      ∧ ∀ i, (CalcTotalLoop controllers (t, m)).2 i = true
          ↔ m i = true ∨ ∃ it ∈ controllers,
              i = it.unit_id ∨ (it.unit_id ≤ i ∧ i < it.unit_id + (consumedIds it : Int)) := by
  induction controllers with
  | nil =>
    intro t m
    simp [CalcTotalLoop]
  | cons it rest ih =>
    intro t m
    simp only [CalcTotalLoop]
    obtain ⟨h1, h2⟩ := ih (t + (CalcChannels it.num_channels it
      (Function.update m it.unit_id true)).channel_count)
      (CalcChannels it.num_channels it (Function.update m it.unit_id true)).unit_id_in_use
    refine ⟨?_, ?_⟩
    · rw [h1, CalcChannels_count]
      simp only [List.map_cons, List.sum_cons]
      ring
    · intro i
      rw [h2 i, CalcChannels_marks, Function.update_apply, ite_true_iff]
      constructor
      · rintro (((h | h) | h) | ⟨it2, hmem, h⟩)
        · exact Or.inl h
        · exact Or.inr ⟨it, List.mem_cons_self _ _, Or.inl h⟩
        · exact Or.inr ⟨it, List.mem_cons_self _ _, Or.inr h⟩
        · exact Or.inr ⟨it2, List.mem_cons_of_mem _ hmem, h⟩
      · rintro (h | ⟨it2, hmem, h⟩)
        · exact Or.inl (Or.inl (Or.inl h))
        · rcases List.mem_cons.mp hmem with he | hr
          · subst he
            rcases h with h | h
            · exact Or.inl (Or.inl (Or.inr h))
            · exact Or.inl (Or.inr h)
          · exact Or.inr ⟨it2, hr, h⟩

/-! ## Claims about the occupancy map -/

/-- C14: after `CalcTotalChannels` the stored total is the sum of the effective channel
counts of the controllers, entry 0 of the occupancy map is set, and an entry `i` in
1..254 is set iff `i` is the unit id of a controller or lies in the consumed range of a
controller, whatever the map held before the call. -/
theorem CalcTotalChannels_spec (controllers : List LorController) (m0 : Int → Bool) :
    (CalcTotalChannels controllers m0).1 = (controllers.map effectiveCount).sum
    ∧ (CalcTotalChannels controllers m0).2 0 = true
    ∧ ∀ i, 1 ≤ i → i ≤ 254 →
        ((CalcTotalChannels controllers m0).2 i = true
          ↔ ∃ it ∈ controllers,
              i = it.unit_id ∨ (it.unit_id ≤ i ∧ i < it.unit_id + (consumedIds it : Int))) := by
  unfold CalcTotalChannels
  obtain ⟨h1, h2⟩ := CalcTotalLoop_spec controllers 0
    (Function.update (fun i => if 0 ≤ i ∧ i < 255 then false else m0 i) 0 true)
  refine ⟨by simpa using h1, ?_, ?_⟩
  · rw [h2 0]
    left
    simp
  · intro i hi1 hi2
    rw [h2 i, Function.update_apply]
    have hne : i ≠ 0 := by omega
    have hin : 0 ≤ i ∧ i < 255 := by omega
    simp [hne, hin]

theorem CalcTotalChannels_spec_witness :
    ((1 : Int) ≤ 9 ∧ (9 : Int) ≤ 254)
    ∧ ((CalcTotalChannels [pixieController "Pixie8" 12,
          acController 33 AddressMode.LOR_ADDR_MODE_LEGACY] (fun _ => true)).2 9 = true
        ↔ ∃ it ∈ [pixieController "Pixie8" 12, acController 33 AddressMode.LOR_ADDR_MODE_LEGACY],
            (9 : Int) = it.unit_id
              ∨ (it.unit_id ≤ 9 ∧ (9 : Int) < it.unit_id + (consumedIds it : Int))) :=
  ⟨by decide,
    (CalcTotalChannels_spec [pixieController "Pixie8" 12,
      acController 33 AddressMode.LOR_ADDR_MODE_LEGACY] (fun _ => true)).2.2 9 (by decide)
      (by decide)⟩

/-- C16 at a single-channel controller set to 0xFF: the first `SetOneChannel` of a frame
re-initialises the history (every bank flag set, every `_lastSent` entry 0xFF), and the
frame encode that follows passes the guards, runs a pass with one channel and writes
nothing, because the channel value 0xFF equals the history value. -/
theorem fullOn_frame_not_sent (dataTbl : Nat → Nat) (MAX_BANKS size : Nat) :
    (∀ i, i < MAX_BANKS →
        (SetOneChannel MAX_BANKS (size + 1) idleFrameOutput 0 0xFF).out.banks_changed i = true)
    ∧ (∀ i, i < size + 1 →
        (SetOneChannel MAX_BANKS (size + 1) idleFrameOutput 0 0xFF).out._lastSent i = 0xFF)
    ∧ (SetOneChannel MAX_BANKS (size + 1) idleFrameOutput 0 0xFF)._curData 0 = 0xFF
    ∧ ∃ f, EndFrame dataTbl 1 (SetOneChannel MAX_BANKS (size + 1) idleFrameOutput 0 0xFF)
          = some f
        ∧ f.out.written = [] := by
  have hset : SetOneChannel MAX_BANKS (size + 1) idleFrameOutput 0 0xFF
      = { out := { freshOutput [acController 1 AddressMode.LOR_ADDR_MODE_NORMAL] with
            banks_changed := SetupHistory MAX_BANKS (fun _ => false)
            _lastSent := fun i => if i < size + 1 then 0xFF else 0 }
          _curData := Function.update (fun i => if i < size + 1 then 0x00 else 0) 0 0xFF
          _changed := true
          _suspend := false } := rfl
  rw [hset]
  refine ⟨?_, ?_, ?_, ?_⟩
  · intro i hi
    simp [SetupHistory, hi]
  · intro i hi
    simp [hi]
  · simp
  · have henc : encodeFrame dataTbl 1
        { freshOutput [acController 1 AddressMode.LOR_ADDR_MODE_NORMAL] with
          banks_changed := SetupHistory MAX_BANKS (fun _ => false)
          _lastSent := fun i => if i < size + 1 then 0xFF else 0 } 0
        (Function.update (fun i => if i < size + 1 then 0x00 else 0) 0 0xFF)
        = some (onePass dataTbl
            (Function.update (fun i => if i < size + 1 then 0x00 else 0) 0 0xFF) true 1 1
            { _lastSent := fun i => if i < size + 1 then 0xFF else 0
              banks_changed := SetupHistory MAX_BANKS (fun _ => false)
              unit_id_in_use := fun _ => false
              written := []
              cur_channel := 0 }) := rfl
    have hsmc := SetManyChannels_of_encodeFrame dataTbl _ _ 0 1 _ rfl rfl rfl rfl henc
    have hq : changedIn (Function.update (fun i => if i < size + 1 then 0x00 else 0) 0 0xFF)
        (fun i => if i < size + 1 then 0xFF else 0) 0 (1 : Int).toNat = false := by
      apply changedIn_false_of_eq
      intro i hi
      have hi0 : i = 0 := by
        have : (1 : Int).toNat = 1 := rfl
        omega
      subst hi0
      simp
    have hw : (onePass dataTbl
        (Function.update (fun i => if i < size + 1 then 0x00 else 0) 0 0xFF) true 1 1
        { _lastSent := fun i => if i < size + 1 then 0xFF else 0
          banks_changed := SetupHistory MAX_BANKS (fun _ => false)
          unit_id_in_use := fun _ => false
          written := []
          cur_channel := 0 }).written = [] := by
      rw [onePass_written, hq]
      rfl
    unfold EndFrame
    simp only [hsmc]
    exact ⟨_, rfl, hw⟩

/-! ## Bits of the bank records -/

/-- Bit `i` of the mask of value `v` is set iff channel `i` of the bank holds `v`. -/
theorem maskOf_testBit (data : Nat → Nat) (base v k i : Nat) :
    (maskOf data base v k).testBit i = decide (i < k ∧ data (base + i) = v) := by
  induction k with
  | zero => simp [maskOf]
  | succ k ih =>
    rw [maskOf]
    by_cases hv : data (base + k) = v
    · rw [if_pos hv, Nat.testBit_or, ih, Nat.one_shiftLeft, Nat.testBit_two_pow]
      by_cases hik : k = i
      · subst hik
        simp [hv]
      · have h1 : (i < k + 1 ∧ data (base + i) = v) ↔ (i < k ∧ data (base + i) = v) := by
          constructor
          · rintro ⟨h, e⟩; exact ⟨by omega, e⟩
          · rintro ⟨h, e⟩; exact ⟨by omega, e⟩
        simp [hik, h1]
    · rw [if_neg hv, ih]
      have h1 : (i < k + 1 ∧ data (base + i) = v) ↔ (i < k ∧ data (base + i) = v) := by
        constructor
        · rintro ⟨h, e⟩
          refine ⟨?_, e⟩
          rcases Nat.lt_or_ge i k with h2 | h2
          · exact h2
          · have : i = k := by omega
            subst this
            exact absurd e hv
        · rintro ⟨h, e⟩; exact ⟨by omega, e⟩
      simp [h1]

theorem testBit_foldl_or (recs : List LORDataPair) (a i : Nat) :
    (recs.foldl (fun acc r => acc ||| r.bits) a).testBit i
      = (a.testBit i || recs.any (fun r => r.bits.testBit i)) := by
  induction recs generalizing a with
  | nil => simp
  | cons r rest ih =>
    rw [List.foldl_cons, ih, Nat.testBit_or, List.any_cons, Bool.or_assoc]

/-- The records of a bank of `k` channels: their values, bits, disjointness and union. -/
theorem groupUpTo_bits (data : Nat → Nat) (base k : Nat) :
    (groupUpTo data base k).map (fun r => r.value) = firstOcc (channelValues data base k)
    ∧ (∀ r ∈ groupUpTo data base k, ∀ i,
        r.bits.testBit i = true ↔ (i < k ∧ data (base + i) = r.value))
    ∧ (∀ r ∈ groupUpTo data base k, r.bits ≠ 0)
    ∧ (∀ r1 ∈ groupUpTo data base k, ∀ r2 ∈ groupUpTo data base k,
        r1 ≠ r2 → r1.bits &&& r2.bits = 0)
    ∧ (groupUpTo data base k).foldl (fun acc r => acc ||| r.bits) 0 = 2 ^ k - 1 := by
  have hmem : ∀ r ∈ groupUpTo data base k,
      r.value ∈ channelValues data base k ∧ r.bits = maskOf data base r.value k := by
    intro r hr
    rw [groupUpTo_eq, List.mem_map] at hr
    obtain ⟨v, hv, rfl⟩ := hr
    exact ⟨(mem_firstOcc _ _).mp hv, rfl⟩
  have hbits : ∀ r ∈ groupUpTo data base k, ∀ i,
      r.bits.testBit i = true ↔ (i < k ∧ data (base + i) = r.value) := by
    intro r hr i
    rw [(hmem r hr).2, maskOf_testBit]
    simp
  refine ⟨?_, hbits, ?_, ?_, ?_⟩
  · rw [groupUpTo_eq, List.map_map]
    exact List.map_id _
  · intro r hr h0
    obtain ⟨i, hi, hiv⟩ := (mem_channelValues _ _ _ _).mp (hmem r hr).1
    have := (hbits r hr i).mpr ⟨hi, hiv⟩
    rw [h0] at this
    simp at this
  · intro r1 h1 r2 h2 hne
    apply Nat.eq_of_testBit_eq
    intro i
    rw [Nat.testBit_and, Nat.zero_testBit]
    cases hb1 : r1.bits.testBit i
    · rfl
    · cases hb2 : r2.bits.testBit i
      · rfl
      · exfalso
        have e1 := ((hbits r1 h1 i).mp hb1).2
        have e2 := ((hbits r2 h2 i).mp hb2).2
        apply hne
        have hv : r1.value = r2.value := e1.symm.trans e2
        cases r1
        cases r2
        simp only at hv
        subst hv
        have q1 := (hmem _ h1).2
        have q2 := (hmem _ h2).2
        simp only at q1 q2
        rw [q1, q2]
  · apply Nat.eq_of_testBit_eq
    intro i
    rw [testBit_foldl_or, Nat.zero_testBit, Bool.false_or, Nat.testBit_two_pow_sub_one]
    by_cases hi : i < k
    · have hv : data (base + i) ∈ firstOcc (channelValues data base k) :=
        (mem_firstOcc _ _).mpr ((mem_channelValues _ _ _ _).mpr ⟨i, hi, rfl⟩)
      have hr : (⟨data (base + i), maskOf data base (data (base + i)) k⟩ : LORDataPair)
          ∈ groupUpTo data base k := by
        rw [groupUpTo_eq]
        exact List.mem_map.mpr ⟨_, hv, rfl⟩
      rw [decide_eq_true hi, List.any_eq_true]
      exact ⟨_, hr, (hbits _ hr i).mpr ⟨hi, rfl⟩⟩
    · rw [decide_eq_false hi, List.any_eq_false]
      intro r hr hb
      exact hi ((hbits r hr i).mp hb).1

/-! ## Claim about the grouping of a bank -/

/-- C18: after the gathering loop of a pass, a bank that holds `m` channels (`1 ≤ m ≤ 16`)
has records with pairwise distinct values listed in order of first occurrence; bit `i` of a
record is set iff channel `i` of the bank holds the value of the record; every bitmask is
nonzero, two different records have disjoint bitmasks, and the union of the bitmasks is
`2^m - 1`. The color flag of the bank is set iff a channel of the bank holds a value in
1..254. -/
theorem bank_grouping (data : Nat → Nat) (s : EncState) (n b : Nat) (hb : b < numBanks n) :
    (1 ≤ bankLen n b ∧ bankLen n b ≤ 16)
    ∧ ((groupLoop data n (groupInit s)).lorBankData b).map (fun r => r.value)
        = firstOcc (channelValues data (s.cur_channel + 16 * b) (bankLen n b))
    ∧ (((groupLoop data n (groupInit s)).lorBankData b).map (fun r => r.value)).Nodup
    ∧ (∀ r ∈ (groupLoop data n (groupInit s)).lorBankData b, ∀ i,
        r.bits.testBit i = true
          ↔ (i < bankLen n b ∧ data (s.cur_channel + 16 * b + i) = r.value))
    ∧ (∀ r ∈ (groupLoop data n (groupInit s)).lorBankData b, r.bits ≠ 0)
    ∧ (∀ r1 ∈ (groupLoop data n (groupInit s)).lorBankData b,
        ∀ r2 ∈ (groupLoop data n (groupInit s)).lorBankData b,
        r1 ≠ r2 → r1.bits &&& r2.bits = 0)
    ∧ ((groupLoop data n (groupInit s)).lorBankData b).foldl (fun acc r => acc ||| r.bits) 0
        = 2 ^ bankLen n b - 1
    ∧ ((groupLoop data n (groupInit s)).color_mode b = true
        ↔ ∃ i, i < bankLen n b ∧ 1 ≤ data (s.cur_channel + 16 * b + i)
            ∧ data (s.cur_channel + 16 * b + i) ≤ 254) := by
  obtain ⟨hrecs, hcolor⟩ := groupLoop_bank data s n b hb
  obtain ⟨g1, g2, g3, g4, g5⟩ := groupUpTo_bits data (s.cur_channel + 16 * b) (bankLen n b)
  rw [hrecs]
  refine ⟨⟨bankLen_pos n b hb, by unfold bankLen; omega⟩, g1, ?_, g2, g3, g4, g5, ?_⟩
  · rw [g1]
    exact nodup_firstOcc _
  · rw [hcolor, colorIn_iff]
    constructor
    · rintro ⟨i, hi, h1, h2⟩
      exact ⟨i, hi, by omega, by omega⟩
    · rintro ⟨i, hi, h1, h2⟩
      exact ⟨i, hi, by omega, by omega⟩

theorem bank_grouping_witness :
    ((0 : Nat) < numBanks 16)
    ∧ ((groupLoop mixedFrame 16 (groupInit freshState)).lorBankData 0).map (fun r => r.value)
        = firstOcc (channelValues mixedFrame (freshState.cur_channel + 16 * 0) (bankLen 16 0))
    ∧ ((groupLoop mixedFrame 16 (groupInit freshState)).lorBankData 0).foldl
        (fun acc r => acc ||| r.bits) 0 = 2 ^ bankLen 16 0 - 1 :=
  ⟨by decide,
    (bank_grouping mixedFrame freshState 16 0 (by decide)).2.1,
    (bank_grouping mixedFrame freshState 16 0 (by decide)).2.2.2.2.2.2.1⟩

/-! ## The size of the buffer of a pass -/

theorem commandBytes_length (unit_id bank : Int) (value_byte : Bool) (dbyte lsb msb : Nat) :
    (commandBytes unit_id bank value_byte dbyte lsb msb).length
      = 2 + (if bank > 0 then (if value_byte then 3 else 2) else (if value_byte then 2 else 1))
          + (if lsb ≠ 0 then 1 else 0) + (if msb ≠ 0 then 1 else 0) := by
  unfold commandBytes
  cases value_byte <;> by_cases h1 : bank > 0 <;> by_cases h2 : msb = 0 <;>
    by_cases h3 : lsb = 0 <;> simp [h1, h2, h3]

theorem zeroValueBytes_length (dataTbl : Nat → Nat) (unit_id : Int) (bank bits : Nat) :
    (zeroValueBytes dataTbl unit_id bank bits).length = 5 + maskBytes bits := by
  unfold zeroValueBytes maskBytes
  by_cases h2 : msbOf bits = 0 <;> by_cases h3 : lsbOf bits = 0 <;> simp [h2, h3]

theorem allOffBytes_length (unit_id : Int) (bank : Nat) :
    (allOffBytes unit_id bank).length ≤ 4 := by
  unfold allOffBytes
  by_cases hb : bank > 0 <;> simp [hb]

/-- One record adds at most its weight to the buffer, over the three record loops. -/
theorem record_bytes_le (dataTbl : Nat → Nat) (unit_id : Int) (bank : Nat) (color : Bool)
    (n : Nat) (r : LORDataPair) :
    (zeroBytes dataTbl unit_id bank color n r).length
        + (fullOnBytes dataTbl unit_id bank r).length
        + (valueBytes dataTbl unit_id bank r).length
      ≤ recordWeight r := by
  unfold zeroBytes fullOnBytes valueBytes recordWeight
  have ha := allOffBytes_length unit_id bank
  by_cases h0 : r.value = 0
  · have h255 : ¬ r.value = 0xFF := by omega
    have hv : ¬ (r.value ≠ 0 ∧ r.value ≠ 0xFF) := fun h => h.1 h0
    rw [if_pos h0, if_neg h255, if_neg hv]
    split_ifs
    · simp only [List.length_nil]; omega
    · rw [zeroValueBytes_length]; simp
    · simp
  · rw [if_neg h0]
    by_cases h255 : r.value = 0xFF
    · have hv : ¬ (r.value ≠ 0 ∧ r.value ≠ 0xFF) := fun h => h.2 h255
      rw [if_pos h255, if_neg hv, commandBytes_length]
      unfold maskBytes
      simp only [List.length_nil]
      split_ifs <;> omega
    · have hv : r.value ≠ 0 ∧ r.value ≠ 0xFF := ⟨h0, h255⟩
      rw [if_neg h255, if_pos hv, commandBytes_length]
      unfold maskBytes
      simp only [List.length_nil]
      split_ifs <;> omega

theorem flatMap_lengths_le (dataTbl : Nat → Nat) (unit_id : Int) (bank : Nat) (color : Bool)
    (n : Nat) (recs : List LORDataPair) :
    (recs.flatMap (zeroBytes dataTbl unit_id bank color n)).length
        + (recs.flatMap (fullOnBytes dataTbl unit_id bank)).length
        + (recs.flatMap (valueBytes dataTbl unit_id bank)).length
      ≤ (recs.map recordWeight).sum := by
  induction recs with
  | nil => simp
  | cons r rest ih =>
    simp only [List.flatMap_cons, List.length_append, List.map_cons, List.sum_cons]
    have := record_bytes_le dataTbl unit_id bank color n r
    omega

/-- The bytes of a bank are bounded by the weights of its records. -/
theorem bankBytes_length_le (dataTbl : Nat → Nat) (unit_id : Int) (bank : Nat) (color : Bool)
    (recs : List LORDataPair) :
    (bankBytes dataTbl unit_id bank color recs).length ≤ (recs.map recordWeight).sum := by
  unfold bankBytes
  simp only [List.length_append]
  exact flatMap_lengths_le dataTbl unit_id bank color recs.length recs

theorem lsbOf_or (a b : Nat) : lsbOf (a ||| b) = lsbOf a ||| lsbOf b := by
  unfold lsbOf
  apply Nat.eq_of_testBit_eq
  intro i
  simp only [Nat.testBit_and, Nat.testBit_or]
  cases a.testBit i <;> cases b.testBit i <;> simp

theorem msbOf_or (a b : Nat) : msbOf (a ||| b) = msbOf a ||| msbOf b := by
  unfold msbOf
  have e : (256 : Nat) = 2 ^ 8 := by decide
  rw [e]
  apply Nat.eq_of_testBit_eq
  intro i
  simp only [Nat.testBit_mod_two_pow, Nat.testBit_or, Nat.testBit_shiftRight]
  cases decide (i < 8) <;> simp

theorem single_bit_bytes : ∀ k, k < 16 →
    (k < 8 → msbOf (1 <<< k) = 0) ∧ (8 ≤ k → lsbOf (1 <<< k) = 0)
    ∧ maskBytes (1 <<< k) ≤ 1 := by
  decide

/-- Setting one more bit adds at most one bitmask byte. -/
theorem maskBytes_or_le (bits k : Nat) (hk : k < 16) :
    maskBytes (bits ||| (1 <<< k)) ≤ maskBytes bits + 1 := by
  obtain ⟨h1, h2, _⟩ := single_bit_bytes k hk
  unfold maskBytes
  rw [lsbOf_or, msbOf_or]
  rcases Nat.lt_or_ge k 8 with h | h
  · rw [h1 h, Nat.or_zero]
    split_ifs <;> omega
  · rw [h2 h, Nat.or_zero]
    split_ifs <;> omega

theorem addToBank_weight_le (recs : List LORDataPair) (v k : Nat) (hk : k < 16) :
    ((addToBank recs v k).map recordWeight).sum ≤ (recs.map recordWeight).sum + 6 := by
  induction recs with
  | nil =>
    have := (single_bit_bytes k hk).2.2
    simp only [addToBank, List.map_cons, List.map_nil, List.sum_cons, List.sum_nil,
      recordWeight]
    omega
  | cons r rest ih =>
    rw [addToBank]
    by_cases hv : r.value = v
    · rw [if_pos hv]
      have := maskBytes_or_le r.bits k hk
      simp only [List.map_cons, List.sum_cons, recordWeight]
      omega
    · rw [if_neg hv]
      simp only [List.map_cons, List.sum_cons]
      omega

/-- The records of a bank of `k ≤ 16` channels weigh at most `6 * k`. -/
theorem groupUpTo_weight_le (data : Nat → Nat) (base k : Nat) (hk : k ≤ 16) :
    ((groupUpTo data base k).map recordWeight).sum ≤ 6 * k := by
  induction k with
  | zero => simp [groupUpTo]
  | succ k ih =>
    rw [groupUpTo]
    have h1 := addToBank_weight_le (groupUpTo data base k) (data (base + k)) k (by omega)
    have h2 := ih (by omega)
    omega

theorem passBankBytes_length_le (dataTbl data : Nat → Nat) (unit_id : Int) (start n b : Nat) :
    (passBankBytes dataTbl data unit_id start n b).length ≤ 96 := by
  unfold passBankBytes
  have h1 := bankBytes_length_le dataTbl unit_id b (colorIn data (start + 16 * b) (bankLen n b))
    (groupUpTo data (start + 16 * b) (bankLen n b))
  have h2 := groupUpTo_weight_le data (start + 16 * b) (bankLen n b) (by unfold bankLen; omega)
  have h3 : bankLen n b ≤ 16 := by unfold bankLen; omega
  omega

theorem flatMap_length_le {α : Type} (l : List α) (f : α → List Nat) (c : Nat)
    (h : ∀ x ∈ l, (f x).length ≤ c) : (l.flatMap f).length ≤ c * l.length := by
  induction l with
  | nil => simp
  | cons x l ih =>
    simp only [List.flatMap_cons, List.length_append, List.length_cons]
    have h1 := h x (List.mem_cons_self _ _)
    have h2 := ih (fun y hy => h y (List.mem_cons_of_mem _ hy))
    rw [Nat.mul_succ]
    omega

/-- The command bytes of a pass of `n` channels: at most 96 per bank. -/
theorem passBytes_length_le (dataTbl data lastSent : Nat → Nat) (unit_id : Int)
    (start n : Nat) :
    (passBytes dataTbl data lastSent unit_id start n).length ≤ 96 * numBanks n := by
  unfold passBytes
  have h := flatMap_length_le (List.range (numBanks n)).reverse (fun b =>
    if changedIn data lastSent (start + 16 * b) (bankLen n b) then
      passBankBytes dataTbl data unit_id start n b
    else []) 96 (by
      intro b _
      simp only
      split_ifs
      · exact passBankBytes_length_le _ _ _ _ _ _
      · simp)
  simpa using h

/-! ## A frame with sixteen distinct values in every bank -/

theorem byteOfInt_ofNat (u : Nat) : byteOfInt (u : Int) = u % 256 := by
  unfold byteOfInt; omega

/-- For a bank above bank 0 the explicit zero-value command is the command
`GenerateCommand` builds with value byte `_data[0]`. -/
theorem zeroValueBytes_eq_commandBytes (dataTbl : Nat → Nat) (unit_id : Int) (bank bits : Nat)
    (hb : 1 ≤ bank) :
    zeroValueBytes dataTbl unit_id bank bits
      = commandBytes unit_id bank true (dataTbl 0) (lsbOf bits) (msbOf bits) := by
  have hbank : ((bank : Nat) : Int) > 0 := by omega
  have hl : lsbOf bits % 256 = lsbOf bits := Nat.mod_eq_of_lt (lsbOf_lt bits)
  have hm : msbOf bits % 256 = msbOf bits := Nat.mod_eq_of_lt (msbOf_lt bits)
  unfold zeroValueBytes commandBytes
  rw [byteOfInt_ofNat, if_pos hbank, hl, hm]
  simp

/-- C22: the explicit zero-value command of a zero group in a color-mode bank with more
than one group is, for every bank index, bank 0 included, the banked form 0x00, unit id,
0x53, `_data[0]`, bank | flag (0x40 when the high bitmask byte is 0, else 0x80 when the low
one is 0), then the nonzero bitmask bytes; these bytes are the ones `GenerateCommand`
appends for the same unit, bank, value byte `_data[0]` and bitmask bytes if and only if
the bank is at least 1. -/
theorem zeroValue_banked_form (dataTbl : Nat → Nat) (unit_id : Int) (bank n : Nat)
    (buf : CmdBuf) (r : LORDataPair) (hv : r.value = 0) (hn : n ≠ 1) :
    slice (zeroRecord dataTbl unit_id bank true n buf r).d buf.idx
        (zeroRecord dataTbl unit_id bank true n buf r).idx
      = [0x00, byteOfInt unit_id, 0x53, dataTbl 0 % 256,
          bank % 256 ||| (if msbOf r.bits = 0 then 0x40 else if lsbOf r.bits = 0 then 0x80
            else 0)]
        ++ (if lsbOf r.bits ≠ 0 then [lsbOf r.bits] else [])
        ++ (if msbOf r.bits ≠ 0 then [msbOf r.bits] else [])
    ∧ (slice (zeroRecord dataTbl unit_id bank true n buf r).d buf.idx
          (zeroRecord dataTbl unit_id bank true n buf r).idx
        = slice (GenerateCommand buf unit_id bank true (dataTbl 0) (lsbOf r.bits)
              (msbOf r.bits)).d buf.idx
            (GenerateCommand buf unit_id bank true (dataTbl 0) (lsbOf r.bits)
              (msbOf r.bits)).idx
        ↔ 1 ≤ bank) := by
  have hz : zeroBytes dataTbl unit_id bank true n r
      = zeroValueBytes dataTbl unit_id bank r.bits := by
    simp [zeroBytes, hv, hn]
  have hs : slice (zeroRecord dataTbl unit_id bank true n buf r).d buf.idx
        (zeroRecord dataTbl unit_id bank true n buf r).idx
      = zeroValueBytes dataTbl unit_id bank r.bits := by
    rw [zeroRecord_eq_pushAll, CmdBuf.pushAll_slice, hz,
      map_mod_of_lt _ (zeroValueBytes_lt _ _ _ _)]
  refine ⟨hs, ?_⟩
  rw [hs, (GenerateCommand_spec buf unit_id bank true (dataTbl 0) (lsbOf r.bits)
    (msbOf r.bits)).1]
  constructor
  · intro h
    by_contra hb
    have hb0 : bank = 0 := by omega
    subst hb0
    have hlen := congrArg List.length h
    rw [zeroValueBytes_length, commandBytes_length] at hlen
    unfold maskBytes at hlen
    simp only [Nat.cast_zero, gt_iff_lt, lt_self_iff_false, if_false, if_true] at hlen
    omega
  · intro hb
    exact zeroValueBytes_eq_commandBytes dataTbl unit_id bank r.bits hb

theorem zeroValue_banked_form_witness :
    ((⟨0, 0x0101⟩ : LORDataPair).value = 0 ∧ (2 : Nat) ≠ 1)
    ∧ slice (zeroRecord (fun v => v) 1 0 true 2 CmdBuf.empty ⟨0, 0x0101⟩).d CmdBuf.empty.idx
        (zeroRecord (fun v => v) 1 0 true 2 CmdBuf.empty ⟨0, 0x0101⟩).idx
      = [0x00, 1, 0x53, 0, 0x00, 0x01, 0x01]
    ∧ ¬ (slice (zeroRecord (fun v => v) 1 0 true 2 CmdBuf.empty ⟨0, 0x0101⟩).d CmdBuf.empty.idx
          (zeroRecord (fun v => v) 1 0 true 2 CmdBuf.empty ⟨0, 0x0101⟩).idx
        = slice (GenerateCommand CmdBuf.empty 1 ((0 : Nat) : Int) true ((fun v => v) 0)
              (lsbOf (⟨0, 0x0101⟩ : LORDataPair).bits)
              (msbOf (⟨0, 0x0101⟩ : LORDataPair).bits)).d CmdBuf.empty.idx
            (GenerateCommand CmdBuf.empty 1 ((0 : Nat) : Int) true ((fun v => v) 0)
              (lsbOf (⟨0, 0x0101⟩ : LORDataPair).bits)
              (msbOf (⟨0, 0x0101⟩ : LORDataPair).bits)).idx) :=
  ⟨⟨rfl, by decide⟩,
    (zeroValue_banked_form (fun v => v) 1 0 2 CmdBuf.empty ⟨0, 0x0101⟩ rfl (by decide)).1.trans
      (by decide),
    fun h => absurd
      ((zeroValue_banked_form (fun v => v) 1 0 2 CmdBuf.empty ⟨0, 0x0101⟩ rfl (by decide)).2.mp h)
      (by decide)⟩

theorem length_le_two_of_onOff (l : List Nat) (hnd : l.Nodup)
    (h : ∀ v ∈ l, v = 0 ∨ v = 0xFF) : l.length ≤ 2 := by
  have hsub : l ⊆ [0, 0xFF] := by
    intro v hv
    rcases h v hv with e | e <;> simp [e]
  exact (List.subperm_of_subset hnd hsub).length_le

/-- The bytes of a bank that is not in color mode and whose values are 0 and 0xFF only,
both present: the full-on command of the 0xFF channels and nothing else. -/
theorem bankBytes_onOff (dataTbl data : Nat → Nat) (unit_id : Int) (b base k : Nat)
    (honoff : ∀ i, i < k → data (base + i) = 0 ∨ data (base + i) = 0xFF)
    (hzero : ∃ i, i < k ∧ data (base + i) = 0)
    (hfull : ∃ j, j < k ∧ data (base + j) = 0xFF) :
    (groupUpTo data base k).length = 2
    ∧ bankBytes dataTbl unit_id b false (groupUpTo data base k)
      = commandBytes unit_id b false (dataTbl 0xFF) (lsbOf (maskOf data base 0xFF k))
          (msbOf (maskOf data base 0xFF k)) := by
  have hnd := nodup_firstOcc (channelValues data base k)
  have hvals : ∀ v ∈ firstOcc (channelValues data base k), v = 0 ∨ v = 0xFF := by
    intro v hv
    obtain ⟨i, hi, hiv⟩ := (mem_channelValues _ _ _ _).mp ((mem_firstOcc _ _).mp hv)
    rw [← hiv]
    exact honoff i hi
  have h0 : (0 : Nat) ∈ firstOcc (channelValues data base k) := by
    obtain ⟨i, hi, hiv⟩ := hzero
    exact (mem_firstOcc _ _).mpr ((mem_channelValues _ _ _ _).mpr ⟨i, hi, hiv⟩)
  have hff : (0xFF : Nat) ∈ firstOcc (channelValues data base k) := by
    obtain ⟨j, hj, hjv⟩ := hfull
    exact (mem_firstOcc _ _).mpr ((mem_channelValues _ _ _ _).mpr ⟨j, hj, hjv⟩)
  have hlen : (firstOcc (channelValues data base k)).length = 2 := by
    have h1 := length_le_two_of_onOff _ hnd hvals
    have h2 := two_le_length_of_ne _ 0 0xFF h0 hff (by decide)
    omega
  rw [groupUpTo_eq]
  refine ⟨by rw [List.length_map]; exact hlen, ?_⟩
  unfold bankBytes
  rw [List.length_map, hlen, List.flatMap_map, List.flatMap_map, List.flatMap_map]
  have hz : (firstOcc (channelValues data base k)).flatMap
      (fun v => zeroBytes dataTbl unit_id b false 2 (⟨v, maskOf data base v k⟩ : LORDataPair))
      = [] := by
    rw [List.flatMap_eq_nil_iff]
    intro v _
    simp [zeroBytes]
  have hv : (firstOcc (channelValues data base k)).flatMap
      (fun v => valueBytes dataTbl unit_id b (⟨v, maskOf data base v k⟩ : LORDataPair))
      = [] := by
    rw [List.flatMap_eq_nil_iff]
    intro v hv
    rcases hvals v hv with e | e <;> simp [valueBytes, e]
  rw [hz, hv, List.nil_append, List.append_nil, flatMap_single _ hnd 0xFF, if_pos hff]
  · simp [fullOnBytes]
  · intro w _ hw
    simp [fullOnBytes, hw]

/-- C21: a bank of a pass that is not in color mode and holds both a channel with value 0
and a channel with value 0xFF has exactly two groups, and the bytes the building loop
emits for it are exactly one full-on command (`GenerateCommand` without value byte)
whose bitmask has bit `i` set iff channel `i` of the bank holds 0xFF; no channel of the
bank that holds 0 is in the bitmask, whatever the history `_lastSent` holds for it. -/
theorem onOff_bank_bytes (dataTbl data : Nat → Nat) (s : EncState) (n : Nat)
    (unit_id : Int) (b : Nat) (buf : CmdBuf) (hb : b < numBanks n)
    (hbyte : ∀ i, i < bankLen n b → data (s.cur_channel + 16 * b + i) < 256)
    (hnc : (groupLoop data n (groupInit s)).color_mode b = false)
    (hzero : ∃ i, i < bankLen n b ∧ data (s.cur_channel + 16 * b + i) = 0)
    (hfull : ∃ j, j < bankLen n b ∧ data (s.cur_channel + 16 * b + j) = 0xFF) :
    ((groupLoop data n (groupInit s)).lorBankData b).length = 2
    ∧ slice (emitBank dataTbl unit_id b ((groupLoop data n (groupInit s)).color_mode b)
          ((groupLoop data n (groupInit s)).lorBankData b) buf).d buf.idx
        (emitBank dataTbl unit_id b ((groupLoop data n (groupInit s)).color_mode b)
          ((groupLoop data n (groupInit s)).lorBankData b) buf).idx
      = (GenerateCommand CmdBuf.empty unit_id b false (dataTbl 0xFF)
          (lsbOf (maskOf data (s.cur_channel + 16 * b) 0xFF (bankLen n b)))
          (msbOf (maskOf data (s.cur_channel + 16 * b) 0xFF (bankLen n b)))).bytes
    ∧ (∀ i, (maskOf data (s.cur_channel + 16 * b) 0xFF (bankLen n b)).testBit i = true
        ↔ (i < bankLen n b ∧ data (s.cur_channel + 16 * b + i) = 0xFF))
    ∧ (∀ i, i < bankLen n b → data (s.cur_channel + 16 * b + i) = 0 →
        (maskOf data (s.cur_channel + 16 * b) 0xFF (bankLen n b)).testBit i = false) := by
  obtain ⟨hrecs, hcolor⟩ := groupLoop_bank data s n b hb
  have honoff : ∀ i, i < bankLen n b →
      data (s.cur_channel + 16 * b + i) = 0 ∨ data (s.cur_channel + 16 * b + i) = 0xFF := by
    intro i hi
    by_contra hne
    have hc : colorIn data (s.cur_channel + 16 * b) (bankLen n b) = true := by
      rw [colorIn_iff]
      have := hbyte i hi
      exact ⟨i, hi, by omega, by omega⟩
    rw [← hcolor, hnc] at hc
    exact Bool.false_ne_true hc
  obtain ⟨hlen, hbytes⟩ := bankBytes_onOff dataTbl data unit_id b (s.cur_channel + 16 * b)
    (bankLen n b) honoff hzero hfull
  refine ⟨by rw [hrecs]; exact hlen, ?_, ?_, ?_⟩
  · rw [emitBank_slice, hnc, hrecs, hbytes, GenerateCommand_empty_bytes]
  · intro i
    rw [maskOf_testBit]
    simp
  · intro i _ h0
    rw [maskOf_testBit, h0]
    simp

theorem onOff_bank_bytes_witness :
    ((0 : Nat) < numBanks 16
      ∧ (∀ i, i < bankLen 16 0 →
          (fun c => if c % 2 = 0 then 0 else 0xFF : Nat → Nat)
            (freshState.cur_channel + 16 * 0 + i) < 256)
      ∧ (groupLoop (fun c => if c % 2 = 0 then 0 else 0xFF) 16 (groupInit freshState)).color_mode
          0 = false
      ∧ (∃ i, i < bankLen 16 0
          ∧ (fun c => if c % 2 = 0 then 0 else 0xFF : Nat → Nat)
              (freshState.cur_channel + 16 * 0 + i) = 0)
      ∧ ∃ j, j < bankLen 16 0
          ∧ (fun c => if c % 2 = 0 then 0 else 0xFF : Nat → Nat)
              (freshState.cur_channel + 16 * 0 + j) = 0xFF)
    ∧ slice (emitBank (fun v => v) 1 0
          ((groupLoop (fun c => if c % 2 = 0 then 0 else 0xFF) 16
            (groupInit freshState)).color_mode 0)
          ((groupLoop (fun c => if c % 2 = 0 then 0 else 0xFF) 16
            (groupInit freshState)).lorBankData 0) CmdBuf.empty).d 0
        (emitBank (fun v => v) 1 0
          ((groupLoop (fun c => if c % 2 = 0 then 0 else 0xFF) 16
            (groupInit freshState)).color_mode 0)
          ((groupLoop (fun c => if c % 2 = 0 then 0 else 0xFF) 16
            (groupInit freshState)).lorBankData 0) CmdBuf.empty).idx
      = [0, 1, 0x11, 0xAA, 0xAA] :=
  have hbyte : ∀ i, i < bankLen 16 0 →
      (fun c => if c % 2 = 0 then 0 else 0xFF : Nat → Nat)
        (freshState.cur_channel + 16 * 0 + i) < 256 := by
    intro i _
    simp only
    split_ifs <;> decide
  have hnc : (groupLoop (fun c => if c % 2 = 0 then 0 else 0xFF) 16
      (groupInit freshState)).color_mode 0 = false := by decide
  have hzero : ∃ i, i < bankLen 16 0
      ∧ (fun c => if c % 2 = 0 then 0 else 0xFF : Nat → Nat)
          (freshState.cur_channel + 16 * 0 + i) = 0 := ⟨0, by decide, by decide⟩
  have hfull : ∃ j, j < bankLen 16 0
      ∧ (fun c => if c % 2 = 0 then 0 else 0xFF : Nat → Nat)
          (freshState.cur_channel + 16 * 0 + j) = 0xFF := ⟨1, by decide, by decide⟩
  ⟨⟨by decide, hbyte, hnc, hzero, hfull⟩,
    (onOff_bank_bytes (fun v => v) (fun c => if c % 2 = 0 then 0 else 0xFF) freshState 16 1 0
      CmdBuf.empty (by decide) hbyte hnc hzero hfull).2.1.trans (by decide)⟩

/-! ## Claim about the history after AllOff -/

theorem allOffPassLoop_terminates (serial : Bool) (channels_per_pass : Int)
    (hpos : 0 < channels_per_pass) :
    ∀ (fuel : Nat) (remaining unit_id : Int) (st : AllOffState), remaining ≤ fuel →
      ∃ t, allOffPassLoop serial channels_per_pass fuel remaining unit_id st = some t := by
  intro fuel
  induction fuel with
  | zero =>
    intro remaining unit_id st h
    unfold allOffPassLoop
    have : ¬ remaining > 0 := by simp at h; omega
    rw [if_neg this]
    exact ⟨st, rfl⟩
  | succ fuel ih =>
    intro remaining unit_id st h
    unfold allOffPassLoop
    by_cases hr : remaining > 0
    · rw [if_pos hr]
      exact ih _ _ _ (by push_cast at h; omega)
    · rw [if_neg hr]
      exact ⟨st, rfl⟩

theorem allOffPassLoop_done (serial : Bool) (channels_per_pass : Int) (fuel : Nat)
    (remaining unit_id : Int) (st : AllOffState) (h : ¬ remaining > 0) :
    allOffPassLoop serial channels_per_pass fuel remaining unit_id st = some st := by
  unfold allOffPassLoop
  rw [if_neg h]

theorem allOffControllerLoop_terminates (serial : Bool) (fuel : Nat) :
    ∀ (controllers : List LorController) (st : AllOffState),
      (∀ it ∈ controllers, plannedTotal it > 0 → plannedPerPass it > 0) →
      (∀ it ∈ controllers, plannedTotal it ≤ fuel) →
      ∃ t, allOffControllerLoop serial fuel controllers st = some t := by
  intro controllers
  induction controllers with
  | nil => intro st _ _; exact ⟨st, rfl⟩
  | cons it rest ih =>
    intro st hwf hfuel
    simp only [allOffControllerLoop]
    obtain ⟨e1, e2, _⟩ := CalcChannels_plan it.num_channels it st.unit_id_in_use (fun _ => false)
    have hw := hwf it (List.mem_cons_self _ _)
    have hf := hfuel it (List.mem_cons_self _ _)
    unfold plannedTotal at hw hf
    unfold plannedPerPass at hw
    rw [← e1, ← e2] at hw
    rw [← e2] at hf
    have hpass : ∃ t, allOffPassLoop serial
        (CalcChannels it.num_channels it st.unit_id_in_use).channels_per_pass fuel
        (CalcChannels it.num_channels it st.unit_id_in_use).controller_channels_to_process
        it.unit_id
        { st with
          unit_id_in_use := (CalcChannels it.num_channels it st.unit_id_in_use).unit_id_in_use }
          = some t := by
      by_cases hr :
          (CalcChannels it.num_channels it st.unit_id_in_use).controller_channels_to_process > 0
      · exact allOffPassLoop_terminates _ _ (hw hr) _ _ _ _ hf
      · exact ⟨_, allOffPassLoop_done _ _ _ _ _ _ hr⟩
    obtain ⟨t, ht⟩ := hpass
    rw [ht]
    exact ih t (fun it2 h2 => hwf it2 (List.mem_cons_of_mem _ h2))
      (fun it2 h2 => hfuel it2 (List.mem_cons_of_mem _ h2))

/-- What `AllOff` leaves of the output: everything but the occupancy map and the
buffers written. -/
theorem AllOff_fields (fuel : Nat) (o o2 : Output) (h : AllOff fuel o = some o2) :
    o2._enabled = o._enabled ∧ o2.has_serial = o.has_serial ∧ o2._ok = o._ok
    ∧ o2.tx_empty = o.tx_empty ∧ o2.controllers = o.controllers
    ∧ o2._lastSent = o._lastSent ∧ o2.banks_changed = o.banks_changed := by
  unfold AllOff at h
  split at h
  · simp at h
  · simp only [Option.some.injEq] at h
    subst h
    exact ⟨rfl, rfl, rfl, rfl, rfl, rfl, rfl⟩

/-- The final cursor of the pass loop depends on the starting cursor and on the channel
counts only. -/
theorem passLoop_cursor (d1 d2 data1 data2 : Nat → Nat) (ser1 ser2 : Bool)
    (channels_per_pass : Int) :
    ∀ (fuel1 fuel2 : Nat) (remaining u1 u2 : Int) (s1 s2 t1 t2 : EncState),
      passLoop d1 data1 ser1 channels_per_pass fuel1 remaining u1 s1 = some t1 →
      passLoop d2 data2 ser2 channels_per_pass fuel2 remaining u2 s2 = some t2 →
      s1.cur_channel = s2.cur_channel → t1.cur_channel = t2.cur_channel := by
  intro fuel1
  induction fuel1 with
  | zero =>
    intro fuel2 remaining u1 u2 s1 s2 t1 t2 h1 h2 hc
    unfold passLoop at h1
    by_cases hr : remaining > 0
    · rw [if_pos hr] at h1
      simp at h1
    · rw [passLoop_done _ _ _ _ _ _ _ _ hr] at h2
      rw [if_neg hr] at h1
      simp only [Option.some.injEq] at h1 h2
      rw [← h1, ← h2]
      exact hc
  | succ fuel1 ih =>
    intro fuel2 remaining u1 u2 s1 s2 t1 t2 h1 h2 hc
    by_cases hr : remaining > 0
    · unfold passLoop at h1 h2
      rw [if_pos hr] at h1 h2
      cases fuel2 with
      | zero => simp at h2
      | succ fuel2 =>
        simp only at h2
        exact ih fuel2 _ _ _ _ _ _ _ h1 h2
          (by rw [onePass_cur_channel, onePass_cur_channel, hc])
    · rw [passLoop_done _ _ _ _ _ _ _ _ hr] at h1 h2
      simp only [Option.some.injEq] at h1 h2
      rw [← h1, ← h2]
      exact hc

theorem controllerLoop_cursor (d1 d2 data1 data2 : Nat → Nat) (ser1 ser2 : Bool)
    (fuel1 fuel2 : Nat) :
    ∀ (controllers : List LorController) (s1 s2 t1 t2 : EncState),
      controllerLoop d1 data1 ser1 fuel1 controllers s1 = some t1 →
      controllerLoop d2 data2 ser2 fuel2 controllers s2 = some t2 →
      s1.cur_channel = s2.cur_channel → t1.cur_channel = t2.cur_channel := by
  intro controllers
  induction controllers with
  | nil =>
    intro s1 s2 t1 t2 h1 h2 hc
    simp only [controllerLoop, Option.some.injEq] at h1 h2
    rw [← h1, ← h2]
    exact hc
  | cons it rest ih =>
    intro s1 s2 t1 t2 h1 h2 hc
    simp only [controllerLoop] at h1 h2
    obtain ⟨e1, e2, _⟩ := CalcChannels_plan it.num_channels it s1.unit_id_in_use
      s2.unit_id_in_use
    split at h1
    · simp at h1
    · rename_i m1 hm1
      split at h2
      · simp at h2
      · rename_i m2 hm2
        rw [e1, e2] at hm1
        exact ih m1 m2 t1 t2 h1 h2
          (passLoop_cursor _ _ _ _ _ _ _ _ _ _ _ _ _ _ _ _ hm1 hm2 hc)

/-- The two ways `SetManyChannels` returns: at a guard, with the output as it was, or
past the guards with the final loop state stored. -/
theorem SetManyChannels_cases (dataTbl data : Nat → Nat) (fuel : Nat) (o o2 : Output)
    (channel : Nat) (h : SetManyChannels dataTbl fuel o channel data = some o2) :
    ((o._enabled = false ∨ o.has_serial = false ∨ o._ok = false ∨ o.tx_empty = false) ∧ o2 = o)
    ∨ ((o._enabled = true ∧ o.has_serial = true ∧ o._ok = true ∧ o.tx_empty = true)
      ∧ ∃ s, encodeFrame dataTbl fuel o channel data = some s
        ∧ o2 = { o with
            _lastSent := s._lastSent
            banks_changed := s.banks_changed
            unit_id_in_use := s.unit_id_in_use
            written := s.written }) := by
  by_cases hg : o._enabled = true ∧ o.has_serial = true ∧ o._ok = true ∧ o.tx_empty = true
  · right
    obtain ⟨h1, h2, h3, h4⟩ := hg
    refine ⟨⟨h1, h2, h3, h4⟩, ?_⟩
    cases he : encodeFrame dataTbl fuel o channel data with
    | none =>
      unfold SetManyChannels at h
      simp [h1, h2, h3, h4, he] at h
    | some s =>
      rw [SetManyChannels_of_encodeFrame dataTbl data o channel fuel s h1 h2 h3 h4 he] at h
      simp only [Option.some.injEq] at h
      exact ⟨s, rfl, h.symm⟩
  · left
    have hg2 : o._enabled = false ∨ o.has_serial = false ∨ o._ok = false ∨ o.tx_empty = false := by
      cases h1 : o._enabled <;> cases h2 : o.has_serial <;> cases h3 : o._ok <;>
        cases h4 : o.tx_empty <;> simp_all
    refine ⟨hg2, ?_⟩
    have hs : SetManyChannels dataTbl fuel o channel data = some o := by
      unfold SetManyChannels
      rcases hg2 with h1 | h1 | h1 | h1 <;> simp [h1]
    rw [hs] at h
    simp only [Option.some.injEq] at h
    exact h.symm

/-- C23: `AllOff` leaves the history untouched: whenever it returns, `_lastSent` and
`banks_changed` are what they were before the call, and it returns whenever every
controller with channels to process has a positive number of channels per pass. Hence,
when `AllOff` follows a `SetManyChannels` call, a further `SetManyChannels` call with the
same frame and the same start channel hands nothing to the transport, although `AllOff`
has sent the all-off commands in between; that further call returns under the same
condition on the controllers. -/
theorem AllOff_history (fuel : Nat) (o : Output) :
    (∀ o2, AllOff fuel o = some o2 →
        o2._lastSent = o._lastSent ∧ o2.banks_changed = o.banks_changed)
    ∧ ((∀ it ∈ o.controllers, plannedTotal it > 0 → plannedPerPass it > 0) →
        (∀ it ∈ o.controllers, plannedTotal it ≤ (fuel : Int)) →
        ∃ o2, AllOff fuel o = some o2)
    ∧ (∀ (dataTbl data : Nat → Nat) (channel f1 f3 : Nat) (o0 o2 : Output),
        SetManyChannels dataTbl f1 o0 channel data = some o →
        AllOff fuel o = some o2 →
        (∀ o3, SetManyChannels dataTbl f3 o2 channel data = some o3 →
          o3.written = o2.written)
        ∧ ((∀ it ∈ o.controllers, plannedTotal it > 0 → plannedPerPass it > 0) →
          (∀ it ∈ o.controllers, plannedTotal it ≤ (f3 : Int)) →
          ∃ o3, SetManyChannels dataTbl f3 o2 channel data = some o3
            ∧ o3.written = o2.written)) := by
  have hquiet : ∀ (dataTbl data : Nat → Nat) (channel f1 f3 : Nat) (o0 o2 o3 : Output),
      SetManyChannels dataTbl f1 o0 channel data = some o →
      AllOff fuel o = some o2 →
      SetManyChannels dataTbl f3 o2 channel data = some o3 →
      o3.written = o2.written := by
    intro dataTbl data channel f1 f3 o0 o2 o3 h1 h2 h3
    obtain ⟨g1, g2, g3, g4, gc, gl, _⟩ := AllOff_fields fuel o o2 h2
    rcases SetManyChannels_cases _ _ _ _ _ _ h3 with ⟨_, e⟩ | ⟨⟨a1, a2, a3, a4⟩, s3, hs3, e⟩
    · rw [e]
    · rcases SetManyChannels_cases _ _ _ _ _ _ h1 with ⟨hg, e0⟩ | ⟨_, s1, hs1, e1⟩
      · exfalso
        rw [g1] at a1
        rw [g2] at a2
        rw [g3] at a3
        rw [g4] at a4
        rw [e0] at a1 a2 a3 a4
        rcases hg with h | h | h | h
        · rw [h] at a1; exact Bool.false_ne_true a1
        · rw [h] at a2; exact Bool.false_ne_true a2
        · rw [h] at a3; exact Bool.false_ne_true a3
        · rw [h] at a4; exact Bool.false_ne_true a4
      · have hc0 : o.controllers = o0.controllers := by rw [e1]
        have hl0 : o._lastSent = s1._lastSent := by rw [e1]
        have hcur : s3.cur_channel = s1.cur_channel := by
          have k3 := hs3
          have k1 := hs1
          unfold encodeFrame at k3 k1
          rw [gc, hc0] at k3
          exact controllerLoop_cursor _ _ _ _ _ _ _ _ _ _ _ _ _ k3 k1 rfl
        have hq := (encodeFrame_extends dataTbl data o2 channel f3 s3 hs3).2.2
        rw [e]
        apply hq
        intro c hc1 hc2
        rw [gl, hl0, (encodeFrame_extends dataTbl data o0 channel f1 s1 hs1).2.1 c,
          if_pos ⟨hc1, by omega⟩]
  refine ⟨?_, ?_, ?_⟩
  · intro o2 h
    obtain ⟨_, _, _, _, _, gl, gb⟩ := AllOff_fields fuel o o2 h
    exact ⟨gl, gb⟩
  · intro hwf hfuel
    obtain ⟨t, ht⟩ := allOffControllerLoop_terminates o.has_serial fuel o.controllers
      { bank := 0, unit_id_in_use := o.unit_id_in_use, written := o.written } hwf hfuel
    unfold AllOff
    rw [ht]
    exact ⟨_, rfl⟩
  · intro dataTbl data channel f1 f3 o0 o2 h1 h2
    refine ⟨fun o3 h3 => hquiet dataTbl data channel f1 f3 o0 o2 o3 h1 h2 h3, ?_⟩
    intro hwf hfuel
    obtain ⟨g1, g2, g3, g4, gc, _, _⟩ := AllOff_fields fuel o o2 h2
    have hret : ∃ o3, SetManyChannels dataTbl f3 o2 channel data = some o3 := by
      by_cases hg : o2._enabled = true ∧ o2.has_serial = true ∧ o2._ok = true
          ∧ o2.tx_empty = true
      · obtain ⟨a1, a2, a3, a4⟩ := hg
        obtain ⟨s, hs⟩ := encodeFrame_terminates dataTbl data o2 channel f3
          (by rw [gc]; exact hwf) (by rw [gc]; exact hfuel)
        exact ⟨_, SetManyChannels_of_encodeFrame dataTbl data o2 channel f3 s a1 a2 a3 a4 hs⟩
      · refine ⟨o2, ?_⟩
        unfold SetManyChannels
        cases h1 : o2._enabled <;> cases h2 : o2.has_serial <;> cases h3 : o2._ok <;>
          cases h4 : o2.tx_empty <;> simp_all
    obtain ⟨o3, h3⟩ := hret
    exact ⟨o3, h3, hquiet dataTbl data channel f1 f3 o0 o2 o3 h1 h2 h3⟩

theorem AllOff_history_witness :
    ∃ o1 o2 o3,
      SetManyChannels (fun v => v) 16
          (freshOutput [acController 16 AddressMode.LOR_ADDR_MODE_NORMAL]) 0 mixedFrame = some o1
      ∧ AllOff 16 o1 = some o2
      ∧ SetManyChannels (fun v => v) 16 o2 0 mixedFrame = some o3
      ∧ o2._lastSent = o1._lastSent ∧ o2.banks_changed = o1.banks_changed
      ∧ o3.written = o2.written := by
  obtain ⟨s1, hs1⟩ := encodeFrame_terminates (fun v => v) mixedFrame
    (freshOutput [acController 16 AddressMode.LOR_ADDR_MODE_NORMAL]) 0 16
    (fun it hit => (acController_planned 16 it hit).1)
    (fun it hit => by rw [(acController_planned 16 it hit).2]; exact le_refl _)
  have h1 := SetManyChannels_of_encodeFrame (fun v => v) mixedFrame
    (freshOutput [acController 16 AddressMode.LOR_ADDR_MODE_NORMAL]) 0 16 s1 rfl rfl rfl rfl hs1
  have hT := AllOff_history 16
    { freshOutput [acController 16 AddressMode.LOR_ADDR_MODE_NORMAL] with
      _lastSent := s1._lastSent
      banks_changed := s1.banks_changed
      unit_id_in_use := s1.unit_id_in_use
      written := s1.written }
  obtain ⟨o2, h2⟩ := hT.2.1 (fun it hit => (acController_planned 16 it hit).1)
    (fun it hit => by rw [(acController_planned 16 it hit).2]; exact le_refl _)
  obtain ⟨o3, h3, hw⟩ := (hT.2.2 (fun v => v) mixedFrame 0 16 16 _ o2 h1 h2).2
    (fun it hit => (acController_planned 16 it hit).1)
    (fun it hit => by rw [(acController_planned 16 it hit).2]; exact le_refl _)
  exact ⟨_, o2, o3, h1, h2, h3, (hT.1 o2 h2).1, (hT.1 o2 h2).2, hw⟩

/-! ## Claim about the size of the per-pass buffer -/

theorem addToBank_length_le (recs : List LORDataPair) (v k : Nat) :
    (addToBank recs v k).length ≤ recs.length + 1 := by
  induction recs with
  | nil => simp [addToBank]
  | cons r rest ih =>
    rw [addToBank]
    split_ifs
    · simp
    · simp only [List.length_cons]
      omega

theorem groupUpTo_length_le (data : Nat → Nat) (base k : Nat) :
    (groupUpTo data base k).length ≤ k := by
  induction k with
  | zero => simp [groupUpTo]
  | succ k ih =>
    rw [groupUpTo]
    have := addToBank_length_le (groupUpTo data base k) (data (base + k)) k
    omega

/-- The records of any bank after the gathering loop of a pass are those of at most 16
channels. -/
theorem lorBankData_cases (data : Nat → Nat) (s : EncState) (n b : Nat) :
    ∃ base k, k ≤ 16
      ∧ (groupLoop data n (groupInit s)).lorBankData b = groupUpTo data base k := by
  rcases Nat.lt_or_ge b (numBanks n) with hb | hb
  · exact ⟨s.cur_channel + 16 * b, bankLen n b, by unfold bankLen; omega,
      (groupLoop_bank data s n b hb).1⟩
  · exact ⟨0, 0, by omega, groupLoop_recs_empty data s n b hb⟩

theorem bits_lt_of_testBit (bits k : Nat) (h : ∀ i, bits.testBit i = true → i < k) :
    bits < 2 ^ k := by
  apply Nat.lt_pow_two_of_testBit
  intro i hi
  cases hb : bits.testBit i
  · rfl
  · have := h i hb
    omega

/-- C24: for every frame, after the gathering loop of a pass every bank has at most 16
records with nonzero, pairwise disjoint 16-bit bitmasks; each record loop adds at most 5
bytes plus the nonzero bitmask bytes of the record to the buffer; the commands of a bank
add at most 96 bytes; so the buffer of a pass of `B` banks holds at most `96 * B + 2`
bytes, terminator included, and so does the buffer the pass hands to the transport; and
a pass with `channels_per_pass` at most 1360 has at most 85 banks and stays within 8192
bytes. -/
theorem pass_size_bound (dataTbl data : Nat → Nat) (serial : Bool)
    (unit_id channels_per_pass : Int) (s : EncState) :
    (∀ b, ((groupLoop data channels_per_pass.toNat (groupInit s)).lorBankData b).length ≤ 16
      ∧ (∀ r ∈ (groupLoop data channels_per_pass.toNat (groupInit s)).lorBankData b,
          r.bits ≠ 0 ∧ r.bits < 2 ^ 16)
      ∧ (∀ r1 ∈ (groupLoop data channels_per_pass.toNat (groupInit s)).lorBankData b,
          ∀ r2 ∈ (groupLoop data channels_per_pass.toNat (groupInit s)).lorBankData b,
          r1 ≠ r2 → r1.bits &&& r2.bits = 0)
      ∧ ∀ buf, (emitBank dataTbl unit_id b
            ((groupLoop data channels_per_pass.toNat (groupInit s)).color_mode b)
            ((groupLoop data channels_per_pass.toNat (groupInit s)).lorBankData b) buf).idx
          ≤ buf.idx + 96)
    ∧ (∀ (bank : Nat) (color : Bool) (n : Nat) (buf : CmdBuf) (r : LORDataPair),
        (zeroRecord dataTbl unit_id bank color n buf r).idx ≤ buf.idx + 5 + maskBytes r.bits
        ∧ (fullOnRecord dataTbl unit_id bank buf r).idx ≤ buf.idx + 5 + maskBytes r.bits
        ∧ (valueRecord dataTbl unit_id bank buf r).idx ≤ buf.idx + 5 + maskBytes r.bits)
    ∧ (buildLoop dataTbl unit_id (groupLoop data channels_per_pass.toNat (groupInit s))
        (Int.tdiv channels_per_pass 16 + 1).toNat CmdBuf.empty).idx + 2
        ≤ 96 * numBanks channels_per_pass.toNat + 2
    ∧ (∀ buf, (onePass dataTbl data serial unit_id channels_per_pass s).written
          = s.written ++ [buf] →
        buf.length ≤ 96 * numBanks channels_per_pass.toNat + 2)
    ∧ (channels_per_pass ≤ 1360 →
        numBanks channels_per_pass.toNat ≤ 85
        ∧ (buildLoop dataTbl unit_id (groupLoop data channels_per_pass.toNat (groupInit s))
            (Int.tdiv channels_per_pass 16 + 1).toNat CmdBuf.empty).idx + 2 ≤ 8192) := by
  have hlen := passBytes_length_le dataTbl data s._lastSent unit_id s.cur_channel
    channels_per_pass.toNat
  have hbuild : (buildLoop dataTbl unit_id (groupLoop data channels_per_pass.toNat (groupInit s))
      (Int.tdiv channels_per_pass 16 + 1).toNat CmdBuf.empty).idx + 2
      ≤ 96 * numBanks channels_per_pass.toNat + 2 := by
    rw [buildLoop_eq_pushAll, CmdBuf.pushAll_idx,
      buildBytes_pass dataTbl data unit_id s _ _ (numBanks_le_size channels_per_pass)]
    show 0 + _ + 2 ≤ _
    omega
  refine ⟨?_, ?_, hbuild, ?_, ?_⟩
  · intro b
    obtain ⟨base, k, hk, hrecs⟩ := lorBankData_cases data s channels_per_pass.toNat b
    obtain ⟨_, g2, g3, g4, _⟩ := groupUpTo_bits data base k
    rw [hrecs]
    refine ⟨?_, ?_, g4, ?_⟩
    · have := groupUpTo_length_le data base k
      omega
    · intro r hr
      refine ⟨g3 r hr, ?_⟩
      apply bits_lt_of_testBit
      intro i hi
      have := ((g2 r hr i).mp hi).1
      omega
    · intro buf
      rw [emitBank_eq_pushAll, CmdBuf.pushAll_idx]
      have h1 := bankBytes_length_le dataTbl unit_id b
        ((groupLoop data channels_per_pass.toNat (groupInit s)).color_mode b)
        (groupUpTo data base k)
      have h2 := groupUpTo_weight_le data base k hk
      omega
  · intro bank color n buf r
    have h := record_bytes_le dataTbl unit_id bank color n r
    unfold recordWeight at h
    rw [zeroRecord_eq_pushAll, fullOnRecord_eq_pushAll, valueRecord_eq_pushAll,
      CmdBuf.pushAll_idx, CmdBuf.pushAll_idx, CmdBuf.pushAll_idx]
    refine ⟨?_, ?_, ?_⟩ <;> omega
  · intro buf hbuf
    rw [onePass_written] at hbuf
    split_ifs at hbuf
    · have e := List.append_cancel_left hbuf
      simp only [List.cons.injEq, and_true] at e
      rw [← e, List.length_append]
      simp only [List.length_cons, List.length_nil]
      omega
    · have hl := congrArg List.length hbuf
      simp at hl
  · intro hcpp
    have hnb : numBanks channels_per_pass.toNat ≤ 85 := by unfold numBanks; omega
    exact ⟨hnb, by omega⟩

theorem pass_size_bound_witness :
    ((17 : Int) ≤ 1360)
    ∧ (emitBank (fun v => v) 1 0
          ((groupLoop mixedFrame (17 : Int).toNat (groupInit freshState)).color_mode 0)
          ((groupLoop mixedFrame (17 : Int).toNat (groupInit freshState)).lorBankData 0)
          CmdBuf.empty).idx ≤ CmdBuf.empty.idx + 96
    ∧ (buildLoop (fun v => v) 1 (groupLoop mixedFrame (17 : Int).toNat (groupInit freshState))
        (Int.tdiv 17 16 + 1).toNat CmdBuf.empty).idx + 2 ≤ 96 * numBanks (17 : Int).toNat + 2
    ∧ numBanks (17 : Int).toNat ≤ 85
    ∧ (buildLoop (fun v => v) 1 (groupLoop mixedFrame (17 : Int).toNat (groupInit freshState))
        (Int.tdiv 17 16 + 1).toNat CmdBuf.empty).idx + 2 ≤ 8192 :=
  ⟨by decide,
    ((pass_size_bound (fun v => v) mixedFrame true 1 17 freshState).1 0).2.2.2 CmdBuf.empty,
    (pass_size_bound (fun v => v) mixedFrame true 1 17 freshState).2.2.1,
    ((pass_size_bound (fun v => v) mixedFrame true 1 17 freshState).2.2.2.2 (by decide)).1,
    ((pass_size_bound (fun v => v) mixedFrame true 1 17 freshState).2.2.2.2 (by decide)).2⟩

/-! ## The writes of a call -/

theorem changedIn_congr (data l1 l2 : Nat → Nat) (base k : Nat)
    (h : ∀ i, i < k → l1 (base + i) = l2 (base + i)) :
    changedIn data l1 base k = changedIn data l2 base k := by
  rw [Bool.eq_iff_iff, changedIn_iff, changedIn_iff]
  constructor
  · rintro ⟨i, hi, hne⟩
    exact ⟨i, hi, by rw [← h i hi]; exact hne⟩
  · rintro ⟨i, hi, hne⟩
    exact ⟨i, hi, by rw [h i hi]; exact hne⟩

theorem passBytes_congr (dataTbl data l1 l2 : Nat → Nat) (unit_id : Int) (start n : Nat)
    (h : ∀ c, start ≤ c → l1 c = l2 c) :
    passBytes dataTbl data l1 unit_id start n = passBytes dataTbl data l2 unit_id start n := by
  unfold passBytes
  apply List.flatMap_congr
  intro b _
  rw [changedIn_congr data l1 l2 _ _ (fun i _ => h _ (by omega))]

theorem passWrite_congr (dataTbl data l1 l2 : Nat → Nat) (unit_id : Int) (start n : Nat)
    (h : ∀ c, start ≤ c → l1 c = l2 c) :
    passWrite dataTbl data l1 unit_id start n = passWrite dataTbl data l2 unit_id start n := by
  unfold passWrite
  rw [changedIn_congr data l1 l2 _ _ (fun i _ => h _ (by omega)),
    passBytes_congr dataTbl data l1 l2 unit_id start n h]

/-- With the transport present, a pass appends to the transport log exactly what the
rule of `passWrite` says. -/
theorem onePass_written_passWrite (dataTbl data : Nat → Nat) (unit_id channels_per_pass : Int)
    (s : EncState) :
    (onePass dataTbl data true unit_id channels_per_pass s).written
      = s.written
        ++ passWrite dataTbl data s._lastSent unit_id s.cur_channel channels_per_pass.toNat := by
  rw [onePass_written]
  unfold passWrite
  simp only [Bool.true_and]
  split_ifs
  · rfl
  · simp

theorem passCount_of_nonpos (total per_pass : Int) (h : ¬ total > 0) :
    passCount total per_pass = 0 := by
  unfold passCount
  rw [if_neg (fun hh => h hh.1)]

theorem passCount_succ (total per_pass : Int) (ht : 0 < total) (hp : 0 < per_pass) :
    passCount total per_pass = passCount (total - per_pass) per_pass + 1 := by
  unfold passCount
  rw [if_pos ⟨ht, hp⟩]
  by_cases h : 0 < total - per_pass
  · rw [if_pos ⟨h, hp⟩]
    have e : (total - 1) / per_pass = (total - per_pass - 1) / per_pass + 1 := by
      have := Int.add_mul_ediv_right (total - per_pass - 1) 1 (ne_of_gt hp)
      rw [← this]
      congr 1
      ring
    have hn : 0 ≤ (total - per_pass - 1) / per_pass :=
      Int.ediv_nonneg (by omega) (le_of_lt hp)
    rw [e]
    omega
  · rw [if_neg (fun hh => h hh.1)]
    have e : (total - 1) / per_pass = 0 := Int.ediv_eq_zero_of_lt (by omega) (by omega)
    rw [e]
    rfl

/-- The pass loop, when it returns: the transport log grows by the writes of its
passes, the cursor advances by their channels, the history beyond the cursor is
untouched, and the loop has run with a positive number of channels per pass. -/
theorem passLoop_written (dataTbl data last0 : Nat → Nat) (channels_per_pass : Int) :
    ∀ (fuel : Nat) (remaining unit_id : Int) (s t : EncState),
      passLoop dataTbl data true channels_per_pass fuel remaining unit_id s = some t →
      (∀ c, s.cur_channel ≤ c → s._lastSent c = last0 c) →
      t.written = s.written ++ (List.range (passCount remaining channels_per_pass)).flatMap
          (fun (j : Nat) =>
            passWrite dataTbl data last0 (unit_id + (j : Int))
              (s.cur_channel + j * channels_per_pass.toNat) channels_per_pass.toNat)
      ∧ t.cur_channel
          = s.cur_channel + passCount remaining channels_per_pass * channels_per_pass.toNat
      ∧ (∀ c, t.cur_channel ≤ c → t._lastSent c = last0 c)
      ∧ (remaining > 0 → 0 < channels_per_pass) := by
  intro fuel
  induction fuel with
  | zero =>
    intro remaining unit_id s t h hl
    unfold passLoop at h
    by_cases hr : remaining > 0
    · rw [if_pos hr] at h
      simp at h
    · rw [if_neg hr] at h
      simp only [Option.some.injEq] at h
      subst h
      rw [passCount_of_nonpos _ _ hr]
      exact ⟨by simp, by simp, hl, fun h => absurd h hr⟩
  | succ fuel ih =>
    intro remaining unit_id s t h hl
    unfold passLoop at h
    by_cases hr : remaining > 0
    · rw [if_pos hr] at h
      simp only at h
      have hl2 : ∀ c, (onePass dataTbl data true unit_id channels_per_pass s).cur_channel ≤ c →
          (onePass dataTbl data true unit_id channels_per_pass s)._lastSent c = last0 c := by
        intro c hc
        rw [onePass_cur_channel] at hc
        rw [onePass_lastSent, if_neg (by omega)]
        exact hl c (by omega)
      obtain ⟨hw, hc, hlast, hpos⟩ := ih _ _ _ _ h hl2
      have hp : 0 < channels_per_pass := by
        by_contra hnp
        have := hpos (by omega)
        exact hnp this
      rw [onePass_cur_channel] at hw hc
      refine ⟨?_, ?_, hlast, fun _ => hp⟩
      · rw [hw, onePass_written_passWrite,
          passWrite_congr dataTbl data s._lastSent last0 unit_id s.cur_channel _ hl,
          passCount_succ remaining channels_per_pass hr hp, List.range_succ_eq_map,
          List.flatMap_cons, List.flatMap_map, List.append_assoc]
        congr 2
        · simp
        · apply List.flatMap_congr
          intro j _
          have e1 : unit_id + 1 + (j : Int) = unit_id + ((Nat.succ j : Nat) : Int) := by
            push_cast
            ring
          have e2 : s.cur_channel + channels_per_pass.toNat + j * channels_per_pass.toNat
              = s.cur_channel + Nat.succ j * channels_per_pass.toNat := by
            rw [Nat.succ_mul]
            omega
          rw [e1, e2]
      · rw [hc, passCount_succ remaining channels_per_pass hr hp, Nat.add_mul]
        omega
    · rw [if_neg hr] at h
      simp only [Option.some.injEq] at h
      subst h
      rw [passCount_of_nonpos _ _ hr]
      exact ⟨by simp, by simp, hl, fun h => absurd h hr⟩

/-- The controller loop, when it returns: the transport log grows by the writes of the
passes of its controllers. -/
theorem controllerLoop_written (dataTbl data last0 : Nat → Nat) (fuel : Nat) :
    ∀ (controllers : List LorController) (s t : EncState),
      controllerLoop dataTbl data true fuel controllers s = some t →
      (∀ c, s.cur_channel ≤ c → s._lastSent c = last0 c) →
      t.written = s.written ++ callWrites dataTbl data last0 controllers s.cur_channel := by
  intro controllers
  induction controllers with
  | nil =>
    intro s t h _
    simp only [controllerLoop, Option.some.injEq] at h
    subst h
    simp [callWrites]
  | cons it rest ih =>
    intro s t h hl
    simp only [controllerLoop] at h
    obtain ⟨e1, e2, _⟩ := CalcChannels_plan it.num_channels it s.unit_id_in_use (fun _ => false)
    split at h
    · simp at h
    · rename_i s2 hs2
      rw [e1, e2] at hs2
      obtain ⟨hw, hc, hlast, _⟩ := passLoop_written dataTbl data last0 _ _ _ _ _ _ hs2 hl
      have h2 := ih s2 t h hlast
      rw [h2, hw, hc, callWrites, List.append_assoc]
      rfl

/-- C1: past the guards, every pass hands the transport exactly one buffer when a
channel of the pass differs from its last sent value and none otherwise, and the
transport log of a call that returns is the log before the call followed by exactly
these buffers, pass after pass and controller after controller (`callWrites`); a call
in which no consumed channel (from `channel` up to the final cursor) differs from the
history writes nothing; and the call returns, with that log, whenever every controller
with channels to process has a positive number of channels per pass. -/
theorem SetManyChannels_writes (dataTbl data : Nat → Nat) (o : Output) (channel : Nat)
    (hen : o._enabled = true) (hser : o.has_serial = true) (hok : o._ok = true)
    (htx : o.tx_empty = true) :
    (∀ (s : EncState) (unit_id channels_per_pass : Int),
        ((∃ i, i < channels_per_pass.toNat
            ∧ data (s.cur_channel + i) ≠ s._lastSent (s.cur_channel + i)) →
          ∃ buf, (onePass dataTbl data o.has_serial unit_id channels_per_pass s).written
            = s.written ++ [buf])
        ∧ ((∀ i, i < channels_per_pass.toNat
              → data (s.cur_channel + i) = s._lastSent (s.cur_channel + i)) →
          (onePass dataTbl data o.has_serial unit_id channels_per_pass s).written = s.written))
    ∧ (∀ fuel s, encodeFrame dataTbl fuel o channel data = some s →
        ∃ o2, SetManyChannels dataTbl fuel o channel data = some o2
          ∧ o2.written
            = o.written ++ callWrites dataTbl data o._lastSent o.controllers channel)
    ∧ (∀ (lastSent : Nat → Nat) (unit_id : Int) (start n : Nat),
        ((∃ i, i < n ∧ data (start + i) ≠ lastSent (start + i)) →
          passWrite dataTbl data lastSent unit_id start n
            = [passBytes dataTbl data lastSent unit_id start n ++ [0, 0]])
        ∧ ((∀ i, i < n → data (start + i) = lastSent (start + i)) →
          passWrite dataTbl data lastSent unit_id start n = []))
    ∧ (∀ fuel s, encodeFrame dataTbl fuel o channel data = some s →
        (∀ c, channel ≤ c → c < s.cur_channel → data c = o._lastSent c) →
        ∃ o2, SetManyChannels dataTbl fuel o channel data = some o2 ∧ o2.written = o.written)
    ∧ (∀ fuel : Nat, (∀ it ∈ o.controllers, plannedTotal it > 0 → plannedPerPass it > 0) →
        (∀ it ∈ o.controllers, plannedTotal it ≤ (fuel : Int)) →
        ∃ s o2, encodeFrame dataTbl fuel o channel data = some s
          ∧ SetManyChannels dataTbl fuel o channel data = some o2
          ∧ o2.written
            = o.written ++ callWrites dataTbl data o._lastSent o.controllers channel) := by
  have hcall : ∀ fuel s, encodeFrame dataTbl fuel o channel data = some s →
      ∃ o2, SetManyChannels dataTbl fuel o channel data = some o2
        ∧ o2.written
          = o.written ++ callWrites dataTbl data o._lastSent o.controllers channel := by
    intro fuel s hs
    refine ⟨_, SetManyChannels_of_encodeFrame dataTbl data o channel fuel s hen hser hok htx hs, ?_⟩
    have k := hs
    unfold encodeFrame at k
    rw [hser] at k
    exact controllerLoop_written dataTbl data o._lastSent fuel o.controllers _ s k
      (fun _ _ => rfl)
  refine ⟨?_, hcall, ?_, ?_, ?_⟩
  · intro s unit_id channels_per_pass
    rw [hser]
    constructor
    · intro hch
      rw [onePass_written, (changedIn_iff _ _ _ _).mpr hch]
      exact ⟨_, rfl⟩
    · intro hq
      rw [onePass_written, changedIn_false_of_eq _ _ _ _ hq]
      simp
  · intro lastSent unit_id start n
    unfold passWrite
    constructor
    · intro hch
      rw [(changedIn_iff _ _ _ _).mpr hch]
      rfl
    · intro hq
      rw [changedIn_false_of_eq _ _ _ _ hq]
      rfl
  · intro fuel s hs hq
    refine ⟨_, SetManyChannels_of_encodeFrame dataTbl data o channel fuel s hen hser hok htx hs, ?_⟩
    exact (encodeFrame_extends dataTbl data o channel fuel s hs).2.2 hq
  · intro fuel hwf hfuel
    obtain ⟨s, hs⟩ := encodeFrame_terminates dataTbl data o channel fuel hwf hfuel
    obtain ⟨o2, h1, h2⟩ := hcall fuel s hs
    exact ⟨s, o2, hs, h1, h2⟩

theorem SetManyChannels_writes_witness :
    ((freshOutput [acController 16 AddressMode.LOR_ADDR_MODE_NORMAL])._enabled = true
      ∧ (freshOutput [acController 16 AddressMode.LOR_ADDR_MODE_NORMAL]).has_serial = true
      ∧ (freshOutput [acController 16 AddressMode.LOR_ADDR_MODE_NORMAL])._ok = true
      ∧ (freshOutput [acController 16 AddressMode.LOR_ADDR_MODE_NORMAL]).tx_empty = true)
    ∧ (∃ o2, SetManyChannels (fun v => v) 16
          (freshOutput [acController 16 AddressMode.LOR_ADDR_MODE_NORMAL]) 0 (fun _ => 0xFF)
          = some o2
        ∧ o2.written = [])
    ∧ (∃ o2, SetManyChannels (fun v => v) 16
          (freshOutput [acController 16 AddressMode.LOR_ADDR_MODE_NORMAL]) 0 mixedFrame
          = some o2
        ∧ o2.written
          = [[0, 1, 0x53, 0, 0x40, 1, 0, 1, 0x31, 2, 0, 1, 0x13, 7, 0xFC, 0xFF, 0, 0]])
    ∧ (∃ o2, SetManyChannels (fun v => v) 33
          (freshOutput [acController 33 AddressMode.LOR_ADDR_MODE_LEGACY]) 0
          (fun c => if c = 20 then 0 else 0xFF) = some o2
        ∧ o2.written = [[0, 2, 0x11, 0xEF, 0xFF, 0, 0]]) := by
  have h := SetManyChannels_writes (fun v => v) (fun _ => 0xFF)
    (freshOutput [acController 16 AddressMode.LOR_ADDR_MODE_NORMAL]) 0 rfl rfl rfl rfl
  obtain ⟨s, _, hs, _⟩ := h.2.2.2.2 16 (fun it hit => (acController_planned 16 it hit).1)
    (fun it hit => by rw [(acController_planned 16 it hit).2]; exact le_refl _)
  obtain ⟨_, o2, _, ho2, hw2⟩ := (SetManyChannels_writes (fun v => v) mixedFrame
    (freshOutput [acController 16 AddressMode.LOR_ADDR_MODE_NORMAL]) 0 rfl rfl rfl rfl).2.2.2.2 16
    (fun it hit => (acController_planned 16 it hit).1)
    (fun it hit => by rw [(acController_planned 16 it hit).2]; exact le_refl _)
  obtain ⟨_, o3, _, ho3, hw3⟩ := (SetManyChannels_writes (fun v => v)
    (fun c => if c = 20 then 0 else 0xFF)
    (freshOutput [acController 33 AddressMode.LOR_ADDR_MODE_LEGACY]) 0 rfl rfl rfl rfl).2.2.2.2 33
    (by decide) (by decide)
  refine ⟨⟨rfl, rfl, rfl, rfl⟩, h.2.2.2.1 16 s hs (fun _ _ _ => rfl), ⟨o2, ho2, ?_⟩,
    ⟨o3, ho3, ?_⟩⟩
  · rw [hw2]
    decide
  · rw [hw3]
    decide

/-! ## The per-pass buffer and its size -/

end LOROptimisedOutput
